import Mathlib

/-!
# giantswarm/versionbundle: the aggregation engine

A shallow embedding of `aggregate.go` and `bundle.go` of the vendored package
`github.com/giantswarm/versionbundle`, followed by theorems about it.

Conventions of the embedding.

* A Go `string` is a Lean `String`; Go's `<` on strings (bytewise lexicographic)
  is `strLess`, the lexicographic order on code points, which is the same order
  on well-formed UTF-8.
* A Go slice that is inspected by `reflect.DeepEqual` (the three slice fields of
  `Bundle`) is a `Slice`, which keeps the nil slice apart from the empty one,
  as `reflect.DeepEqual` does.  A slice that the code only measures, ranges
  over and appends to is the `List` of its elements.
* A function returning `error` returns `Except Error Unit`; a function
  returning `(v, error)` returns `Except Error V`.
-/

namespace Versionbundle

/-! ## Data model -/

/-- A Go slice whose nil-ness is observable: `Slice.nil` is the nil slice,
`Slice.mk xs` a non-nil slice holding `xs` (possibly empty). -/
inductive Slice (α : Type) where
  | nil : Slice α
  | mk (xs : List α) : Slice α
  deriving DecidableEq, Repr

/-- The elements a `range` loop over the slice visits. -/
def Slice.elems {α : Type} : Slice α → List α
  | Slice.nil => []
  | Slice.mk xs => xs

/-- Go's `len`. -/
def Slice.len {α : Type} (s : Slice α) : Nat := s.elems.length

/-- The `Changelog` struct (its fields appear in the tests). -/
structure Changelog where
  Component : String
  Description : String
  Kind : String
  deriving DecidableEq, Repr

/-- The `Component` struct. -/
structure Component where
  Name : String
  Version : String
  deriving DecidableEq, Repr

/-- The `Dependency` struct; `Version` holds a constraint expression. -/
structure Dependency where
  Name : String
  Version : String
  deriving DecidableEq, Repr

/-- Go's `time.Time`: the wall and ext words and the location pointer
(`none` is the nil pointer). -/
structure Time where
  wall : Nat
  ext : Int
  loc : Option String
  deriving DecidableEq, Repr

/-- The zero value `var emptyTime time.Time`. -/
def emptyTime : Time := ⟨0, 0, none⟩

/-- The `Bundle` struct of bundle.go. The derived equality is
`reflect.DeepEqual` on bundles. -/
structure Bundle where
  Changelogs : Slice Changelog
  Components : Slice Component
  Dependencies : Slice Dependency
  Deprecated : Bool
  Name : String
  Time : Time
  Version : String
  WIP : Bool
  deriving DecidableEq, Repr

/-- The kind of an error: `invalidBundleError`, the only kind the sources under
study name, or another kind, given by its name, as the entry validators outside
the sources may return. -/
inductive ErrorKind where
  | invalidBundleError
  | other (name : String)
  deriving DecidableEq, Repr

/-- A microerror value: its kind and the formatted reason. -/
structure Error where
  kind : ErrorKind
  reason : String
  deriving DecidableEq, Repr

/-! ## String order -/

/-- Lexicographic `<` on sequences of numbers. -/
def lexLess : List Nat → List Nat → Bool
  | [], [] => false
  | [], _ :: _ => true
  | _ :: _, [] => false
  | a :: as, b :: bs => if a < b then true else if b < a then false else lexLess as bs

/-- The code points of a string. -/
def codes (s : String) : List Nat := s.data.map Char.toNat

/-- Go's `s < t` on strings. -/
def strLess (s t : String) : Bool := lexLess (codes s) (codes t)

/-! ## Sorting (package `sort`) -/

/-- Insert `a` in front of the first element that is not less than it. -/
def insertBy (less : Bundle → Bundle → Bool) (a : Bundle) : List Bundle → List Bundle
  | [] => [a]
  | b :: l => if less b a then b :: insertBy less a l else a :: b :: l

/-- A stable sort by `less`: `sort.Stable`. -/
def sortStable (less : Bundle → Bundle → Bool) : List Bundle → List Bundle
  | [] => []
  | a :: l => insertBy less a (sortStable less l)

/-- Go's `sort.Sort`. It promises a sorted permutation and nothing about the
relative order of elements with equal keys; the model takes the stable
outcome. `newGroupOf_sort_irrelevant` below shows that `Aggregate` does not
depend on that choice. -/
def sortSort (less : Bundle → Bundle → Bool) (l : List Bundle) : List Bundle :=
  sortStable less l

/-- `SortBundlesByName.Less`. -/
def SortBundlesByName.Less (a b : Bundle) : Bool := strLess a.Name b.Name

/-- `SortBundlesByVersion.Less`. -/
def SortBundlesByVersion.Less (a b : Bundle) : Bool := strLess a.Version b.Version

/-! ## The version constraint matcher

`dependency.go`, which declares `Dependency.Matches`, is not among the sources.
`Aggregate` and its helpers below take the matcher as an argument, so their
theorems hold for every matcher; `Dependency.Matches` is the matcher of the
spec's §4.1, used where a concrete one is needed. -/

/-- The operator of a constraint expression. -/
inductive Operator where
  | eq
  | le
  | lt
  | ge
  | gt
  deriving DecidableEq, Repr

/-- One dotted segment of a constraint's version: a number or the wildcard `x`. -/
inductive Segment where
  | wildcard
  | num (n : Nat)
  deriving DecidableEq, Repr

/-- Split a character sequence at every occurrence of `sep`. -/
def splitAt (sep : Char) : List Char → List (List Char)
  | [] => [[]]
  | c :: cs =>
    if c = sep then [] :: splitAt sep cs
    else
      match splitAt sep cs with
      | [] => [[c]]
      | seg :: rest => (c :: seg) :: rest

/-- The value of a non-empty sequence of decimal digits. -/
def parseNumber (cs : List Char) : Option Nat :=
  if cs = [] then none
  else cs.foldl (fun acc c =>
    match acc with
    | none => none
    | some n => if 48 ≤ c.toNat ∧ c.toNat ≤ 57 then some (n * 10 + (c.toNat - 48)) else none)
    (some 0)

/-- Read every element with `f`, failing when one of them fails. -/
def parseAll {α β : Type} (f : α → Option β) : List α → Option (List β)
  | [] => some []
  | a :: l =>
    match f a, parseAll f l with
    | some b, some bs => some (b :: bs)
    | _, _ => none

/-- A segment of a constraint's version. -/
def parseSegment (cs : List Char) : Option Segment :=
  if cs = ['x'] then some Segment.wildcard else (parseNumber cs).map Segment.num

/-- The operator prefix of a constraint expression and what follows it; no
prefix means exact match. -/
def splitOperator (cs : List Char) : Operator × List Char :=
  match cs with
  | a :: b :: rest =>
    if a = '=' ∧ b = '=' then (Operator.eq, rest)
    else if a = '<' ∧ b = '=' then (Operator.le, rest)
    else if a = '>' ∧ b = '=' then (Operator.ge, rest)
    else if a = '<' then (Operator.lt, b :: rest)
    else if a = '>' then (Operator.gt, b :: rest)
    else (Operator.eq, cs)
  | [a] =>
    if a = '<' then (Operator.lt, [])
    else if a = '>' then (Operator.gt, [])
    else (Operator.eq, cs)
  | [] => (Operator.eq, [])

/-- Compare a component version with a constraint's version, numerically per
segment from the left; a wildcard ends the comparison. -/
def compareSegments : List Nat → List Segment → Ordering
  | c :: cs, Segment.num d :: ds =>
    if c < d then Ordering.lt else if d < c then Ordering.gt else compareSegments cs ds
  | _, _ => Ordering.eq

/-- Whether the outcome of the comparison satisfies the operator. -/
def Operator.holds : Operator → Ordering → Bool
  | Operator.eq, o => decide (o = Ordering.eq)
  | Operator.le, o => decide (o ≠ Ordering.gt)
  | Operator.lt, o => decide (o = Ordering.lt)
  | Operator.ge, o => decide (o ≠ Ordering.lt)
  | Operator.gt, o => decide (o = Ordering.gt)

/-- Modelled from the spec: `Dependency.Matches` of dependency.go, which is not
among the sources. §4.1: an operator prefix (`==`, `<=`, `<`, `>=`, `>`, or
none meaning exact match) followed by a dotted version in which a segment may
be the wildcard `x`; the component version is compared numerically per segment,
left to right, and a wildcard segment and all segments to its right are
ignored. An expression or version that does not parse matches nothing. -/
def Dependency.Matches (d : Dependency) (c : Component) : Bool :=
  let (op, rest) := splitOperator d.Version.data
  match parseAll parseSegment (splitAt '.' (rest.dropWhile (fun ch => decide (ch = ' ')))),
        parseAll parseNumber (splitAt '.' c.Version.data) with
  | some segments, some numbers => op.holds (compareSegments numbers segments)
  | _, _ => false

/-! ## bundle.go: group validation -/

/-- The inner loop of `ValidateGroupedBundles.Validate`: the number of
deprecated bundles of a group. -/
def deprecatedCount (group : List Bundle) : Nat :=
  group.foldl (fun n bundle => if bundle.Deprecated then n + 1 else n) 0

/-- The first loop of `ValidateGroupedBundles.Validate` (lines 181-188): for a
non-empty list, whether some group's length differs from `l := len(b[0])`. -/
def ValidateGroupedBundles.lengthsDiffer : List (List Bundle) → Bool
  | [] => false
  | g0 :: rest => (g0 :: rest).any (fun group => decide (g0.length ≠ group.length))

/-- `ValidateGroupedBundles.Validate` of bundle.go. `b` is the list of groups. -/
def ValidateGroupedBundles.Validate (b : List (List Bundle)) : Except Error Unit :=
  if ValidateGroupedBundles.lengthsDiffer b then
    Except.error ⟨ErrorKind.invalidBundleError, ""⟩
  else if b.any (fun group => decide (deprecatedCount group = b.length)) then
    Except.error ⟨ErrorKind.invalidBundleError, "at least one bundle must not be deprecated"⟩
  else
    Except.ok ()

/-! ## aggregate.go -/

/-- `bundlesConflictWithDependencies`, with `Dependency.Matches` passed as
`Matches`. -/
def bundlesConflictWithDependencies (Matches : Dependency → Component → Bool)
    (b1 b2 : Bundle) : Bool :=
  b1.Dependencies.elems.any (fun d =>
    b2.Components.elems.any (fun c =>
      if d.Name ≠ c.Name then false else !(Matches d c)))

/-- `containsGroupedBundle`: `reflect.DeepEqual` on two groups. Every group that
reaches it is a non-nil slice (it starts as `[]Bundle{b1}`), so the equality of
the member lists is the deep equality of the slices. -/
def containsGroupedBundle (list : List (List Bundle)) (item : List Bundle) : Bool :=
  list.any (fun grouped => decide (grouped = item))

/-- `containsBundleByName`: whether some member of `list` has the name of
`item`. -/
def containsBundleByName (list : List Bundle) (item : Bundle) : Bool :=
  list.any (fun b => decide (b.Name = item.Name))

/-- The assignment `m[k] = struct{}{}` on a Go map used as a set, held as the
list of its keys. -/
def setKey (m : List String) (k : String) : List String :=
  if k ∈ m then m else m ++ [k]

/-- `distinctCount`: the size of the map after every name has been assigned. -/
def distinctCount (list : List Bundle) : Nat :=
  (list.foldl (fun m b => setKey m b.Name) []).length

/-- One pass of the inner loop of `Aggregate` (lines 29-47): what becomes of
`newGroup` when `b2` is visited. -/
def newGroupStep (Matches : Dependency → Component → Bool) (b1 : Bundle)
    (newGroup : List Bundle) (b2 : Bundle) : List Bundle :=
  if b1 = b2 then newGroup
  else if bundlesConflictWithDependencies Matches b1 b2 then newGroup
  else if bundlesConflictWithDependencies Matches b2 b1 then newGroup
  else if containsBundleByName newGroup b2 then newGroup
  else newGroup ++ [b2]

/-- The candidate group of the seed `b1` (lines 25-50): the inner loop and the
two sorts. -/
def newGroupOf (Matches : Dependency → Component → Bool) (bundles : List Bundle)
    (b1 : Bundle) : List Bundle :=
  sortStable SortBundlesByName.Less
    (sortSort SortBundlesByVersion.Less
      (bundles.foldl (newGroupStep Matches b1) [b1]))

/-- One pass of the outer loop of `Aggregate` (lines 24-61). -/
def groupedStep (Matches : Dependency → Component → Bool) (bundles : List Bundle)
    (groupedBundles : List (List Bundle)) (b1 : Bundle) : List (List Bundle) :=
  let newGroup := newGroupOf Matches bundles b1
  if containsGroupedBundle groupedBundles newGroup then groupedBundles
  else if distinctCount bundles ≠ newGroup.length then groupedBundles
  else groupedBundles ++ [newGroup]

/-- The outer loop of `Aggregate`, started on `var groupedBundles [][]Bundle`. -/
def groupBundles (Matches : Dependency → Component → Bool) (bundles : List Bundle) :
    List (List Bundle) :=
  bundles.foldl (groupedStep Matches bundles) []

/-- `Aggregate` of aggregate.go, with `Dependency.Matches` passed as `Matches`.
The returned slice is nil exactly when it is empty, so `[]` stands for the
`nil` result; `microerror.Mask` keeps the error it wraps. -/
def Aggregate (Matches : Dependency → Component → Bool) (bundles : List Bundle) :
    Except Error (List (List Bundle)) :=
  if bundles.length = 0 then Except.ok []
  else if bundles.length = 1 then Except.ok [bundles]
  else
    let groupedBundles := groupBundles Matches bundles
    match ValidateGroupedBundles.Validate groupedBundles with
    | Except.error err => Except.error err
    | Except.ok _ => Except.ok groupedBundles

/-! ## Auxiliary notions used in the statements -/

/-- Whether `c` carries the authority name `n` and is conflict-free with the
seed `b1` in both directions: the test a bundle of another authority has to
pass to join the group of `b1`. `bundles.find? (fits Matches b1 n)` is the
first bundle of the input, in input order, that passes it. -/
def fits (Matches : Dependency → Component → Bool) (b1 : Bundle) (n : String)
    (c : Bundle) : Bool :=
  decide (c.Name = n) && !bundlesConflictWithDependencies Matches b1 c &&
    !bundlesConflictWithDependencies Matches c b1

/-- The members of a list ascend weakly by authority name. -/
def NameAscending (l : List Bundle) : Prop :=
  l.Pairwise (fun a b => strLess b.Name a.Name = false)

/-- The members of a list ascend strictly by authority name. -/
def NameStrictAscending (l : List Bundle) : Prop :=
  l.Pairwise (fun a b => strLess a.Name b.Name = true)

/-- Equality of results is decidable, so that results can be computed. -/
instance instDecidableEqExcept {ε α : Type} [DecidableEq ε] [DecidableEq α] :
    DecidableEq (Except ε α)
  | Except.ok a, Except.ok b =>
    if h : a = b then isTrue (by rw [h]) else isFalse (fun h2 => h (Except.ok.inj h2))
  | Except.error a, Except.error b =>
    if h : a = b then isTrue (by rw [h]) else isFalse (fun h2 => h (Except.error.inj h2))
  | Except.ok _, Except.error _ => isFalse (fun h => by cases h)
  | Except.error _, Except.ok _ => isFalse (fun h => by cases h)

/-! ## Bundles of the test suite

The bundles of `Test_Aggregate` (aggregate_test.go), and variants of them.
`time.Unix(sec, nsec)` is the wall word `nsec`, the ext word
`sec + 62135596800` and the location `Local`. -/

/-- The bundle `cloud-config-operator` 0.2.0 of tests 5 and 6; it exposes
`kubernetes` 1.7.1. -/
def cloudConfigOperator020 : Bundle :=
  { Changelogs := Slice.mk
      [⟨"etcd", "Etcd version updated.", "changed"⟩,
       ⟨"kubernetes", "Kubernetes version updated.", "changed"⟩],
    Components := Slice.mk [⟨"etcd", "3.2.0"⟩, ⟨"kubernetes", "1.7.1"⟩],
    Dependencies := Slice.mk [],
    Deprecated := false,
    Name := "cloud-config-operator",
    Time := ⟨15, 62135596820, some "Local"⟩,
    Version := "0.2.0",
    WIP := false }

/-- The bundle `cloud-config-operator` 0.3.0 of tests 5 and 6; it exposes
`kubernetes` 1.8.1. -/
def cloudConfigOperator030 : Bundle :=
  { Changelogs := Slice.mk [⟨"kubernetes", "Kubernetes version updated.", "changed"⟩],
    Components := Slice.mk [⟨"etcd", "3.2.0"⟩, ⟨"kubernetes", "1.8.1"⟩],
    Dependencies := Slice.mk [],
    Deprecated := false,
    Name := "cloud-config-operator",
    Time := ⟨20, 62135596830, some "Local"⟩,
    Version := "0.3.0",
    WIP := false }

/-- The bundle `kubernetes-operator` 0.1.0 of test 5; it depends on
`kubernetes` at `<= 1.8.x`. -/
def kubernetesOperator : Bundle :=
  { Changelogs := Slice.mk
      [⟨"calico", "Calico version updated.", "changed"⟩,
       ⟨"kubernetes", "Kubernetes version requirements changed due to calico update.",
        "changed"⟩],
    Components := Slice.mk [⟨"calico", "1.1.0"⟩, ⟨"kube-dns", "1.0.0"⟩],
    Dependencies := Slice.mk [⟨"kubernetes", "<= 1.8.x"⟩],
    Deprecated := false,
    Name := "kubernetes-operator",
    Time := ⟨5, 62135596810, some "Local"⟩,
    Version := "0.1.0",
    WIP := false }

/-- The bundle `kubernetes-operator` 0.1.0 of test 6; it depends on
`kubernetes` at `== 1.8.1`. -/
def kubernetesOperatorPinned : Bundle :=
  { kubernetesOperator with Dependencies := Slice.mk [⟨"kubernetes", "== 1.8.1"⟩] }

/-- A bundle of a third authority, without dependencies, exposing a component
no other bundle here depends on. -/
def awsOperator010 : Bundle :=
  { Changelogs := Slice.mk [⟨"aws", "AWS resources updated.", "changed"⟩],
    Components := Slice.mk [⟨"aws", "1.0.0"⟩],
    Dependencies := Slice.mk [],
    Deprecated := false,
    Name := "aws-operator",
    Time := ⟨25, 62135596840, some "Local"⟩,
    Version := "0.1.0",
    WIP := false }

/-- A second bundle of the authority `aws-operator`. -/
def awsOperator020 : Bundle :=
  { awsOperator010 with
    Components := Slice.mk [⟨"aws", "1.1.0"⟩],
    Time := ⟨30, 62135596850, some "Local"⟩,
    Version := "0.2.0" }

/-- The bundle `cloud-config-operator` 0.2.0, marked deprecated. -/
def cloudConfigOperatorDeprecated : Bundle :=
  { cloudConfigOperator020 with Deprecated := true }

/-- The bundle `cloud-config-operator` 0.3.0, marked deprecated. -/
def cloudConfigOperator030Deprecated : Bundle :=
  { cloudConfigOperator030 with Deprecated := true }

/-- The bundle `aws-operator` 0.1.0, marked deprecated. -/
def awsOperatorDeprecated : Bundle :=
  { awsOperator010 with Deprecated := true }

/-- The bundle `kubernetes-operator` 0.2.0: a later bundle of the authority of
`kubernetesOperatorPinned`, depending on `kubernetes` at `<= 1.8.x`. -/
def kubernetesOperator020 : Bundle :=
  { kubernetesOperator with
    Time := ⟨35, 62135596860, some "Local"⟩,
    Version := "0.2.0" }

/-- The bundle `kubernetes-operator` 0.1.0 of test 3; it depends on
`kubernetes` at `<= 1.7.x`. -/
def kubernetesOperatorWildcard : Bundle :=
  { kubernetesOperator with Dependencies := Slice.mk [⟨"kubernetes", "<= 1.7.x"⟩] }

/-- The bundle `kubernetes-operator` 0.1.0 of test 4; it depends on
`kubernetes` at `<= 1.7.0`. -/
def kubernetesOperatorExact : Bundle :=
  { kubernetesOperator with Dependencies := Slice.mk [⟨"kubernetes", "<= 1.7.0"⟩] }

/-! ## Further notions used in the statements -/

/-- The two values `Aggregate` returns, `([][]Bundle, error)`, as a pair; `[]`
is the nil slice of groups and `none` the nil error. Lines 14, 21, 65 and 68 of
aggregate.go are its four `return` statements. -/
def Aggregate.returned (Matches : Dependency → Component → Bool) (bundles : List Bundle) :
    List (List Bundle) × Option Error :=
  if bundles.length = 0 then ([], none)
  else if bundles.length = 1 then ([bundles], none)
  else
    let groupedBundles := groupBundles Matches bundles
    match ValidateGroupedBundles.Validate groupedBundles with
    | Except.error err => ([], some err)
    | Except.ok _ => (groupedBundles, none)

/-- The bundle `b` with its WIP flag negated and every other field kept. -/
def flipWIP (b : Bundle) : Bundle :=
  { b with WIP := !b.WIP }

/-- Append to `acc`, in order, the elements of a list that are not yet
present: what a loop does that appends each new item unless it is already
contained. -/
def appendNew {α : Type} [DecidableEq α] (acc : List α) : List α → List α
  | [] => acc
  | g :: l => if g ∈ acc then appendNew acc l else appendNew (acc ++ [g]) l

/-- Whether `x` and `y` conflict in neither direction. -/
def conflictFree (Matches : Dependency → Component → Bool) (x y : Bundle) : Bool :=
  !bundlesConflictWithDependencies Matches x y && !bundlesConflictWithDependencies Matches y x

/-- The two bundles `a` and `b` in ascending order of authority name. -/
def pairGroup (a b : Bundle) : List Bundle :=
  if strLess a.Name b.Name then [a, b] else [b, a]

/-! ## bundle.go: bundle validation

`Changelog.Validate`, `Component.Validate`, `Dependency.Validate` and
`isPositiveNumber` are declared in files that are not among the sources.
`Bundle.Validate` and `ValidateBundles.Validate` take them as the argument `V`,
so their theorems hold whatever these four functions do. -/

/-- The four functions `Bundle.Validate` calls that are declared outside the
sources. -/
structure Validators where
  changelog : Changelog → Except Error Unit
  component : Component → Except Error Unit
  dependency : Dependency → Except Error Unit
  isPositiveNumber : String → Bool

/-- A loop `for _, x := range xs { err := x.Validate(); if err != nil { return
... } }`: the error of the first entry that fails, `none` when none fails. -/
def firstError {α : Type} (validate : α → Except Error Unit) : List α → Option Error
  | [] => none
  | a :: l =>
    match validate a with
    | Except.error err => some err
    | Except.ok _ => firstError validate l

/-- Go's `strings.Split(s, sep)` for a one-character separator. -/
def stringsSplit (s : String) (sep : Char) : List String :=
  (splitAt sep s.data).map String.mk

/-- The error `microerror.Maskf(invalidBundleError, reason)`. For an error
`err` of an entry, `err.Error()` is its reason. -/
def invalidBundle (reason : String) : Error :=
  ⟨ErrorKind.invalidBundleError, reason⟩

/-- The check of the version (lines 91-106 of bundle.go). -/
def Bundle.validateVersion (V : Validators) (b : Bundle) : Except Error Unit :=
  match stringsSplit b.Version '.' with
  | [major, minor, patch] =>
    if !V.isPositiveNumber major then
      Except.error (invalidBundle "major version must be positive number")
    else if !V.isPositiveNumber minor then
      Except.error (invalidBundle "minor version must be positive number")
    else if !V.isPositiveNumber patch then
      Except.error (invalidBundle "patch version must be positive number")
    else
      Except.ok ()
  | _ => Except.error (invalidBundle "version format must be '<major>.<minor>.<patch>'")

/-- `Bundle.Validate` of bundle.go. -/
def Bundle.Validate (V : Validators) (b : Bundle) : Except Error Unit :=
  if b.Changelogs.len = 0 then
    Except.error (invalidBundle "changelogs must not be empty")
  else
    match firstError V.changelog b.Changelogs.elems with
    | some err => Except.error (invalidBundle err.reason)
    | none =>
      if b.Components.len = 0 then
        Except.error (invalidBundle "components must not be empty")
      else
        match firstError V.component b.Components.elems with
        | some err => Except.error (invalidBundle err.reason)
        | none =>
          match firstError V.dependency b.Dependencies.elems with
          | some err => Except.error (invalidBundle err.reason)
          | none =>
            if b.Time = emptyTime then
              Except.error (invalidBundle "time must not be empty")
            else if b.Name = "" then
              Except.error (invalidBundle "name must not be empty")
            else
              Bundle.validateVersion V b

/-- The inner loop of `hasDuplicatedVersions` (lines 163-171) for the version
`v` of `b1`, entered with the counter at `seen`. -/
def ValidateBundles.seenTwice (v : String) : Nat → List Bundle → Bool
  | _, [] => false
  | seen, b2 :: rest =>
    if v = b2.Version then
      if seen + 1 ≥ 2 then true else ValidateBundles.seenTwice v (seen + 1) rest
    else
      ValidateBundles.seenTwice v seen rest

/-- `ValidateBundles.hasDuplicatedVersions`. -/
def ValidateBundles.hasDuplicatedVersions (b : List Bundle) : Bool :=
  b.any (fun b1 => ValidateBundles.seenTwice b1.Version 0 b)

/-- The last loop of `ValidateBundles.Validate` (lines 147-154): for a non-empty
list, whether some bundle's name differs from `b[0].Name`. -/
def ValidateBundles.namesDiffer : List Bundle → Bool
  | [] => false
  | b0 :: rest => (b0 :: rest).any (fun bundle => decide (bundle.Name ≠ b0.Name))

/-- `ValidateBundles.Validate` of bundle.go. -/
def ValidateBundles.Validate (V : Validators) (b : List Bundle) : Except Error Unit :=
  if ValidateBundles.hasDuplicatedVersions b then
    Except.error (invalidBundle "")
  else
    match firstError (Bundle.Validate V) b with
    | some err => Except.error (invalidBundle err.reason)
    | none =>
      if deprecatedCount b = b.length then
        Except.error (invalidBundle "at least one bundle must not be deprecated")
      else if ValidateBundles.namesDiffer b then
        Except.error (invalidBundle "name must be the same for all bundles")
      else
        Except.ok ()

/-! ## The entry validators of the spec

The spec's §4.2 describes the validation of the entries as name and
non-empty-field checks, and §4.1 has a malformed constraint expression rejected
when the bundle is validated. They are used where concrete validators are
needed. -/

/-- Modelled from the spec: `Changelog.Validate` of changelog.go, which is not
among the sources. §4.2: a non-empty-field check of the three fields. -/
def Changelog.Validate (c : Changelog) : Except Error Unit :=
  if c.Component = "" then
    Except.error ⟨ErrorKind.other "invalidChangelogError", "component must not be empty"⟩
  else if c.Description = "" then
    Except.error ⟨ErrorKind.other "invalidChangelogError", "description must not be empty"⟩
  else if c.Kind = "" then
    Except.error ⟨ErrorKind.other "invalidChangelogError", "kind must not be empty"⟩
  else
    Except.ok ()

/-- Modelled from the spec: `Component.Validate` of component.go, which is not
among the sources. §4.2: a non-empty-field check of the two fields. -/
def Component.Validate (c : Component) : Except Error Unit :=
  if c.Name = "" then
    Except.error ⟨ErrorKind.other "invalidComponentError", "name must not be empty"⟩
  else if c.Version = "" then
    Except.error ⟨ErrorKind.other "invalidComponentError", "version must not be empty"⟩
  else
    Except.ok ()

/-- Whether a constraint expression starts with one of the operators `==`,
`<=`, `>=`, `<`, `>`. -/
def hasOperator (cs : List Char) : Bool :=
  match cs with
  | a :: b :: _ => (a = '=' ∧ b = '=') ∨ a = '<' ∨ a = '>'
  | [a] => a = '<' ∨ a = '>'
  | [] => false

/-- Modelled from the spec: `Dependency.Validate` of dependency.go, which is not
among the sources. §4.2 and §4.1: the name is not empty and the version is a
well-formed constraint expression, an operator followed by a dotted version
whose segments are numbers or the wildcard `x`. Test 8 of `Test_Bundle_Validate`
expects the expression `1.7.x`, which has no operator, to be rejected, so the
operator is required here. -/
def Dependency.Validate (d : Dependency) : Except Error Unit :=
  if d.Name = "" then
    Except.error ⟨ErrorKind.other "invalidDependencyError", "name must not be empty"⟩
  else if !hasOperator d.Version.data then
    Except.error ⟨ErrorKind.other "invalidDependencyError", "version must have an operator"⟩
  else
    match parseAll parseSegment
        (splitAt '.' ((splitOperator d.Version.data).2.dropWhile (fun ch => decide (ch = ' ')))) with
    | some _ => Except.ok ()
    | none =>
      Except.error ⟨ErrorKind.other "invalidDependencyError", "version format is invalid"⟩

/-- Modelled from the spec: `isPositiveNumber`, which is not among the sources.
§3: the segments of a version are non-negative integers; the string is a
non-empty sequence of decimal digits. -/
def isPositiveNumber (s : String) : Bool :=
  (parseNumber s.data).isSome

/-- The validators of the spec. -/
def specValidators : Validators :=
  ⟨Changelog.Validate, Component.Validate, Dependency.Validate, isPositiveNumber⟩

/-- The bundle of test 8 of `Test_Bundle_Validate`: its dependency has the
version expression `1.7.x`, without operator. -/
def kubernetesOperatorNoOperator : Bundle :=
  { kubernetesOperator with
    Dependencies := Slice.mk [⟨"kubernetes", "1.7.x"⟩],
    Deprecated := true }

/-- The bundle of test 0 of `Test_Bundle_Validate`: the zero value `Bundle{}`. -/
def emptyBundle : Bundle :=
  { Changelogs := Slice.nil,
    Components := Slice.nil,
    Dependencies := Slice.nil,
    Deprecated := false,
    Name := "",
    Time := emptyTime,
    Version := "",
    WIP := false }

/-- The bundle `kubernetes-operator` of test 2 with a changelog whose
component is empty. -/
def kubernetesOperatorBadChangelog : Bundle :=
  { kubernetesOperator with
    Changelogs := Slice.mk [⟨"", "Calico version updated.", "changed"⟩] }

/-! ## Well-formed versions and the comparison in the spec's words -/

/-- The characters of an operator. -/
def Operator.symbol : Operator → List Char
  | Operator.eq => ['=', '=']
  | Operator.le => ['<', '=']
  | Operator.lt => ['<']
  | Operator.ge => ['>', '=']
  | Operator.gt => ['>']

/-- The characters of a segment: the decimal digits of a number, or `x`. -/
def Segment.render : Segment → List Char
  | Segment.wildcard => ['x']
  | Segment.num n => Nat.toDigits 10 n

/-- Segments joined by dots. -/
def renderDotted : List (List Char) → List Char
  | [] => []
  | [s] => s
  | s :: t :: rest => s ++ '.' :: renderDotted (t :: rest)

/-- A well-formed constraint expression (§4.1): an operator and a blank, or no
prefix at all, followed by the dotted segments. -/
def renderConstraint (op : Option Operator) (segments : List Segment) : String :=
  match op with
  | some o => String.mk (o.symbol ++ ' ' :: renderDotted (segments.map Segment.render))
  | none => String.mk (renderDotted (segments.map Segment.render))

/-- A well-formed concrete version: dotted decimal numbers. -/
def renderVersion (numbers : List Nat) : String :=
  String.mk (renderDotted (numbers.map (Nat.toDigits 10)))

/-- The numbers of a constraint's version to the left of its first wildcard. -/
def anchorOf : List Segment → List Nat
  | Segment.num n :: rest => n :: anchorOf rest
  | _ => []

/-- Follows the spec's words (§4.1): the component's version is compared with
the constraint's version numerically per segment, left to right, and a wildcard
segment and all segments to its right are ignored. The outcome is the
lexicographic order of the two sequences of numbers cut at the wildcard. -/
def specCompare (numbers : List Nat) (segments : List Segment) : Ordering :=
  if lexLess (numbers.take (anchorOf segments).length) (anchorOf segments) then Ordering.lt
  else if lexLess (anchorOf segments) (numbers.take (anchorOf segments).length) then
    Ordering.gt
  else Ordering.eq

/-! ## `Aggregate` with another first sort

Line 49 of aggregate.go sorts the candidate group by version string before
line 50 sorts it stably by name. The definitions below are those of `Aggregate`
with the sort of line 49 replaced by a function `presort`; with `presort` the
identity, line 49 is left out. -/

/-- The candidate group of the seed `b1` with `presort` in place of the sort by
version. -/
def newGroupOfWith (presort : List Bundle → List Bundle)
    (Matches : Dependency → Component → Bool) (bundles : List Bundle)
    (b1 : Bundle) : List Bundle :=
  sortStable SortBundlesByName.Less
    (presort (bundles.foldl (newGroupStep Matches b1) [b1]))

/-- One pass of the outer loop with `presort` in place of the sort by version. -/
def groupedStepWith (presort : List Bundle → List Bundle)
    (Matches : Dependency → Component → Bool) (bundles : List Bundle)
    (groupedBundles : List (List Bundle)) (b1 : Bundle) : List (List Bundle) :=
  let newGroup := newGroupOfWith presort Matches bundles b1
  if containsGroupedBundle groupedBundles newGroup then groupedBundles
  else if distinctCount bundles ≠ newGroup.length then groupedBundles
  else groupedBundles ++ [newGroup]

/-- `Aggregate` with `presort` in place of the sort by version. -/
def AggregateWith (presort : List Bundle → List Bundle)
    (Matches : Dependency → Component → Bool) (bundles : List Bundle) :
    Except Error (List (List Bundle)) :=
  if bundles.length = 0 then Except.ok []
  else if bundles.length = 1 then Except.ok [bundles]
  else
    let groupedBundles := bundles.foldl (groupedStepWith presort Matches bundles) []
    match ValidateGroupedBundles.Validate groupedBundles with
    | Except.error err => Except.error err
    | Except.ok _ => Except.ok groupedBundles

/-- The valid bundle of test 12 of `Test_Bundle_Validate` with a version of four
segments and the zero time. -/
def kubernetesOperatorNoTimeBadVersion : Bundle :=
  { kubernetesOperatorWildcard with Time := emptyTime, Version := "1.2.3.4" }

/-! ## The order on strings -/

theorem lexLess_irrefl (a : List Nat) : lexLess a a = false := by
  induction a with
  | nil => rfl
  | cons x xs ih => simp [lexLess, ih]

theorem lexLess_trans : ∀ (a b c : List Nat),
    lexLess a b = true → lexLess b c = true → lexLess a c = true := by
  intro a
  induction a with
  | nil =>
    intro b c hab hbc
    cases b with
    | nil => simp [lexLess] at hab
    | cons y ys =>
      cases c with
      | nil => simp [lexLess] at hbc
      | cons z zs => simp [lexLess]
  | cons x xs ih =>
    intro b c hab hbc
    cases b with
    | nil => simp [lexLess] at hab
    | cons y ys =>
      cases c with
      | nil => simp [lexLess] at hbc
      | cons z zs =>
        simp only [lexLess] at hab hbc ⊢
        by_cases hxy : x < y
        · by_cases hyz : y < z
          · have : x < z := by omega
            simp [this]
          · by_cases hzy : z < y
            · simp [hyz, hzy] at hbc
            · have : x < z := by omega
              simp [this]
        · by_cases hyx : y < x
          · simp [hxy, hyx] at hab
          · have hxy2 : x = y := by omega
            subst hxy2
            simp only [hxy, if_false] at hab
            by_cases hxz : x < z
            · simp [hxz]
            · by_cases hzx : z < x
              · simp [hxz, hzx] at hbc
              · simp only [hxz, hzx, if_false] at hbc ⊢
                exact ih ys zs hab hbc

theorem lexLess_connex : ∀ (a b : List Nat),
    lexLess a b = false → lexLess b a = false → a = b := by
  intro a
  induction a with
  | nil =>
    intro b hab _
    cases b with
    | nil => rfl
    | cons y ys => simp [lexLess] at hab
  | cons x xs ih =>
    intro b hab hba
    cases b with
    | nil => simp [lexLess] at hba
    | cons y ys =>
      simp only [lexLess] at hab hba
      by_cases hxy : x < y
      · simp [hxy] at hab
      · by_cases hyx : y < x
        · simp [hyx] at hba
        · have hxy2 : x = y := by omega
          subst hxy2
          simp only [hxy, if_false] at hab hba
          rw [ih ys hab hba]

theorem codes_injective {s t : String} (h : codes s = codes t) : s = t := by
  apply String.ext
  unfold codes at h
  refine List.map_injective_iff.mpr ?_ h
  intro c d hcd
  apply Char.ext
  exact UInt32.ext (by simpa [Char.toNat] using hcd)

theorem strLess_irrefl (s : String) : strLess s s = false :=
  lexLess_irrefl (codes s)

theorem strLess_trans {s t u : String} (h1 : strLess s t = true) (h2 : strLess t u = true) :
    strLess s u = true :=
  lexLess_trans _ _ _ h1 h2

theorem strLess_connex {s t : String} (h1 : strLess s t = false) (h2 : strLess t s = false) :
    s = t :=
  codes_injective (lexLess_connex _ _ h1 h2)

theorem strLess_asymm {s t : String} (h : strLess s t = true) : strLess t s = false := by
  cases h2 : strLess t s with
  | false => rfl
  | true =>
    have := strLess_trans h h2
    rw [strLess_irrefl] at this
    cases this

/-- The weak order is transitive: `s ≤ t ≤ u` gives `s ≤ u`. -/
theorem strLess_le_trans {s t u : String} (h1 : strLess t s = false) (h2 : strLess u t = false) :
    strLess u s = false := by
  cases h3 : strLess u s with
  | false => rfl
  | true =>
    cases h4 : strLess s t with
    | true =>
      have := strLess_trans h3 h4
      rw [h2] at this
      cases this
    | false =>
      have hst : s = t := strLess_connex h4 h1
      subst hst
      rw [h2] at h3
      cases h3

/-! ## Sorting -/

theorem insertBy_perm (less : Bundle → Bundle → Bool) (a : Bundle) (l : List Bundle) :
    (insertBy less a l).Perm (a :: l) := by
  induction l with
  | nil => exact List.Perm.refl _
  | cons b l ih =>
    unfold insertBy
    split
    · exact ((List.Perm.cons b ih).trans (List.Perm.swap a b l))
    · exact List.Perm.refl _

theorem sortStable_perm (less : Bundle → Bundle → Bool) (l : List Bundle) :
    (sortStable less l).Perm l := by
  induction l with
  | nil => exact List.Perm.refl _
  | cons a l ih =>
    unfold sortStable
    exact (insertBy_perm less a _).trans (List.Perm.cons a ih)

theorem sortSort_perm (less : Bundle → Bundle → Bool) (l : List Bundle) :
    (sortSort less l).Perm l :=
  sortStable_perm less l

theorem insertBy_nameAscending (a : Bundle) (l : List Bundle) (h : NameAscending l) :
    NameAscending (insertBy SortBundlesByName.Less a l) := by
  induction l with
  | nil => simp [insertBy, NameAscending]
  | cons b l ih =>
    unfold NameAscending at h
    rw [List.pairwise_cons] at h
    unfold insertBy
    split
    · rename_i hba
      have hba2 : strLess b.Name a.Name = true := hba
      unfold NameAscending
      rw [List.pairwise_cons]
      refine ⟨?_, ih h.2⟩
      intro c hc
      have hc2 := (insertBy_perm SortBundlesByName.Less a l).subset hc
      rcases List.mem_cons.mp hc2 with rfl | hcl
      · exact strLess_asymm hba2
      · exact h.1 c hcl
    · rename_i hba
      have hba2 : strLess b.Name a.Name = false := by
        simpa [SortBundlesByName.Less] using hba
      unfold NameAscending
      rw [List.pairwise_cons, List.pairwise_cons]
      refine ⟨?_, h.1, h.2⟩
      intro c hc
      rcases List.mem_cons.mp hc with rfl | hcl
      · exact hba2
      · exact strLess_le_trans hba2 (h.1 c hcl)

theorem sortStable_nameAscending (l : List Bundle) :
    NameAscending (sortStable SortBundlesByName.Less l) := by
  induction l with
  | nil => simp [sortStable, NameAscending]
  | cons a l ih =>
    unfold sortStable
    exact insertBy_nameAscending a _ ih

theorem nameStrictAscending_of_nodup {l : List Bundle} (h : NameAscending l)
    (hn : (l.map Bundle.Name).Nodup) : NameStrictAscending l := by
  have hn2 : l.Pairwise (fun a b => a.Name ≠ b.Name) := by
    rw [List.Nodup, List.pairwise_map] at hn
    exact hn
  refine (h.and hn2).imp ?_
  intro a b hab
  cases hlt : strLess a.Name b.Name with
  | true => rfl
  | false => exact absurd (strLess_connex hlt hab.1) hab.2

theorem NameStrictAscending.nodup_names {l : List Bundle} (h : NameStrictAscending l) :
    (l.map Bundle.Name).Nodup := by
  rw [List.Nodup, List.pairwise_map]
  refine List.Pairwise.imp ?_ h
  intro a b hab heq
  rw [heq, strLess_irrefl] at hab
  cases hab

theorem nodup_of_nodup_names {l : List Bundle} (h : (l.map Bundle.Name).Nodup) : l.Nodup :=
  List.Nodup.of_map _ h

/-- A list that ascends strictly by name is determined by its members. -/
theorem NameStrictAscending.eq_of_perm {l₁ l₂ : List Bundle} (h₁ : NameStrictAscending l₁)
    (h₂ : NameStrictAscending l₂) (hp : l₁.Perm l₂) : l₁ = l₂ := by
  refine List.Perm.eq_of_sorted ?_ h₁ h₂ hp
  intro a b _ _ hab hba
  have := strLess_asymm hab
  rw [hba] at this
  cases this

/-! ## The inner loop of `Aggregate` -/

theorem containsBundleByName_eq_true {l : List Bundle} {b : Bundle} :
    containsBundleByName l b = true ↔ ∃ c ∈ l, c.Name = b.Name := by
  simp [containsBundleByName]

theorem containsBundleByName_eq_false {l : List Bundle} {b : Bundle} :
    containsBundleByName l b = false ↔ ∀ c ∈ l, c.Name ≠ b.Name := by
  simp [containsBundleByName]

/-- The inner loop body either leaves the group alone or appends `b2`, and it
appends exactly when `b2` differs from the seed, is conflict-free with it in
both directions and brings a new authority name. -/
theorem newGroupStep_eq (Matches : Dependency → Component → Bool) (b1 b2 : Bundle)
    (acc : List Bundle) :
    newGroupStep Matches b1 acc b2 =
      if b1 ≠ b2 ∧ fits Matches b1 b2.Name b2 = true ∧ containsBundleByName acc b2 = false
      then acc ++ [b2] else acc := by
  unfold newGroupStep fits
  by_cases h1 : b1 = b2
  · simp [h1]
  · by_cases h2 : bundlesConflictWithDependencies Matches b1 b2 = true
    · simp [h1, h2]
    · by_cases h3 : bundlesConflictWithDependencies Matches b2 b1 = true
      · simp [h1, h2, h3]
      · by_cases h4 : containsBundleByName acc b2 = true
        · simp [h1, h2, h3, h4]
        · simp [h1, h2, h3, h4]

/-- Membership in the group the inner loop builds from `acc`: the members of
`acc`, and for every authority name not yet in `acc` the first bundle of `l`
that fits. -/
theorem mem_foldl_newGroupStep (Matches : Dependency → Component → Bool) (b1 b : Bundle) :
    ∀ (l acc : List Bundle), b1 ∈ acc →
      (b ∈ l.foldl (newGroupStep Matches b1) acc ↔
        b ∈ acc ∨ (containsBundleByName acc b = false ∧
          l.find? (fits Matches b1 b.Name) = some b)) := by
  intro l
  induction l with
  | nil => intro acc _; simp
  | cons x l ih =>
    intro acc hb1
    rw [List.foldl_cons, newGroupStep_eq]
    split
    · rename_i hacc
      obtain ⟨hne, hfit, hnew⟩ := hacc
      rw [ih (acc ++ [x]) (List.mem_append_left _ hb1)]
      have hfitx : fits Matches b1 b.Name x = decide (x.Name = b.Name) := by
        unfold fits at hfit ⊢
        simp only [decide_True, Bool.true_and, Bool.and_eq_true] at hfit
        simp [hfit.1, hfit.2]
      by_cases hname : x.Name = b.Name
      · have hc : containsBundleByName (acc ++ [x]) b = true :=
          containsBundleByName_eq_true.mpr ⟨x, by simp, hname⟩
        rw [List.find?_cons, hfitx]
        simp only [hname, decide_True, hc, List.mem_append, List.mem_singleton]
        constructor
        · rintro ((h | h) | h)
          · exact Or.inl h
          · subst h
            exact Or.inr ⟨hnew, rfl⟩
          · exact absurd h.1 (by simp)
        · rintro (h | h)
          · exact Or.inl (Or.inl h)
          · exact Or.inl (Or.inr (Option.some.inj h.2).symm)
      · have hc : containsBundleByName (acc ++ [x]) b = containsBundleByName acc b := by
          simp [containsBundleByName, hname]
        have hbx : b ≠ x := fun h => hname (by rw [h])
        rw [List.find?_cons, hfitx, hc]
        simp [hname, hbx]
    · rename_i hrej
      rw [ih acc hb1]
      by_cases hc : containsBundleByName acc b = true
      · simp [hc]
      · have hc2 : containsBundleByName acc b = false := by simpa using hc
        have hfitx : fits Matches b1 b.Name x = false := by
          cases hf : fits Matches b1 b.Name x with
          | false => rfl
          | true =>
            exfalso
            have hname : x.Name = b.Name := by
              unfold fits at hf
              simp only [Bool.and_eq_true, decide_eq_true_eq] at hf
              exact hf.1.1
            rw [containsBundleByName_eq_false] at hc2
            apply hrej
            refine ⟨?_, ?_, ?_⟩
            · intro h
              subst h
              exact hc2 b1 hb1 hname
            · rw [hname]; exact hf
            · rw [containsBundleByName_eq_false]
              intro c hcm
              rw [hname]
              exact hc2 c hcm
        rw [List.find?_cons, hfitx]

/-- The names of the group the inner loop builds stay pairwise different. -/
theorem nodup_names_foldl_newGroupStep (Matches : Dependency → Component → Bool) (b1 : Bundle) :
    ∀ (l acc : List Bundle), (acc.map Bundle.Name).Nodup →
      ((l.foldl (newGroupStep Matches b1) acc).map Bundle.Name).Nodup := by
  intro l
  induction l with
  | nil => intro acc h; exact h
  | cons x l ih =>
    intro acc h
    rw [List.foldl_cons, newGroupStep_eq]
    split
    · rename_i hacc
      apply ih
      rw [List.map_append, List.map_singleton]
      refine List.Nodup.append h (List.nodup_singleton _) ?_
      rw [List.disjoint_singleton]  
      intro hmem
      obtain ⟨c, hc, hcn⟩ := List.mem_map.mp hmem
      exact (containsBundleByName_eq_false.mp hacc.2.2) c hc hcn
    · exact ih acc h

/-! ## The candidate group of a seed -/

theorem newGroupOf_perm (Matches : Dependency → Component → Bool) (bundles : List Bundle)
    (b1 : Bundle) :
    (newGroupOf Matches bundles b1).Perm (bundles.foldl (newGroupStep Matches b1) [b1]) :=
  (sortStable_perm _ _).trans (sortSort_perm _ _)

/-- The members of the candidate group of `b1`: the seed, and for every other
authority name the first bundle of the input that fits. -/
theorem mem_newGroupOf (Matches : Dependency → Component → Bool) (bundles : List Bundle)
    (b1 b : Bundle) :
    b ∈ newGroupOf Matches bundles b1 ↔
      b = b1 ∨ (b.Name ≠ b1.Name ∧ bundles.find? (fits Matches b1 b.Name) = some b) := by
  rw [(newGroupOf_perm Matches bundles b1).mem_iff,
    mem_foldl_newGroupStep Matches b1 b bundles [b1] (List.mem_singleton.mpr rfl)]
  simp only [List.mem_singleton, containsBundleByName_eq_false]
  constructor
  · rintro (h | ⟨h1, h2⟩)
    · exact Or.inl h
    · exact Or.inr ⟨fun h => h1 b1 rfl h.symm, h2⟩
  · rintro (h | ⟨h1, h2⟩)
    · exact Or.inl h
    · refine Or.inr ⟨?_, h2⟩
      intro c hc
      rw [hc]
      exact fun h => h1 h.symm

theorem seed_mem_newGroupOf (Matches : Dependency → Component → Bool) (bundles : List Bundle)
    (b1 : Bundle) : b1 ∈ newGroupOf Matches bundles b1 :=
  (mem_newGroupOf Matches bundles b1 b1).mpr (Or.inl rfl)

theorem newGroupOf_nodup_names (Matches : Dependency → Component → Bool)
    (bundles : List Bundle) (b1 : Bundle) :
    ((newGroupOf Matches bundles b1).map Bundle.Name).Nodup := by
  have h := nodup_names_foldl_newGroupStep Matches b1 bundles [b1] (by simp)
  exact ((newGroupOf_perm Matches bundles b1).map Bundle.Name).nodup_iff.mpr h

theorem newGroupOf_strictAscending (Matches : Dependency → Component → Bool)
    (bundles : List Bundle) (b1 : Bundle) :
    NameStrictAscending (newGroupOf Matches bundles b1) :=
  nameStrictAscending_of_nodup (sortStable_nameAscending _)
    (newGroupOf_nodup_names Matches bundles b1)

/-- What a member of the candidate group other than the seed satisfies. -/
theorem of_mem_newGroupOf {Matches : Dependency → Component → Bool} {bundles : List Bundle}
    {b1 b : Bundle} (h : b ∈ newGroupOf Matches bundles b1) (hne : b ≠ b1) :
    b ∈ bundles ∧ b.Name ≠ b1.Name ∧
      bundlesConflictWithDependencies Matches b1 b = false ∧
      bundlesConflictWithDependencies Matches b b1 = false := by
  rcases (mem_newGroupOf Matches bundles b1 b).mp h with h1 | ⟨h1, h2⟩
  · exact absurd h1 hne
  · have hfit := List.find?_some h2
    unfold fits at hfit
    simp only [Bool.and_eq_true, decide_eq_true_eq, Bool.not_eq_true'] at hfit
    exact ⟨List.mem_of_find?_eq_some h2, h1, hfit.1.2, hfit.2⟩

/-- The result of the final stable sort by name does not depend on the order
in which the group reaches it; so the outcome of `sort.Sort` on members with
equal versions is irrelevant. -/
theorem newGroupOf_sort_irrelevant (Matches : Dependency → Component → Bool)
    (bundles : List Bundle) (b1 : Bundle) (l : List Bundle)
    (h : l.Perm (bundles.foldl (newGroupStep Matches b1) [b1])) :
    sortStable SortBundlesByName.Less l = newGroupOf Matches bundles b1 := by
  have hp : (sortStable SortBundlesByName.Less l).Perm (newGroupOf Matches bundles b1) :=
    ((sortStable_perm _ l).trans h).trans (newGroupOf_perm Matches bundles b1).symm
  refine NameStrictAscending.eq_of_perm ?_ (newGroupOf_strictAscending Matches bundles b1) hp
  refine nameStrictAscending_of_nodup (sortStable_nameAscending _) ?_
  exact (hp.map Bundle.Name).nodup_iff.mpr (newGroupOf_nodup_names Matches bundles b1)

/-! ## The outer loop of `Aggregate` -/

theorem containsGroupedBundle_eq_true {list : List (List Bundle)} {item : List Bundle} :
    containsGroupedBundle list item = true ↔ item ∈ list := by
  simp [containsGroupedBundle]

/-- The outer loop body appends the candidate group of `b1` exactly when it is
new and has one member per authority name of the input. -/
theorem groupedStep_eq (Matches : Dependency → Component → Bool) (bundles : List Bundle)
    (acc : List (List Bundle)) (b1 : Bundle) :
    groupedStep Matches bundles acc b1 =
      if containsGroupedBundle acc (newGroupOf Matches bundles b1) = true then acc
      else if distinctCount bundles ≠ (newGroupOf Matches bundles b1).length then acc
      else acc ++ [newGroupOf Matches bundles b1] := rfl

/-- Membership in the list of groups the outer loop builds from `acc`. -/
theorem mem_foldl_groupedStep (Matches : Dependency → Component → Bool)
    (bundles : List Bundle) (g : List Bundle) :
    ∀ (l : List Bundle) (acc : List (List Bundle)),
      (g ∈ l.foldl (groupedStep Matches bundles) acc ↔
        g ∈ acc ∨ ∃ b1 ∈ l, g = newGroupOf Matches bundles b1 ∧
          distinctCount bundles = g.length) := by
  intro l
  induction l with
  | nil => intro acc; simp
  | cons x l ih =>
    intro acc
    rw [List.foldl_cons, groupedStep_eq]
    by_cases h1 : containsGroupedBundle acc (newGroupOf Matches bundles x) = true
    · rw [if_pos h1, ih acc]
      rw [containsGroupedBundle_eq_true] at h1
      constructor
      · rintro (h | ⟨b1, hb1, h⟩)
        · exact Or.inl h
        · exact Or.inr ⟨b1, List.mem_cons_of_mem _ hb1, h⟩
      · rintro (h | ⟨b1, hb1, h⟩)
        · exact Or.inl h
        · rcases List.mem_cons.mp hb1 with rfl | hb1
          · rw [h.1]; exact Or.inl h1
          · exact Or.inr ⟨b1, hb1, h⟩
    · rw [if_neg h1]
      by_cases h2 : distinctCount bundles ≠ (newGroupOf Matches bundles x).length
      · rw [if_pos h2, ih acc]
        constructor
        · rintro (h | ⟨b1, hb1, h⟩)
          · exact Or.inl h
          · exact Or.inr ⟨b1, List.mem_cons_of_mem _ hb1, h⟩
        · rintro (h | ⟨b1, hb1, h⟩)
          · exact Or.inl h
          · rcases List.mem_cons.mp hb1 with rfl | hb1
            · exact absurd (h.1 ▸ h.2) h2
            · exact Or.inr ⟨b1, hb1, h⟩
      · rw [if_neg h2, ih (acc ++ [newGroupOf Matches bundles x])]
        have h3 : distinctCount bundles = (newGroupOf Matches bundles x).length := by
          simpa using h2
        constructor
        · rintro (h | ⟨b1, hb1, h⟩)
          · rcases List.mem_append.mp h with h | h
            · exact Or.inl h
            · rw [List.mem_singleton] at h
              exact Or.inr ⟨x, List.mem_cons_self _ _, h, h ▸ h3⟩
          · exact Or.inr ⟨b1, List.mem_cons_of_mem _ hb1, h⟩
        · rintro (h | ⟨b1, hb1, h⟩)
          · exact Or.inl (List.mem_append_left _ h)
          · rcases List.mem_cons.mp hb1 with rfl | hb1
            · exact Or.inl (List.mem_append_right _ (List.mem_singleton.mpr h.1))
            · exact Or.inr ⟨b1, hb1, h⟩

/-- Every group the outer loop keeps is the candidate group of some seed of
the input and has one member per authority name of the input. -/
theorem mem_groupBundles (Matches : Dependency → Component → Bool) (bundles : List Bundle)
    (g : List Bundle) :
    g ∈ groupBundles Matches bundles ↔
      ∃ b1 ∈ bundles, g = newGroupOf Matches bundles b1 ∧ distinctCount bundles = g.length := by
  unfold groupBundles
  rw [mem_foldl_groupedStep]
  simp

theorem nodup_foldl_groupedStep (Matches : Dependency → Component → Bool)
    (bundles : List Bundle) :
    ∀ (l : List Bundle) (acc : List (List Bundle)), acc.Nodup →
      (l.foldl (groupedStep Matches bundles) acc).Nodup := by
  intro l
  induction l with
  | nil => intro acc h; exact h
  | cons x l ih =>
    intro acc h
    rw [List.foldl_cons]
    apply ih
    rw [groupedStep_eq]
    by_cases h1 : containsGroupedBundle acc (newGroupOf Matches bundles x) = true
    · rw [if_pos h1]; exact h
    · rw [if_neg h1]
      split
      · exact h
      · refine List.Nodup.append h (List.nodup_singleton _) ?_
        rw [List.disjoint_singleton]
        intro hmem
        exact h1 (containsGroupedBundle_eq_true.mpr hmem)

theorem nodup_groupBundles (Matches : Dependency → Component → Bool) (bundles : List Bundle) :
    (groupBundles Matches bundles).Nodup :=
  nodup_foldl_groupedStep Matches bundles bundles [] List.nodup_nil

/-! ## `distinctCount` -/

theorem foldl_setKey (l : List Bundle) : ∀ acc : List String, acc.Nodup →
    (l.foldl (fun m b => setKey m b.Name) acc).Nodup ∧
    (l.foldl (fun m b => setKey m b.Name) acc).toFinset =
      acc.toFinset ∪ (l.map Bundle.Name).toFinset := by
  induction l with
  | nil => intro acc h; simp [h]
  | cons x l ih =>
    intro acc h
    rw [List.foldl_cons]
    by_cases hx : x.Name ∈ acc
    · have hs : setKey acc x.Name = acc := by simp [setKey, hx]
      rw [hs]
      refine ⟨(ih acc h).1, ?_⟩
      rw [(ih acc h).2]
      ext n
      simp only [Finset.mem_union, List.mem_toFinset, List.map_cons, List.mem_cons]
      constructor
      · rintro (h1 | h1)
        · exact Or.inl h1
        · exact Or.inr (Or.inr h1)
      · rintro (h1 | h1 | h1)
        · exact Or.inl h1
        · exact Or.inl (h1 ▸ hx)
        · exact Or.inr h1
    · have hs : setKey acc x.Name = acc ++ [x.Name] := by simp [setKey, hx]
      rw [hs]
      have hnd : (acc ++ [x.Name]).Nodup := by
        refine List.Nodup.append h (List.nodup_singleton _) ?_
        rw [List.disjoint_singleton]
        exact hx
      refine ⟨(ih _ hnd).1, ?_⟩
      rw [(ih _ hnd).2]
      ext n
      simp only [Finset.mem_union, List.mem_toFinset, List.map_cons, List.mem_cons,
        List.mem_append, List.not_mem_nil, or_false]
      constructor
      · rintro ((h1 | h1) | h1)
        · exact Or.inl h1
        · exact Or.inr (Or.inl h1)
        · exact Or.inr (Or.inr h1)
      · rintro (h1 | h1 | h1)
        · exact Or.inl (Or.inl h1)
        · exact Or.inl (Or.inr h1)
        · exact Or.inr h1

/-- `distinctCount` is the number of distinct authority names of the list. -/
theorem distinctCount_eq_card (l : List Bundle) :
    distinctCount l = (l.map Bundle.Name).toFinset.card := by
  unfold distinctCount
  have h := foldl_setKey l [] List.nodup_nil
  rw [← List.toFinset_card_of_nodup h.1, h.2]
  simp

/-- A list with pairwise different names drawn from `bundles` that covers every
name of `bundles` has `distinctCount bundles` members. -/
theorem distinctCount_eq_length_of_cover {bundles sel : List Bundle}
    (hsub : ∀ b ∈ sel, b ∈ bundles) (hnd : (sel.map Bundle.Name).Nodup)
    (hcover : ∀ b ∈ bundles, ∃ c ∈ sel, c.Name = b.Name) :
    distinctCount bundles = sel.length := by
  rw [distinctCount_eq_card, ← List.length_map sel Bundle.Name,
    ← List.toFinset_card_of_nodup hnd]
  congr 1
  ext n
  simp only [List.mem_toFinset, List.mem_map]
  constructor
  · rintro ⟨b, hb, rfl⟩
    obtain ⟨c, hc, hcn⟩ := hcover b hb
    exact ⟨c, hc, hcn⟩
  · rintro ⟨c, hc, rfl⟩
    exact ⟨c, hsub c hc, rfl⟩

/-! ## `ValidateGroupedBundles.Validate` -/

theorem foldl_deprecated (g : List Bundle) : ∀ k : Nat,
    g.foldl (fun n bundle => if bundle.Deprecated then n + 1 else n) k =
      k + g.countP (fun b => b.Deprecated) := by
  induction g with
  | nil => intro k; simp
  | cons x g ih =>
    intro k
    rw [List.foldl_cons, ih]
    cases hx : x.Deprecated
    · simp [List.countP_cons, hx]
    · simp [List.countP_cons, hx]; omega

theorem deprecatedCount_eq_countP (g : List Bundle) :
    deprecatedCount g = g.countP (fun b => b.Deprecated) := by
  unfold deprecatedCount
  rw [foldl_deprecated]
  simp

/-- Every error of `ValidateGroupedBundles.Validate` is an invalid-bundle error. -/
theorem Validate_error_kind {b : List (List Bundle)} {e : Error}
    (h : ValidateGroupedBundles.Validate b = Except.error e) :
    e.kind = ErrorKind.invalidBundleError := by
  unfold ValidateGroupedBundles.Validate at h
  split at h
  · cases h; rfl
  · split at h
    · cases h; rfl
    · cases h

/-- On groups of one common length, `ValidateGroupedBundles.Validate` fails
exactly through its deprecated-bundle rule. -/
theorem Validate_of_uniform {b : List (List Bundle)} {n : Nat}
    (hlen : ∀ g ∈ b, g.length = n) :
    ValidateGroupedBundles.Validate b =
      if b.any (fun group => decide (deprecatedCount group = b.length)) then
        Except.error ⟨ErrorKind.invalidBundleError, "at least one bundle must not be deprecated"⟩
      else Except.ok () := by
  unfold ValidateGroupedBundles.Validate
  have h : ValidateGroupedBundles.lengthsDiffer b = false := by
    cases b with
    | nil => rfl
    | cons g0 t =>
      unfold ValidateGroupedBundles.lengthsDiffer
      simp only [List.any_eq_false, decide_eq_true_eq, not_not]
      intro g hg
      rw [hlen g0 (List.mem_cons_self _ _), hlen g hg]
  rw [h]
  simp

/-! ## `Aggregate` by cases on the length of the input -/

theorem Aggregate_nil (Matches : Dependency → Component → Bool) :
    Aggregate Matches [] = Except.ok [] := rfl

theorem Aggregate_singleton (Matches : Dependency → Component → Bool) (b : Bundle) :
    Aggregate Matches [b] = Except.ok [[b]] := rfl

theorem Aggregate_of_two_le (Matches : Dependency → Component → Bool) (bundles : List Bundle)
    (h : 2 ≤ bundles.length) :
    Aggregate Matches bundles =
      match ValidateGroupedBundles.Validate (groupBundles Matches bundles) with
      | Except.error err => Except.error err
      | Except.ok _ => Except.ok (groupBundles Matches bundles) := by
  unfold Aggregate
  rw [if_neg (by omega), if_neg (by omega)]

theorem newGroupOf_singleton (Matches : Dependency → Component → Bool) (b : Bundle) :
    newGroupOf Matches [b] b = [b] := by
  simp [newGroupOf, newGroupStep, sortSort, sortStable, insertBy]

theorem distinctCount_singleton (b : Bundle) : distinctCount [b] = 1 := by
  simp [distinctCount, setKey]

/-- The groups of a successful `Aggregate` are the candidate groups of the
seeds that have one member per authority name of the input. -/
theorem mem_of_Aggregate_ok {Matches : Dependency → Component → Bool} {bundles : List Bundle}
    {groups : List (List Bundle)} (h : Aggregate Matches bundles = Except.ok groups)
    (g : List Bundle) :
    g ∈ groups ↔
      ∃ b1 ∈ bundles, g = newGroupOf Matches bundles b1 ∧ distinctCount bundles = g.length := by
  match bundles, h with
  | [], h =>
    rw [Aggregate_nil] at h
    cases h
    simp
  | [b], h =>
    rw [Aggregate_singleton] at h
    cases h
    simp only [List.mem_singleton, exists_eq_left, newGroupOf_singleton, distinctCount_singleton]
    constructor
    · rintro rfl; exact ⟨rfl, rfl⟩
    · rintro ⟨h1, _⟩; exact h1
  | a :: b :: l, h =>
    rw [Aggregate_of_two_le Matches (a :: b :: l) (by simp)] at h
    split at h
    · cases h
    · cases h
      exact mem_groupBundles Matches (a :: b :: l) g

/-- The groups of a successful `Aggregate` are pairwise different. -/
theorem nodup_of_Aggregate_ok {Matches : Dependency → Component → Bool} {bundles : List Bundle}
    {groups : List (List Bundle)} (h : Aggregate Matches bundles = Except.ok groups) :
    groups.Nodup := by
  match bundles, h with
  | [], h =>
    rw [Aggregate_nil] at h
    cases h
    exact List.nodup_nil
  | [b], h =>
    rw [Aggregate_singleton] at h
    cases h
    exact List.nodup_singleton _
  | a :: b :: l, h =>
    rw [Aggregate_of_two_le Matches (a :: b :: l) (by simp)] at h
    split at h
    · cases h
    · cases h
      exact nodup_groupBundles Matches (a :: b :: l)

/-! ## The claims -/

/-- C1: for the empty bundle list, `Aggregate` returns the empty result and no
error. A nil and a zero-length input slice are both the list `[]`, and `[]` as
a result is the nil slice the code returns. -/
theorem Aggregate_empty_input (Matches : Dependency → Component → Bool) :
    Aggregate Matches [] = Except.ok [] := by
  unfold Aggregate
  simp

/-- C2: for every bundle `b`, valid or not, `Aggregate [b]` returns no error and
exactly one group, of length 1, whose only member is `b`. -/
theorem Aggregate_single_bundle (Matches : Dependency → Component → Bool) (b : Bundle) :
    Aggregate Matches [b] = Except.ok [[b]] := by
  unfold Aggregate
  simp

/-- C3: when `Aggregate` returns no error, every group of the result has as many
members as there are distinct authority names in the whole input. -/
theorem Aggregate_group_length (Matches : Dependency → Component → Bool)
    (bundles : List Bundle) (groups : List (List Bundle))
    (h : Aggregate Matches bundles = Except.ok groups) :
    ∀ g ∈ groups, g.length = (bundles.map Bundle.Name).toFinset.card := by
  intro g hg
  obtain ⟨_, _, _, hlen⟩ := (mem_of_Aggregate_ok h g).mp hg
  rw [← hlen, distinctCount_eq_card]

/-- Witness of C3 on the input of test 5. -/
theorem Aggregate_group_length_witness :
    Aggregate Dependency.Matches
        [cloudConfigOperator020, cloudConfigOperator030, kubernetesOperator] =
      Except.ok [[cloudConfigOperator020, kubernetesOperator],
        [cloudConfigOperator030, kubernetesOperator]] ∧
    ∀ g ∈ [[cloudConfigOperator020, kubernetesOperator],
        [cloudConfigOperator030, kubernetesOperator]],
      g.length = ([cloudConfigOperator020, cloudConfigOperator030,
        kubernetesOperator].map Bundle.Name).toFinset.card :=
  ⟨by decide, Aggregate_group_length Dependency.Matches _ _ (by decide)⟩

/-- C4: no group returned by `Aggregate` holds, at two different positions, two
bundles with the same authority name. -/
theorem Aggregate_group_names_distinct (Matches : Dependency → Component → Bool)
    (bundles : List Bundle) (groups : List (List Bundle))
    (h : Aggregate Matches bundles = Except.ok groups) :
    ∀ g ∈ groups, ∀ (i j : Nat) (x y : Bundle),
      i ≠ j → g[i]? = some x → g[j]? = some y → x.Name ≠ y.Name := by
  intro g hg i j x y hij hx hy hname
  obtain ⟨b1, _, rfl, _⟩ := (mem_of_Aggregate_ok h g).mp hg
  have hnd := newGroupOf_nodup_names Matches bundles b1
  have hi : i < ((newGroupOf Matches bundles b1).map Bundle.Name).length := by
    rw [List.length_map]
    exact (List.getElem?_eq_some.mp hx).1
  apply hij
  apply List.getElem?_inj hi hnd
  rw [List.getElem?_map, List.getElem?_map, hx, hy]
  simp [hname]

/-- Witness of C4 on the input of test 6. -/
theorem Aggregate_group_names_distinct_witness :
    Aggregate Dependency.Matches
        [cloudConfigOperator020, cloudConfigOperator030, kubernetesOperatorPinned] =
      Except.ok [[cloudConfigOperator030, kubernetesOperatorPinned]] ∧
    ∀ g ∈ [[cloudConfigOperator030, kubernetesOperatorPinned]], ∀ (i j : Nat) (x y : Bundle),
      i ≠ j → g[i]? = some x → g[j]? = some y → x.Name ≠ y.Name :=
  ⟨by decide, Aggregate_group_names_distinct Dependency.Matches
    [cloudConfigOperator020, cloudConfigOperator030, kubernetesOperatorPinned] _ (by decide)⟩

/-- Counterexample to C5: on three authorities, the group seeded by
`aws-operator` holds `cloud-config-operator` 0.2.0, which exposes `kubernetes`
1.7.1, next to `kubernetes-operator`, which depends on `kubernetes` at
`== 1.8.1`: two distinct members of a returned group that conflict. -/
theorem Aggregate_group_conflict_counterexample :
    Aggregate Dependency.Matches
        [awsOperator010, kubernetesOperatorPinned, cloudConfigOperator020] =
      Except.ok [[awsOperator010, cloudConfigOperator020, kubernetesOperatorPinned]] ∧
    kubernetesOperatorPinned ≠ cloudConfigOperator020 ∧
    bundlesConflictWithDependencies Dependency.Matches
      kubernetesOperatorPinned cloudConfigOperator020 = true := by
  decide

/-- C5, amended: every group returned by `Aggregate` has a member `s`, its seed,
with which every other member is conflict-free in both directions; members
other than the seed are not checked against each other. In a group of at most
two members, hence whenever the input has at most two authority names, every
pair of distinct members is therefore conflict-free in both directions. -/
theorem Aggregate_group_seed_conflict_free (Matches : Dependency → Component → Bool)
    (bundles : List Bundle) (groups : List (List Bundle))
    (h : Aggregate Matches bundles = Except.ok groups) :
    ∀ g ∈ groups,
      (∃ s ∈ g, ∀ b ∈ g, b ≠ s →
        bundlesConflictWithDependencies Matches s b = false ∧
        bundlesConflictWithDependencies Matches b s = false) ∧
      (g.length ≤ 2 → ∀ b1 ∈ g, ∀ b2 ∈ g, b1 ≠ b2 →
        bundlesConflictWithDependencies Matches b1 b2 = false ∧
        bundlesConflictWithDependencies Matches b2 b1 = false) := by
  intro g hg
  obtain ⟨s, _, rfl, _⟩ := (mem_of_Aggregate_ok h g).mp hg
  have hseed : ∀ b ∈ newGroupOf Matches bundles s, b ≠ s →
      bundlesConflictWithDependencies Matches s b = false ∧
      bundlesConflictWithDependencies Matches b s = false := by
    intro b hb hne
    have := of_mem_newGroupOf hb hne
    exact ⟨this.2.2.1, this.2.2.2⟩
  refine ⟨⟨s, seed_mem_newGroupOf Matches bundles s, hseed⟩, ?_⟩
  intro hlen b1 hb1 b2 hb2 hne
  by_cases h1 : b1 = s
  · subst h1
    exact hseed b2 hb2 (fun h2 => hne h2.symm)
  · by_cases h2 : b2 = s
    · subst h2
      exact ⟨(hseed b1 hb1 h1).2, (hseed b1 hb1 h1).1⟩
    · exfalso
      have hnd : [s, b1, b2].Nodup := by
        simp only [List.nodup_cons, List.mem_cons, List.mem_singleton, List.not_mem_nil,
          not_or, not_false_eq_true, List.nodup_nil, and_true, or_false]
        exact ⟨⟨fun h3 => h1 h3.symm, fun h3 => h2 h3.symm⟩, hne⟩
      have hsub : [s, b1, b2] ⊆ newGroupOf Matches bundles s := by
        intro x hx
        simp only [List.mem_cons, List.mem_singleton, List.not_mem_nil, or_false] at hx
        rcases hx with rfl | rfl | rfl
        · exact seed_mem_newGroupOf Matches bundles _
        · exact hb1
        · exact hb2
      have := (List.subperm_of_subset hnd hsub).length_le
      simp at this
      omega

/-- Witness of the amended C5 on the three-authority input of the
counterexample. -/
theorem Aggregate_group_seed_conflict_free_witness :
    Aggregate Dependency.Matches
        [awsOperator010, kubernetesOperatorPinned, cloudConfigOperator020] =
      Except.ok [[awsOperator010, cloudConfigOperator020, kubernetesOperatorPinned]] ∧
    ∀ g ∈ [[awsOperator010, cloudConfigOperator020, kubernetesOperatorPinned]],
      (∃ s ∈ g, ∀ b ∈ g, b ≠ s →
        bundlesConflictWithDependencies Dependency.Matches s b = false ∧
        bundlesConflictWithDependencies Dependency.Matches b s = false) ∧
      (g.length ≤ 2 → ∀ b1 ∈ g, ∀ b2 ∈ g, b1 ≠ b2 →
        bundlesConflictWithDependencies Dependency.Matches b1 b2 = false ∧
        bundlesConflictWithDependencies Dependency.Matches b2 b1 = false) :=
  ⟨by decide, Aggregate_group_seed_conflict_free Dependency.Matches
    [awsOperator010, kubernetesOperatorPinned, cloudConfigOperator020] _ (by decide)⟩

/-- Counterexample to C6: two authorities with two bundles each and no
dependencies. The selection of `cloud-config-operator` 0.3.0 and `aws-operator`
0.2.0 takes one bundle per authority and is conflict-free in both directions,
yet no returned group is an ordering of it: each seed is paired with the
first bundle of the other authority only. -/
theorem Aggregate_completeness_counterexample :
    Aggregate Dependency.Matches
        [cloudConfigOperator020, cloudConfigOperator030, awsOperator010, awsOperator020] =
      Except.ok [[awsOperator010, cloudConfigOperator020],
        [awsOperator010, cloudConfigOperator030],
        [awsOperator020, cloudConfigOperator020]] ∧
    bundlesConflictWithDependencies Dependency.Matches
      cloudConfigOperator030 awsOperator020 = false ∧
    bundlesConflictWithDependencies Dependency.Matches
      awsOperator020 cloudConfigOperator030 = false ∧
    ∀ g ∈ [[awsOperator010, cloudConfigOperator020],
        [awsOperator010, cloudConfigOperator030],
        [awsOperator020, cloudConfigOperator020]],
      ¬ g.Perm [cloudConfigOperator030, awsOperator020] := by
  decide

/-- C6, amended: when `Aggregate` returns no error, a selection `sel` of exactly
one bundle per authority name of the input appears in some member order as a
group of the result if and only if it has a member `s` such that every other
member is the first bundle of the input, in input order, that carries its
authority name and is conflict-free with `s` in both directions. -/
theorem Aggregate_first_fit_complete (Matches : Dependency → Component → Bool)
    (bundles : List Bundle) (groups : List (List Bundle))
    (h : Aggregate Matches bundles = Except.ok groups)
    (sel : List Bundle)
    (hsub : ∀ b ∈ sel, b ∈ bundles)
    (hnd : (sel.map Bundle.Name).Nodup)
    (hcover : ∀ b ∈ bundles, ∃ c ∈ sel, c.Name = b.Name) :
    (∃ g ∈ groups, g.Perm sel) ↔
      ∃ s ∈ sel, ∀ b ∈ sel, b ≠ s → bundles.find? (fits Matches s b.Name) = some b := by
  constructor
  · rintro ⟨g, hg, hperm⟩
    obtain ⟨s, _, rfl, _⟩ := (mem_of_Aggregate_ok h g).mp hg
    refine ⟨s, hperm.subset (seed_mem_newGroupOf Matches bundles s), ?_⟩
    intro b hb hbs
    rcases (mem_newGroupOf Matches bundles s b).mp (hperm.symm.subset hb) with h1 | h1
    · exact absurd h1 hbs
    · exact h1.2
  · rintro ⟨s, hs, hfirst⟩
    have hperm : (newGroupOf Matches bundles s).Perm sel := by
      rw [List.perm_ext_iff_of_nodup
        (nodup_of_nodup_names (newGroupOf_nodup_names Matches bundles s))
        (nodup_of_nodup_names hnd)]
      intro b
      rw [mem_newGroupOf]
      constructor
      · rintro (rfl | ⟨hname, hfind⟩)
        · exact hs
        · obtain ⟨c, hc, hcn⟩ := hcover b (List.mem_of_find?_eq_some hfind)
          have hcs : c ≠ s := fun hcs => hname (by rw [← hcn, hcs])
          have hfc := hfirst c hc hcs
          rw [hcn, hfind] at hfc
          rw [Option.some.inj hfc]
          exact hc
      · intro hb
        by_cases hbs : b = s
        · exact Or.inl hbs
        · refine Or.inr ⟨?_, hfirst b hb hbs⟩
          intro hname
          exact hbs (List.inj_on_of_nodup_map hnd hb hs hname)
    refine ⟨newGroupOf Matches bundles s, ?_, hperm⟩
    rw [mem_of_Aggregate_ok h]
    refine ⟨s, hsub s hs, rfl, ?_⟩
    rw [hperm.length_eq]
    exact distinctCount_eq_length_of_cover hsub hnd hcover

/-- Witness of the amended C6 on the input of test 6, with the seed
`kubernetes-operator` and `cloud-config-operator` 0.3.0, the first bundle of
its authority that satisfies `== 1.8.1`. -/
theorem Aggregate_first_fit_complete_witness :
    Aggregate Dependency.Matches
        [cloudConfigOperator020, cloudConfigOperator030, kubernetesOperatorPinned] =
      Except.ok [[cloudConfigOperator030, kubernetesOperatorPinned]] ∧
    ∃ g ∈ [[cloudConfigOperator030, kubernetesOperatorPinned]],
      g.Perm [kubernetesOperatorPinned, cloudConfigOperator030] :=
  ⟨by decide, (Aggregate_first_fit_complete Dependency.Matches
    [cloudConfigOperator020, cloudConfigOperator030, kubernetesOperatorPinned] _ (by decide)
    [kubernetesOperatorPinned, cloudConfigOperator030]
    (by decide) (by decide) (by decide)).mpr
      ⟨kubernetesOperatorPinned, by decide, by decide⟩⟩

/-- C7: no two groups at different positions of the result of `Aggregate` are
equal as value sequences. -/
theorem Aggregate_groups_distinct (Matches : Dependency → Component → Bool)
    (bundles : List Bundle) (groups : List (List Bundle))
    (h : Aggregate Matches bundles = Except.ok groups) :
    ∀ (i j : Nat) (g1 g2 : List Bundle),
      i ≠ j → groups[i]? = some g1 → groups[j]? = some g2 → g1 ≠ g2 := by
  intro i j g1 g2 hij h1 h2 heq
  apply hij
  apply List.getElem?_inj (List.getElem?_eq_some.mp h1).1 (nodup_of_Aggregate_ok h)
  rw [h1, h2, heq]

/-- Witness of C7 on the input of test 5, which yields two groups. -/
theorem Aggregate_groups_distinct_witness :
    Aggregate Dependency.Matches
        [cloudConfigOperator020, cloudConfigOperator030, kubernetesOperator] =
      Except.ok [[cloudConfigOperator020, kubernetesOperator],
        [cloudConfigOperator030, kubernetesOperator]] ∧
    ∀ (i j : Nat) (g1 g2 : List Bundle), i ≠ j →
      [[cloudConfigOperator020, kubernetesOperator],
        [cloudConfigOperator030, kubernetesOperator]][i]? = some g1 →
      [[cloudConfigOperator020, kubernetesOperator],
        [cloudConfigOperator030, kubernetesOperator]][j]? = some g2 → g1 ≠ g2 :=
  ⟨by decide, Aggregate_groups_distinct Dependency.Matches
    [cloudConfigOperator020, cloudConfigOperator030, kubernetesOperator] _ (by decide)⟩

/-- C8: no two groups at different positions of the result of `Aggregate` have
the same set of members; in particular they are not two orderings of the same
bundles. -/
theorem Aggregate_groups_distinct_as_sets (Matches : Dependency → Component → Bool)
    (bundles : List Bundle) (groups : List (List Bundle))
    (h : Aggregate Matches bundles = Except.ok groups) :
    ∀ (i j : Nat) (g1 g2 : List Bundle),
      i ≠ j → groups[i]? = some g1 → groups[j]? = some g2 →
      ¬ (∀ b, b ∈ g1 ↔ b ∈ g2) := by
  intro i j g1 g2 hij h1 h2 hset
  have hm1 : g1 ∈ groups := List.mem_iff_getElem?.mpr ⟨i, h1⟩
  have hm2 : g2 ∈ groups := List.mem_iff_getElem?.mpr ⟨j, h2⟩
  obtain ⟨s1, _, hg1, _⟩ := (mem_of_Aggregate_ok h g1).mp hm1
  obtain ⟨s2, _, hg2, _⟩ := (mem_of_Aggregate_ok h g2).mp hm2
  have ha1 : NameStrictAscending g1 := hg1 ▸ newGroupOf_strictAscending Matches bundles s1
  have ha2 : NameStrictAscending g2 := hg2 ▸ newGroupOf_strictAscending Matches bundles s2
  have hperm : g1.Perm g2 :=
    (List.perm_ext_iff_of_nodup (nodup_of_nodup_names ha1.nodup_names)
      (nodup_of_nodup_names ha2.nodup_names)).mpr hset
  have heq : g1 = g2 := ha1.eq_of_perm ha2 hperm
  apply hij
  apply List.getElem?_inj (List.getElem?_eq_some.mp h1).1 (nodup_of_Aggregate_ok h)
  rw [h1, h2, heq]

/-- Witness of C8 on the input of test 5, which yields two groups. -/
theorem Aggregate_groups_distinct_as_sets_witness :
    Aggregate Dependency.Matches
        [cloudConfigOperator020, cloudConfigOperator030, kubernetesOperator] =
      Except.ok [[cloudConfigOperator020, kubernetesOperator],
        [cloudConfigOperator030, kubernetesOperator]] ∧
    ∀ (i j : Nat) (g1 g2 : List Bundle), i ≠ j →
      [[cloudConfigOperator020, kubernetesOperator],
        [cloudConfigOperator030, kubernetesOperator]][i]? = some g1 →
      [[cloudConfigOperator020, kubernetesOperator],
        [cloudConfigOperator030, kubernetesOperator]][j]? = some g2 →
      ¬ (∀ b, b ∈ g1 ↔ b ∈ g2) :=
  ⟨by decide, Aggregate_groups_distinct_as_sets Dependency.Matches
    [cloudConfigOperator020, cloudConfigOperator030, kubernetesOperator] _ (by decide)⟩

/-- The groups the outer loop keeps all have `distinctCount bundles` members. -/
theorem length_of_mem_groupBundles {Matches : Dependency → Component → Bool}
    {bundles : List Bundle} {g : List Bundle} (hg : g ∈ groupBundles Matches bundles) :
    g.length = distinctCount bundles := by
  obtain ⟨_, _, _, hlen⟩ := (mem_groupBundles Matches bundles g).mp hg
  exact hlen.symm

/-- A rejection by `ValidateGroupedBundles.Validate` of the groups the outer
loop keeps comes with a group that holds a deprecated bundle. -/
theorem deprecated_of_Validate_groupBundles_error {Matches : Dependency → Component → Bool}
    {bundles : List Bundle} {e : Error}
    (h : ValidateGroupedBundles.Validate (groupBundles Matches bundles) = Except.error e) :
    ∃ g ∈ groupBundles Matches bundles, ∃ b ∈ g, b.Deprecated = true := by
  rw [Validate_of_uniform (fun g hg => length_of_mem_groupBundles hg)] at h
  split at h
  · rename_i hany
    rw [List.any_eq_true] at hany
    obtain ⟨g, hg, hcount⟩ := hany
    rw [decide_eq_true_eq, deprecatedCount_eq_countP] at hcount
    have hpos : 0 < (groupBundles Matches bundles).length := List.length_pos_of_mem hg
    rw [← hcount, List.countP_pos_iff] at hpos
    obtain ⟨b, hb, hdep⟩ := hpos
    exact ⟨g, hg, b, hb, hdep⟩
  · cases h

/-- Counterexample to C9: the input is a single deprecated bundle; a group is
formed, and `Aggregate` returns it without error, so every bundle of every
group of the result is deprecated. -/
theorem Aggregate_single_deprecated_counterexample :
    cloudConfigOperatorDeprecated.Deprecated = true ∧
    Aggregate Dependency.Matches [cloudConfigOperatorDeprecated] =
      Except.ok [[cloudConfigOperatorDeprecated]] := by
  decide

/-- C9, amended: `Aggregate` validates its groups only for inputs of two or more
bundles. A single-bundle input, deprecated or not, is returned as the only
group, with no error. For two or more bundles `Aggregate` returns an error
exactly when `ValidateGroupedBundles.Validate` rejects the groups formed, and
every result it returns has passed that validation. Every error of `Aggregate`
is an invalid-bundle error, comes from an input of two or more bundles, and
comes with a formed group that holds a deprecated bundle. -/
theorem Aggregate_validation_scope (Matches : Dependency → Component → Bool)
    (bundles : List Bundle) :
    (bundles.length = 1 → Aggregate Matches bundles = Except.ok [bundles]) ∧
    (2 ≤ bundles.length →
      (∀ e, Aggregate Matches bundles = Except.error e ↔
        ValidateGroupedBundles.Validate (groupBundles Matches bundles) = Except.error e) ∧
      (∀ groups, Aggregate Matches bundles = Except.ok groups →
        groups = groupBundles Matches bundles ∧
        ValidateGroupedBundles.Validate groups = Except.ok ())) ∧
    (∀ e, Aggregate Matches bundles = Except.error e →
      e.kind = ErrorKind.invalidBundleError ∧ 2 ≤ bundles.length ∧
      ∃ g ∈ groupBundles Matches bundles, ∃ b ∈ g, b.Deprecated = true) := by
  have two : 2 ≤ bundles.length →
      (∀ e, Aggregate Matches bundles = Except.error e ↔
        ValidateGroupedBundles.Validate (groupBundles Matches bundles) = Except.error e) ∧
      (∀ groups, Aggregate Matches bundles = Except.ok groups →
        groups = groupBundles Matches bundles ∧
        ValidateGroupedBundles.Validate groups = Except.ok ()) := by
    intro hlen
    rw [Aggregate_of_two_le Matches bundles hlen]
    cases hv : ValidateGroupedBundles.Validate (groupBundles Matches bundles) with
    | error err =>
      refine ⟨fun e => ?_, fun groups hg => ?_⟩
      · constructor
        · intro he; cases he; rfl
        · intro he; cases he; rfl
      · cases hg
    | ok u =>
      refine ⟨fun e => ?_, fun groups hg => ?_⟩
      · constructor <;> intro he <;> cases he
      · cases hg
        exact ⟨rfl, hv⟩
  refine ⟨?_, two, ?_⟩
  · intro hlen
    unfold Aggregate
    rw [if_neg (by omega), if_pos hlen]
  · intro e he
    have hlen : 2 ≤ bundles.length := by
      match bundles, he with
      | [], he => rw [Aggregate_nil] at he; cases he
      | [b], he => rw [Aggregate_singleton] at he; cases he
      | a :: b :: l, _ => simp
    have hv := ((two hlen).1 e).mp he
    exact ⟨Validate_error_kind hv, hlen, deprecated_of_Validate_groupBundles_error hv⟩

/-- Witness of the amended C9 on three deprecated bundles of two authorities,
which `Aggregate` rejects. -/
theorem Aggregate_validation_scope_witness :
    Aggregate Dependency.Matches
        [cloudConfigOperatorDeprecated, cloudConfigOperator030Deprecated,
          awsOperatorDeprecated] =
      Except.error ⟨ErrorKind.invalidBundleError,
        "at least one bundle must not be deprecated"⟩ ∧
    ((⟨ErrorKind.invalidBundleError,
        "at least one bundle must not be deprecated"⟩ : Error).kind =
        ErrorKind.invalidBundleError ∧
      2 ≤ [cloudConfigOperatorDeprecated, cloudConfigOperator030Deprecated,
          awsOperatorDeprecated].length ∧
      ∃ g ∈ groupBundles Dependency.Matches
          [cloudConfigOperatorDeprecated, cloudConfigOperator030Deprecated,
            awsOperatorDeprecated],
        ∃ b ∈ g, b.Deprecated = true) :=
  ⟨by decide, (Aggregate_validation_scope Dependency.Matches
    [cloudConfigOperatorDeprecated, cloudConfigOperator030Deprecated,
      awsOperatorDeprecated]).2.2 _ (by decide)⟩

/-- C10, the code at the failing input: the single group of the two deprecated
bundles `aws-operator` and `cloud-config-operator` is non-empty and consists
entirely of deprecated bundles, yet `ValidateGroupedBundles.Validate` accepts
the list, because it compares the group's two deprecated bundles with the
number of groups, one; `Aggregate` hands that list over and returns it. -/
theorem Validate_accepts_deprecated_group :
    (∀ b ∈ [awsOperatorDeprecated, cloudConfigOperatorDeprecated], b.Deprecated = true) ∧
    deprecatedCount [awsOperatorDeprecated, cloudConfigOperatorDeprecated] = 2 ∧
    [[awsOperatorDeprecated, cloudConfigOperatorDeprecated]].length = 1 ∧
    ValidateGroupedBundles.Validate
      [[awsOperatorDeprecated, cloudConfigOperatorDeprecated]] = Except.ok () ∧
    Aggregate Dependency.Matches [cloudConfigOperatorDeprecated, awsOperatorDeprecated] =
      Except.ok [[awsOperatorDeprecated, cloudConfigOperatorDeprecated]] := by
  decide

/-! ## Further lemmas on conflicts and on the returned pair -/

/-- A conflict is a dependency of `b1` and a component of `b2` of the same name
that do not match. -/
theorem bundlesConflict_eq_true_iff (Matches : Dependency → Component → Bool)
    (b1 b2 : Bundle) :
    bundlesConflictWithDependencies Matches b1 b2 = true ↔
      ∃ d ∈ b1.Dependencies.elems, ∃ c ∈ b2.Components.elems,
        d.Name = c.Name ∧ Matches d c = false := by
  unfold bundlesConflictWithDependencies
  simp only [List.any_eq_true]
  constructor
  · rintro ⟨d, hd, c, hc, h⟩
    by_cases hn : d.Name = c.Name
    · refine ⟨d, hd, c, hc, hn, ?_⟩
      simpa [hn] using h
    · simp [hn] at h
  · rintro ⟨d, hd, c, hc, hn, hm⟩
    exact ⟨d, hd, c, hc, by simp [hn, hm]⟩

/-- The pair `Aggregate` returns and its result as a value of `Except` say the
same. -/
theorem Aggregate_eq_of_returned (Matches : Dependency → Component → Bool)
    (bundles : List Bundle) :
    Aggregate Matches bundles =
      match Aggregate.returned Matches bundles with
      | (groups, none) => Except.ok groups
      | (_, some err) => Except.error err := by
  unfold Aggregate Aggregate.returned
  by_cases h0 : bundles.length = 0
  · simp [h0]
  · by_cases h1 : bundles.length = 1
    · simp [h1]
    · simp only [h0, h1, if_false]
      cases ValidateGroupedBundles.Validate (groupBundles Matches bundles) <;> rfl

/-- The members of every group the outer loop keeps are bundles of the input. -/
theorem mem_input_of_mem_newGroupOf {Matches : Dependency → Component → Bool}
    {bundles : List Bundle} {s b : Bundle} (hs : s ∈ bundles)
    (hb : b ∈ newGroupOf Matches bundles s) : b ∈ bundles := by
  by_cases hbs : b = s
  · rw [hbs]; exact hs
  · exact (of_mem_newGroupOf hb hbs).1

/-! ## The claims C11 to C20 -/

/-- C11, the code at the failing input: `cloud-config-operator` 0.2.0 marked
deprecated and `aws-operator` 0.1.0, not deprecated, are of different
authorities and conflict in neither direction. Their group has a non-deprecated
member, yet `ValidateGroupedBundles.Validate` rejects the list that holds it,
because the group's one deprecated bundle equals the number of groups, one;
`Aggregate` on the two bundles returns that error. -/
theorem Aggregate_rejects_partly_deprecated_group :
    cloudConfigOperatorDeprecated.Deprecated = true ∧
    awsOperator010.Deprecated = false ∧
    cloudConfigOperatorDeprecated.Name ≠ awsOperator010.Name ∧
    bundlesConflictWithDependencies Dependency.Matches
      cloudConfigOperatorDeprecated awsOperator010 = false ∧
    bundlesConflictWithDependencies Dependency.Matches
      awsOperator010 cloudConfigOperatorDeprecated = false ∧
    ValidateGroupedBundles.Validate [[awsOperator010, cloudConfigOperatorDeprecated]] =
      Except.error ⟨ErrorKind.invalidBundleError,
        "at least one bundle must not be deprecated"⟩ ∧
    Aggregate Dependency.Matches [cloudConfigOperatorDeprecated, awsOperator010] =
      Except.error ⟨ErrorKind.invalidBundleError,
        "at least one bundle must not be deprecated"⟩ := by
  decide

/-- C12: for every list of groups in which two groups have different lengths,
`ValidateGroupedBundles.Validate` returns an invalid-bundle error. -/
theorem Validate_rejects_unequal_lengths (b : List (List Bundle)) (g1 g2 : List Bundle)
    (h1 : g1 ∈ b) (h2 : g2 ∈ b) (hlen : g1.length ≠ g2.length) :
    ∃ e, ValidateGroupedBundles.Validate b = Except.error e ∧
      e.kind = ErrorKind.invalidBundleError := by
  have hd : ValidateGroupedBundles.lengthsDiffer b = true := by
    cases b with
    | nil => cases h1
    | cons g0 rest =>
      unfold ValidateGroupedBundles.lengthsDiffer
      rw [List.any_eq_true]
      by_cases hg : g0.length = g1.length
      · exact ⟨g2, h2, by simpa [hg] using hlen⟩
      · exact ⟨g1, h1, by simpa using hg⟩
  refine ⟨⟨ErrorKind.invalidBundleError, ""⟩, ?_, rfl⟩
  unfold ValidateGroupedBundles.Validate
  rw [if_pos hd]

/-- Witness of C12: a group of one bundle next to a group of two. -/
theorem Validate_rejects_unequal_lengths_witness :
    [cloudConfigOperator020].length ≠ [cloudConfigOperator030, kubernetesOperator].length ∧
    ∃ e, ValidateGroupedBundles.Validate
        [[cloudConfigOperator020], [cloudConfigOperator030, kubernetesOperator]] =
          Except.error e ∧
      e.kind = ErrorKind.invalidBundleError :=
  ⟨by decide, Validate_rejects_unequal_lengths
    [[cloudConfigOperator020], [cloudConfigOperator030, kubernetesOperator]]
    [cloudConfigOperator020] [cloudConfigOperator030, kubernetesOperator]
    (by decide) (by decide) (by decide)⟩

/-- C13: whenever `Aggregate` returns an error, the slice of groups it returns
with it is nil: the returned pair is `(nil, err)`, never a partial list. -/
theorem Aggregate_error_returns_no_groups (Matches : Dependency → Component → Bool)
    (bundles : List Bundle) (e : Error)
    (h : Aggregate Matches bundles = Except.error e) :
    Aggregate.returned Matches bundles = ([], some e) := by
  unfold Aggregate at h
  unfold Aggregate.returned
  by_cases h0 : bundles.length = 0
  · simp [h0] at h
  · by_cases h1 : bundles.length = 1
    · simp [h0, h1] at h
    · simp only [h0, h1, if_false] at h ⊢
      cases hv : ValidateGroupedBundles.Validate (groupBundles Matches bundles) with
      | error err =>
        rw [hv] at h
        cases h
        rfl
      | ok u =>
        rw [hv] at h
        cases h

/-- Witness of C13 on three deprecated bundles of two authorities, which
`Aggregate` rejects. -/
theorem Aggregate_error_returns_no_groups_witness :
    Aggregate Dependency.Matches
        [cloudConfigOperatorDeprecated, cloudConfigOperator030Deprecated,
          awsOperatorDeprecated] =
      Except.error ⟨ErrorKind.invalidBundleError,
        "at least one bundle must not be deprecated"⟩ ∧
    Aggregate.returned Dependency.Matches
        [cloudConfigOperatorDeprecated, cloudConfigOperator030Deprecated,
          awsOperatorDeprecated] =
      ([], some ⟨ErrorKind.invalidBundleError,
        "at least one bundle must not be deprecated"⟩) :=
  ⟨by decide, Aggregate_error_returns_no_groups Dependency.Matches _ _ (by decide)⟩

/-- C20: `Aggregate` never alters or invents a bundle: every member of every
returned group is equal, in every field, to a bundle of the input. -/
theorem Aggregate_members_from_input (Matches : Dependency → Component → Bool)
    (bundles : List Bundle) (groups : List (List Bundle))
    (h : Aggregate Matches bundles = Except.ok groups) :
    ∀ g ∈ groups, ∀ b ∈ g, b ∈ bundles := by
  intro g hg b hb
  obtain ⟨s, hs, rfl, _⟩ := (mem_of_Aggregate_ok h g).mp hg
  exact mem_input_of_mem_newGroupOf hs hb

/-- Witness of C20 on the input of test 6. -/
theorem Aggregate_members_from_input_witness :
    Aggregate Dependency.Matches
        [cloudConfigOperator020, cloudConfigOperator030, kubernetesOperatorPinned] =
      Except.ok [[cloudConfigOperator030, kubernetesOperatorPinned]] ∧
    ∀ g ∈ [[cloudConfigOperator030, kubernetesOperatorPinned]], ∀ b ∈ g,
      b ∈ [cloudConfigOperator020, cloudConfigOperator030, kubernetesOperatorPinned] :=
  ⟨by decide, Aggregate_members_from_input Dependency.Matches _ _ (by decide)⟩

/-! ## The outer loop as an append of the new candidates -/

theorem appendNew_append {α : Type} [DecidableEq α] (l1 l2 : List α) :
    ∀ acc : List α, appendNew acc (l1 ++ l2) = appendNew (appendNew acc l1) l2 := by
  induction l1 with
  | nil => intro acc; rfl
  | cons g l ih =>
    intro acc
    simp only [List.cons_append, appendNew]
    split
    · exact ih acc
    · exact ih (acc ++ [g])

/-- Elements that are pairwise different and all new are appended as they are. -/
theorem appendNew_of_new {α : Type} [DecidableEq α] :
    ∀ (l acc : List α), l.Nodup → (∀ g ∈ l, g ∉ acc) → appendNew acc l = acc ++ l := by
  intro l
  induction l with
  | nil => intro acc _ _; simp [appendNew]
  | cons g l ih =>
    intro acc hnd hnew
    rw [List.nodup_cons] at hnd
    unfold appendNew
    rw [if_neg (hnew g (List.mem_cons_self _ _))]
    rw [ih (acc ++ [g]) hnd.2]
    · simp
    · intro g2 hg2 hmem
      rcases List.mem_append.mp hmem with h | h
      · exact hnew g2 (List.mem_cons_of_mem _ hg2) h
      · rw [List.mem_singleton] at h
        exact hnd.1 (h ▸ hg2)

/-- Elements that are all present already change nothing. -/
theorem appendNew_of_old {α : Type} [DecidableEq α] :
    ∀ (l acc : List α), (∀ g ∈ l, g ∈ acc) → appendNew acc l = acc := by
  intro l
  induction l with
  | nil => intro acc _; rfl
  | cons g l ih =>
    intro acc hold
    unfold appendNew
    rw [if_pos (hold g (List.mem_cons_self _ _))]
    exact ih acc (fun g2 hg2 => hold g2 (List.mem_cons_of_mem _ hg2))

/-- The outer loop appends, in seed order, the candidate groups that have one
member per authority name of the input and are not yet present. -/
theorem foldl_groupedStep_eq_appendNew (Matches : Dependency → Component → Bool)
    (bundles : List Bundle) :
    ∀ (l : List Bundle) (acc : List (List Bundle)),
      l.foldl (groupedStep Matches bundles) acc =
        appendNew acc ((l.map (newGroupOf Matches bundles)).filter
          (fun g => decide (distinctCount bundles = g.length))) := by
  intro l
  induction l with
  | nil => intro acc; rfl
  | cons x l ih =>
    intro acc
    rw [List.foldl_cons, groupedStep_eq, List.map_cons]
    by_cases h2 : distinctCount bundles = (newGroupOf Matches bundles x).length
    · rw [List.filter_cons_of_pos (by simpa using h2)]
      simp only [appendNew]
      by_cases h1 : containsGroupedBundle acc (newGroupOf Matches bundles x) = true
      · rw [if_pos h1, if_pos (containsGroupedBundle_eq_true.mp h1)]
        exact ih acc
      · rw [if_neg h1, if_neg (fun h => h1 (containsGroupedBundle_eq_true.mpr h)),
          if_neg (fun h => h h2)]
        exact ih _
    · rw [List.filter_cons_of_neg (by simpa using h2)]
      by_cases h1 : containsGroupedBundle acc (newGroupOf Matches bundles x) = true
      · rw [if_pos h1]
        exact ih acc
      · rw [if_neg h1, if_pos h2]
        exact ih acc

theorem groupBundles_eq_appendNew (Matches : Dependency → Component → Bool)
    (bundles : List Bundle) :
    groupBundles Matches bundles =
      appendNew [] ((bundles.map (newGroupOf Matches bundles)).filter
        (fun g => decide (distinctCount bundles = g.length))) :=
  foldl_groupedStep_eq_appendNew Matches bundles bundles []

/-! ## Groups of two -/

theorem mem_pairGroup {a b x : Bundle} : x ∈ pairGroup a b ↔ x = a ∨ x = b := by
  unfold pairGroup
  split
  · simp
  · simp [or_comm]

theorem pairGroup_perm (a b : Bundle) : (pairGroup a b).Perm [a, b] := by
  unfold pairGroup
  split
  · exact List.Perm.refl _
  · exact List.Perm.swap a b []

theorem pairGroup_length (a b : Bundle) : (pairGroup a b).length = 2 := by
  unfold pairGroup
  split <;> rfl

theorem pairGroup_strictAscending {a b : Bundle} (h : a.Name ≠ b.Name) :
    NameStrictAscending (pairGroup a b) := by
  unfold pairGroup NameStrictAscending
  cases hlt : strLess a.Name b.Name with
  | true => simp [hlt]
  | false =>
    simp only [Bool.false_eq_true, if_false, List.pairwise_cons, List.mem_singleton,
      forall_eq, List.not_mem_nil, false_implies, implies_true, List.Pairwise.nil, and_true]
    cases hgt : strLess b.Name a.Name with
    | true => rfl
    | false => exact absurd (strLess_connex hlt hgt) h

/-- A group in strictly ascending name order whose members are `a` and `b` is
`pairGroup a b`. -/
theorem eq_pairGroup_of_mem {g : List Bundle} {a b : Bundle} (hg : NameStrictAscending g)
    (h : a.Name ≠ b.Name) (hmem : ∀ x, x ∈ g ↔ x = a ∨ x = b) : g = pairGroup a b := by
  refine hg.eq_of_perm (pairGroup_strictAscending h) ?_
  rw [List.perm_ext_iff_of_nodup (nodup_of_nodup_names hg.nodup_names)
    (nodup_of_nodup_names (pairGroup_strictAscending h).nodup_names)]
  intro x
  rw [hmem, mem_pairGroup]

theorem eq_singleton_of_mem {g : List Bundle} {a : Bundle} (hnd : g.Nodup)
    (hmem : ∀ x, x ∈ g ↔ x = a) : g = [a] := by
  apply List.perm_singleton.mp
  rw [List.perm_ext_iff_of_nodup hnd (List.nodup_singleton a)]
  intro x
  rw [hmem, List.mem_singleton]

/-! ## Inputs without deprecated bundles -/

theorem mem_input_of_mem_groupBundles {Matches : Dependency → Component → Bool}
    {bundles : List Bundle} {g : List Bundle} {b : Bundle}
    (hg : g ∈ groupBundles Matches bundles) (hb : b ∈ g) : b ∈ bundles := by
  obtain ⟨s, hs, rfl, _⟩ := (mem_groupBundles Matches bundles g).mp hg
  exact mem_input_of_mem_newGroupOf hs hb

theorem Validate_groupBundles_of_not_deprecated (Matches : Dependency → Component → Bool)
    (bundles : List Bundle) (h : ∀ b ∈ bundles, b.Deprecated = false) :
    ValidateGroupedBundles.Validate (groupBundles Matches bundles) = Except.ok () := by
  cases hv : ValidateGroupedBundles.Validate (groupBundles Matches bundles) with
  | ok u => rfl
  | error e =>
    exfalso
    obtain ⟨g, hg, b, hb, hdep⟩ := deprecated_of_Validate_groupBundles_error hv
    rw [h b (mem_input_of_mem_groupBundles hg hb)] at hdep
    cases hdep

theorem Aggregate_of_not_deprecated (Matches : Dependency → Component → Bool)
    (bundles : List Bundle) (hlen : 2 ≤ bundles.length)
    (h : ∀ b ∈ bundles, b.Deprecated = false) :
    Aggregate Matches bundles = Except.ok (groupBundles Matches bundles) := by
  rw [Aggregate_of_two_le Matches bundles hlen,
    Validate_groupBundles_of_not_deprecated Matches bundles h]

theorem Aggregate_of_groupBundles_nil (Matches : Dependency → Component → Bool)
    (bundles : List Bundle) (hlen : 2 ≤ bundles.length)
    (h : groupBundles Matches bundles = []) :
    Aggregate Matches bundles = Except.ok [] := by
  rw [Aggregate_of_two_le Matches bundles hlen, h]
  rfl

/-! ## One bundle of an authority against the bundles of another

The input is `l1 ++ y :: l2`: the bundles of `l1 ++ l2` share one authority
name and `y` carries another. -/

theorem find?_congr_mem {α : Type} {p q : α → Bool} :
    ∀ {l : List α}, (∀ a ∈ l, p a = q a) → l.find? p = l.find? q := by
  intro l
  induction l with
  | nil => intro _; rfl
  | cons a l ih =>
    intro h
    rw [List.find?_cons, List.find?_cons, h a (List.mem_cons_self _ _),
      ih (fun b hb => h b (List.mem_cons_of_mem _ hb))]

/-- A search skips an element that fails the test. -/
theorem find?_skip {α : Type} {p : α → Bool} {y : α} (l1 l2 : List α) (h : p y = false) :
    (l1 ++ y :: l2).find? p = (l1 ++ l2).find? p := by
  rw [List.find?_append, List.find?_append, List.find?_cons, h]

theorem fits_eq (Matches : Dependency → Component → Bool) (b1 : Bundle) (n : String)
    (c : Bundle) : fits Matches b1 n c = (decide (c.Name = n) && conflictFree Matches b1 c) := by
  unfold fits conflictFree
  rw [Bool.and_assoc]

theorem conflictFree_comm (Matches : Dependency → Component → Bool) (x y : Bundle) :
    conflictFree Matches x y = conflictFree Matches y x := by
  unfold conflictFree
  rw [Bool.and_comm]

/-- The candidate group of a bundle `x` of the many: `x` with `y` when they are
conflict-free, `x` alone otherwise. -/
theorem newGroupOf_of_many (Matches : Dependency → Component → Bool)
    (l1 l2 : List Bundle) (y x : Bundle)
    (hX : ∀ a ∈ l1 ++ l2, ∀ b ∈ l1 ++ l2, a.Name = b.Name)
    (hY : ∀ a ∈ l1 ++ l2, a.Name ≠ y.Name)
    (hx : x ∈ l1 ++ l2) :
    newGroupOf Matches (l1 ++ y :: l2) x =
      if conflictFree Matches x y = true then pairGroup x y else [x] := by
  have hmem : ∀ b, b ∈ newGroupOf Matches (l1 ++ y :: l2) x ↔
      b = x ∨ (b = y ∧ conflictFree Matches x y = true) := by
    intro b
    rw [mem_newGroupOf]
    constructor
    · rintro (h | ⟨hname, hfind⟩)
      · exact Or.inl h
      · have hb := List.mem_of_find?_eq_some hfind
        have hfit := List.find?_some hfind
        rw [fits_eq] at hfit
        simp only [Bool.and_eq_true, decide_eq_true_eq] at hfit
        have hby : b = y := by
          rw [List.mem_append, List.mem_cons] at hb
          rcases hb with h | h | h
          · exact absurd (hX b (List.mem_append_left _ h) x hx) hname
          · exact h
          · exact absurd (hX b (List.mem_append_right _ h) x hx) hname
        exact Or.inr ⟨hby, hby ▸ hfit.2⟩
    · rintro (h | ⟨hby, hcf⟩)
      · exact Or.inl h
      · subst hby
        refine Or.inr ⟨fun h => hY x hx h.symm, ?_⟩
        rw [List.find?_append]
        have h1 : l1.find? (fits Matches x b.Name) = none := by
          rw [List.find?_eq_none]
          intro a ha hfa
          rw [fits_eq] at hfa
          simp only [Bool.and_eq_true, decide_eq_true_eq] at hfa
          exact hY a (List.mem_append_left _ ha) hfa.1
        rw [h1, Option.none_or, List.find?_cons_of_pos]
        rw [fits_eq]
        simp [hcf]
  split
  · rename_i hcf
    refine eq_pairGroup_of_mem (newGroupOf_strictAscending _ _ _) (hY x hx) ?_
    intro b
    rw [hmem]
    simp [hcf]
  · rename_i hcf
    refine eq_singleton_of_mem
      (nodup_of_nodup_names (newGroupOf_nodup_names _ _ _)) ?_
    intro b
    rw [hmem]
    simp [hcf]

/-- The candidate group of the single bundle `y`: `y` with the first of the
many that is conflict-free with it, `y` alone when there is none. -/
theorem newGroupOf_of_single (Matches : Dependency → Component → Bool)
    (l1 l2 : List Bundle) (y : Bundle)
    (hX : ∀ a ∈ l1 ++ l2, ∀ b ∈ l1 ++ l2, a.Name = b.Name)
    (hY : ∀ a ∈ l1 ++ l2, a.Name ≠ y.Name) :
    newGroupOf Matches (l1 ++ y :: l2) y =
      match (l1 ++ l2).find? (fun x => conflictFree Matches x y) with
      | some x => pairGroup x y
      | none => [y] := by
  have hfind : ∀ b, b ∈ l1 ++ l2 →
      (l1 ++ y :: l2).find? (fits Matches y b.Name) =
        (l1 ++ l2).find? (fun x => conflictFree Matches x y) := by
    intro b hb
    have hyb : y.Name ≠ b.Name := fun h => hY b hb h.symm
    rw [find?_skip l1 l2 (by rw [fits_eq]; simp [hyb])]
    apply find?_congr_mem
    intro a ha
    rw [fits_eq, conflictFree_comm Matches y a]
    simp [hX a ha b hb]
  have hmem : ∀ b, b ∈ newGroupOf Matches (l1 ++ y :: l2) y ↔
      b = y ∨ (l1 ++ l2).find? (fun x => conflictFree Matches x y) = some b := by
    intro b
    rw [mem_newGroupOf]
    constructor
    · rintro (h | ⟨hname, hf⟩)
      · exact Or.inl h
      · have hb := List.mem_of_find?_eq_some hf
        have hb2 : b ∈ l1 ++ l2 := by
          rw [List.mem_append, List.mem_cons] at hb
          rcases hb with h | h | h
          · exact List.mem_append_left _ h
          · exact absurd (by rw [h]) hname
          · exact List.mem_append_right _ h
        rw [hfind b hb2] at hf
        exact Or.inr hf
    · rintro (h | hf)
      · exact Or.inl h
      · have hb2 := List.mem_of_find?_eq_some hf
        exact Or.inr ⟨hY b hb2, by rw [hfind b hb2]; exact hf⟩
  cases hf : (l1 ++ l2).find? (fun x => conflictFree Matches x y) with
  | some x =>
    have hx := List.mem_of_find?_eq_some hf
    refine eq_pairGroup_of_mem (newGroupOf_strictAscending _ _ _) (hY x hx) ?_
    intro b
    rw [hmem, hf]
    constructor
    · rintro (h | h)
      · exact Or.inr h
      · exact Or.inl (Option.some.inj h).symm
    · rintro (h | h)
      · exact Or.inr (by rw [h])
      · exact Or.inl h
  | none =>
    refine eq_singleton_of_mem
      (nodup_of_nodup_names (newGroupOf_nodup_names _ _ _)) ?_
    intro b
    rw [hmem, hf]
    simp

theorem distinctCount_of_two_names (l1 l2 : List Bundle) (y : Bundle)
    (hX : ∀ a ∈ l1 ++ l2, ∀ b ∈ l1 ++ l2, a.Name = b.Name)
    (hY : ∀ a ∈ l1 ++ l2, a.Name ≠ y.Name)
    (hk : l1 ++ l2 ≠ []) :
    distinctCount (l1 ++ y :: l2) = 2 := by
  obtain ⟨x0, hx0⟩ := List.exists_mem_of_ne_nil _ hk
  have hmemb : ∀ b, b ∈ l1 ++ y :: l2 ↔ b = y ∨ b ∈ l1 ++ l2 := by
    intro b
    simp only [List.mem_append, List.mem_cons]
    tauto
  have h := @distinctCount_eq_length_of_cover (l1 ++ y :: l2) [x0, y]
    (by
      intro b hb
      rw [hmemb]
      rcases List.mem_cons.mp hb with rfl | hb
      · exact Or.inr hx0
      · exact Or.inl (List.mem_singleton.mp hb))
    (by simp [hY x0 hx0])
    (by
      intro b hb
      rcases (hmemb b).mp hb with rfl | hb
      · exact ⟨b, by simp, rfl⟩
      · exact ⟨x0, by simp, hX x0 hx0 b hb⟩)
  rw [h]
  rfl

/-- The candidate groups of bundles of the many that pass the length test. -/
theorem candidates_of_many (Matches : Dependency → Component → Bool)
    (l1 l2 : List Bundle) (y : Bundle)
    (hX : ∀ a ∈ l1 ++ l2, ∀ b ∈ l1 ++ l2, a.Name = b.Name)
    (hY : ∀ a ∈ l1 ++ l2, a.Name ≠ y.Name)
    (hk : l1 ++ l2 ≠ []) :
    ∀ l : List Bundle, (∀ x ∈ l, x ∈ l1 ++ l2) →
      (l.map (newGroupOf Matches (l1 ++ y :: l2))).filter
          (fun g => decide (distinctCount (l1 ++ y :: l2) = g.length)) =
        (l.filter (fun x => conflictFree Matches x y)).map (fun x => pairGroup x y) := by
  intro l
  induction l with
  | nil => intro _; rfl
  | cons x l ih =>
    intro hl
    have hx := hl x (List.mem_cons_self _ _)
    have ih2 := ih (fun a ha => hl a (List.mem_cons_of_mem _ ha))
    rw [List.map_cons, newGroupOf_of_many Matches l1 l2 y x hX hY hx,
      distinctCount_of_two_names l1 l2 y hX hY hk] at *
    by_cases hcf : conflictFree Matches x y = true
    · rw [if_pos hcf, List.filter_cons_of_pos (by simp [pairGroup_length]),
        List.filter_cons_of_pos (p := fun x => conflictFree Matches x y) hcf,
        List.map_cons, ih2]
    · rw [if_neg hcf, List.filter_cons_of_neg (by simp),
        List.filter_cons_of_neg (p := fun x => conflictFree Matches x y) hcf, ih2]

theorem pairGroup_injective_left {x x2 y : Bundle} (hx : x.Name ≠ y.Name)
    (h : pairGroup x y = pairGroup x2 y) : x = x2 := by
  have hm : x ∈ pairGroup x2 y := by
    rw [← h, mem_pairGroup]
    exact Or.inl rfl
  rcases mem_pairGroup.mp hm with h1 | h1
  · exact h1
  · exact absurd (by rw [h1]) hx

/-- The groups the outer loop keeps on the input `l1 ++ y :: l2`: one group for
every bundle of `l1 ++ l2` that is conflict-free with `y`, in input order. -/
theorem groupBundles_one_against_many (Matches : Dependency → Component → Bool)
    (l1 l2 : List Bundle) (y : Bundle)
    (hX : ∀ a ∈ l1 ++ l2, ∀ b ∈ l1 ++ l2, a.Name = b.Name)
    (hY : ∀ a ∈ l1 ++ l2, a.Name ≠ y.Name)
    (hnd : (l1 ++ l2).Nodup)
    (hk : l1 ++ l2 ≠ []) :
    groupBundles Matches (l1 ++ y :: l2) =
      ((l1 ++ l2).filter (fun x => conflictFree Matches x y)).map
        (fun x => pairGroup x y) := by
  have hAB : (((l1 ++ l2).filter (fun x => conflictFree Matches x y)).map
      (fun x => pairGroup x y)).Nodup := by
    refine List.Nodup.map_on ?_ (hnd.filter _)
    intro a ha b _ hab
    exact pairGroup_injective_left (hY a (List.mem_filter.mp ha).1) hab
  rw [groupBundles_eq_appendNew, List.map_append, List.map_cons, List.filter_append,
    candidates_of_many Matches l1 l2 y hX hY hk l1 (fun a ha => List.mem_append_left _ ha),
    newGroupOf_of_single Matches l1 l2 y hX hY,
    distinctCount_of_two_names l1 l2 y hX hY hk]
  have hl2 := candidates_of_many Matches l1 l2 y hX hY hk l2
    (fun a ha => List.mem_append_right _ ha)
  rw [distinctCount_of_two_names l1 l2 y hX hY hk] at hl2
  rw [List.filter_append, List.map_append] at hAB ⊢
  cases hf : (l1 ++ l2).find? (fun x => conflictFree Matches x y) with
  | none =>
    rw [List.filter_cons_of_neg (by simp), hl2, appendNew_of_new _ _ hAB (by simp)]
    simp
  | some x1 =>
    have hx1 := List.mem_of_find?_eq_some hf
    have hcf1 : conflictFree Matches x1 y = true :=
      List.find?_some (p := fun x => conflictFree Matches x y) hf
    rw [List.filter_cons_of_pos (by simp [pairGroup_length]), hl2, appendNew_append,
      appendNew_of_new _ _ (List.Nodup.of_append_left hAB) (by simp), List.nil_append]
    by_cases hin : pairGroup x1 y ∈
        (l1.filter (fun x => conflictFree Matches x y)).map (fun x => pairGroup x y)
    · unfold appendNew
      rw [if_pos hin]
      refine appendNew_of_new _ _ (List.Nodup.of_append_right hAB) ?_
      intro g hg hg2
      exact (List.nodup_append.mp hAB).2.2 hg2 hg
    · have h1none : l1.find? (fun x => conflictFree Matches x y) = none := by
        cases h1 : l1.find? (fun x => conflictFree Matches x y) with
        | none => rfl
        | some z =>
          exfalso
          rw [List.find?_append, h1] at hf
          have hzx : z = x1 := Option.some.inj hf
          subst hzx
          exact hin (List.mem_map.mpr
            ⟨z, List.mem_filter.mpr ⟨List.mem_of_find?_eq_some h1, hcf1⟩, rfl⟩)
      have hA : l1.filter (fun x => conflictFree Matches x y) = [] := by
        rw [List.filter_eq_nil_iff]
        exact List.find?_eq_none.mp h1none
      rw [List.find?_append, h1none, Option.none_or, ← List.filter_head?] at hf
      obtain ⟨rest, hrest⟩ := List.head?_eq_some_iff.mp hf
      rw [hA, hrest] at hAB ⊢
      simp only [List.map_nil, List.nil_append, List.map_cons] at hAB ⊢
      rw [List.nodup_cons] at hAB
      simp only [appendNew, List.not_mem_nil, if_false, List.nil_append, List.mem_singleton,
        if_true]
      exact appendNew_of_new _ _ hAB.2
        (fun g hg hg2 => hAB.1 (List.mem_singleton.mp hg2 ▸ hg))

/-- C14: for every input of exactly two non-deprecated bundles with different
authority names that conflict in neither direction, `Aggregate` returns no
error and exactly one group, whose members are exactly those two bundles. -/
theorem Aggregate_compatible_pair (Matches : Dependency → Component → Bool) (a b : Bundle)
    (ha : a.Deprecated = false) (hb : b.Deprecated = false) (hname : a.Name ≠ b.Name)
    (h1 : bundlesConflictWithDependencies Matches a b = false)
    (h2 : bundlesConflictWithDependencies Matches b a = false) :
    Aggregate Matches [a, b] = Except.ok [pairGroup a b] ∧ (pairGroup a b).Perm [a, b] := by
  refine ⟨?_, pairGroup_perm a b⟩
  have hg := groupBundles_one_against_many Matches [a] [] b (by simp) (by simpa using hname)
    (by simp) (by simp)
  have hcf : conflictFree Matches a b = true := by simp [conflictFree, h1, h2]
  rw [List.append_nil, List.singleton_append,
    List.filter_cons_of_pos (p := fun x => conflictFree Matches x b) hcf,
    List.filter_nil, List.map_cons, List.map_nil] at hg
  rw [Aggregate_of_not_deprecated Matches [a, b] (by simp) (by simp [ha, hb]), hg]

/-- Witness of C14 on the input of test 3: `kubernetes-operator` depends on
`kubernetes` at `<= 1.7.x` and `cloud-config-operator` exposes it at 1.7.1. -/
theorem Aggregate_compatible_pair_witness :
    Aggregate Dependency.Matches [cloudConfigOperator020, kubernetesOperatorWildcard] =
      Except.ok [pairGroup cloudConfigOperator020 kubernetesOperatorWildcard] ∧
    (pairGroup cloudConfigOperator020 kubernetesOperatorWildcard).Perm
      [cloudConfigOperator020, kubernetesOperatorWildcard] :=
  Aggregate_compatible_pair Dependency.Matches cloudConfigOperator020
    kubernetesOperatorWildcard (by decide) (by decide) (by decide) (by decide) (by decide)

/-- C15: for every input of exactly two bundles with different authority names
in which a dependency of one names a component of the other and does not match
it, `Aggregate` returns the empty result (nil) and no error. -/
theorem Aggregate_conflicting_pair (Matches : Dependency → Component → Bool) (a b : Bundle)
    (hname : a.Name ≠ b.Name)
    (hconf :
      (∃ d ∈ a.Dependencies.elems, ∃ c ∈ b.Components.elems,
        d.Name = c.Name ∧ Matches d c = false) ∨
      (∃ d ∈ b.Dependencies.elems, ∃ c ∈ a.Components.elems,
        d.Name = c.Name ∧ Matches d c = false)) :
    Aggregate Matches [a, b] = Except.ok [] := by
  have hg := groupBundles_one_against_many Matches [a] [] b (by simp) (by simpa using hname)
    (by simp) (by simp)
  have hcf : ¬ conflictFree Matches a b = true := by
    rw [← bundlesConflict_eq_true_iff, ← bundlesConflict_eq_true_iff] at hconf
    unfold conflictFree
    rcases hconf with h | h <;> simp [h]
  rw [List.append_nil, List.singleton_append,
    List.filter_cons_of_neg (p := fun x => conflictFree Matches x b) hcf,
    List.filter_nil, List.map_nil] at hg
  exact Aggregate_of_groupBundles_nil Matches [a, b] (by simp) hg

/-- Witness of C15 on the input of test 4: `kubernetes-operator` depends on
`kubernetes` at `<= 1.7.0` and `cloud-config-operator` exposes it at 1.7.1. -/
theorem Aggregate_conflicting_pair_witness :
    Aggregate Dependency.Matches [cloudConfigOperator020, kubernetesOperatorExact] =
      Except.ok [] :=
  Aggregate_conflicting_pair Dependency.Matches cloudConfigOperator020
    kubernetesOperatorExact (by decide) (by decide)

/-- C16: the input holds `k ≥ 1` pairwise distinct bundles of one authority,
`l1 ++ l2`, and a single bundle `y` of another authority at any position
between them, none deprecated. `Aggregate` returns no error and, in the input
order of the `xi`, one group of `xi` and `y` for each `xi` that conflicts with
`y` in neither direction; an `xi` that conflicts with `y` is in no group. -/
theorem Aggregate_one_against_many (Matches : Dependency → Component → Bool)
    (l1 l2 : List Bundle) (y : Bundle)
    (hX : ∀ a ∈ l1 ++ l2, ∀ b ∈ l1 ++ l2, a.Name = b.Name)
    (hY : ∀ a ∈ l1 ++ l2, a.Name ≠ y.Name)
    (hnd : (l1 ++ l2).Nodup)
    (hk : l1 ++ l2 ≠ [])
    (hdep : ∀ b ∈ l1 ++ y :: l2, b.Deprecated = false) :
    Aggregate Matches (l1 ++ y :: l2) =
      Except.ok (((l1 ++ l2).filter (fun x => conflictFree Matches x y)).map
        (fun x => pairGroup x y)) ∧
    ∀ x ∈ l1 ++ l2, conflictFree Matches x y = false →
      ∀ g ∈ ((l1 ++ l2).filter (fun x => conflictFree Matches x y)).map
        (fun x => pairGroup x y), x ∉ g := by
  constructor
  · have hlen : 2 ≤ (l1 ++ y :: l2).length := by
      have : 0 < (l1 ++ l2).length := List.length_pos.mpr hk
      simp only [List.length_append, List.length_cons] at this ⊢
      omega
    rw [Aggregate_of_not_deprecated Matches _ hlen hdep,
      groupBundles_one_against_many Matches l1 l2 y hX hY hnd hk]
  · intro x hx hcf g hg hxg
    obtain ⟨x2, hx2, rfl⟩ := List.mem_map.mp hg
    rcases mem_pairGroup.mp hxg with h | h
    · subst h
      rw [(List.mem_filter.mp hx2).2] at hcf
      cases hcf
    · exact hY x hx (by rw [h])

/-- Witness of C16 on the bundles of test 6, with `kubernetes-operator` between
the two bundles of `cloud-config-operator`: only the one exposing `kubernetes`
1.8.1 satisfies `== 1.8.1`. -/
theorem Aggregate_one_against_many_witness :
    Aggregate Dependency.Matches
        ([cloudConfigOperator020] ++ kubernetesOperatorPinned :: [cloudConfigOperator030]) =
      Except.ok ((([cloudConfigOperator020] ++ [cloudConfigOperator030]).filter
        (fun x => conflictFree Dependency.Matches x kubernetesOperatorPinned)).map
          (fun x => pairGroup x kubernetesOperatorPinned)) ∧
    ∀ x ∈ [cloudConfigOperator020] ++ [cloudConfigOperator030],
      conflictFree Dependency.Matches x kubernetesOperatorPinned = false →
      ∀ g ∈ (([cloudConfigOperator020] ++ [cloudConfigOperator030]).filter
        (fun x => conflictFree Dependency.Matches x kubernetesOperatorPinned)).map
          (fun x => pairGroup x kubernetesOperatorPinned), x ∉ g :=
  Aggregate_one_against_many Dependency.Matches [cloudConfigOperator020]
    [cloudConfigOperator030] kubernetesOperatorPinned
    (by decide) (by decide) (by decide) (by decide) (by decide)

/-- Counterexample to C17: on the input of test 3 the returned group lists
`cloud-config-operator` 0.2.0 before `kubernetes-operator` 0.1.0, as the test
expects: the version strings descend from the first member to the second. -/
theorem Aggregate_version_order_counterexample :
    Aggregate Dependency.Matches [cloudConfigOperator020, kubernetesOperatorWildcard] =
      Except.ok [[cloudConfigOperator020, kubernetesOperatorWildcard]] ∧
    cloudConfigOperator020.Version = "0.2.0" ∧
    kubernetesOperatorWildcard.Version = "0.1.0" ∧
    strLess kubernetesOperatorWildcard.Version cloudConfigOperator020.Version = true := by
  decide

/-- C17, amended: in every group returned by `Aggregate` the members appear in
strictly ascending order of authority name; the stable sort by name comes last
and the names of a group are pairwise different, so the version strings have
no part in the order of the members. -/
theorem Aggregate_group_sorted_by_name (Matches : Dependency → Component → Bool)
    (bundles : List Bundle) (groups : List (List Bundle))
    (h : Aggregate Matches bundles = Except.ok groups) :
    ∀ g ∈ groups, ∀ (i j : Nat) (x y : Bundle),
      i < j → g[i]? = some x → g[j]? = some y → strLess x.Name y.Name = true := by
  intro g hg i j x y hij hx hy
  obtain ⟨s, _, rfl, _⟩ := (mem_of_Aggregate_ok h g).mp hg
  have hasc := newGroupOf_strictAscending Matches bundles s
  unfold NameStrictAscending at hasc
  rw [List.pairwise_iff_getElem] at hasc
  obtain ⟨hi, hxi⟩ := List.getElem?_eq_some.mp hx
  obtain ⟨hj, hyj⟩ := List.getElem?_eq_some.mp hy
  rw [← hxi, ← hyj]
  exact hasc i j hi hj hij

/-- Witness of the amended C17 on the input of test 3. -/
theorem Aggregate_group_sorted_by_name_witness :
    Aggregate Dependency.Matches [cloudConfigOperator020, kubernetesOperatorWildcard] =
      Except.ok [[cloudConfigOperator020, kubernetesOperatorWildcard]] ∧
    ∀ g ∈ [[cloudConfigOperator020, kubernetesOperatorWildcard]],
      ∀ (i j : Nat) (x y : Bundle),
        i < j → g[i]? = some x → g[j]? = some y → strLess x.Name y.Name = true :=
  ⟨by decide, Aggregate_group_sorted_by_name Dependency.Matches
    [cloudConfigOperator020, kubernetesOperatorWildcard] _ (by decide)⟩

/-! ## Negating the WIP flag -/

theorem flipWIP_flipWIP (b : Bundle) : flipWIP (flipWIP b) = b := by
  cases b
  simp [flipWIP]

theorem flipWIP_injective : Function.Injective flipWIP := by
  intro a b h
  rw [← flipWIP_flipWIP a, ← flipWIP_flipWIP b, h]

theorem map_flipWIP_injective : Function.Injective (List.map flipWIP) :=
  List.map_injective_iff.mpr flipWIP_injective

theorem bundlesConflict_flipWIP (Matches : Dependency → Component → Bool) (a b : Bundle) :
    bundlesConflictWithDependencies Matches (flipWIP a) (flipWIP b) =
      bundlesConflictWithDependencies Matches a b := rfl

theorem containsBundleByName_flipWIP (l : List Bundle) (b : Bundle) :
    containsBundleByName (l.map flipWIP) (flipWIP b) = containsBundleByName l b := by
  unfold containsBundleByName
  rw [List.any_map]
  rfl

theorem newGroupStep_flipWIP (Matches : Dependency → Component → Bool) (b1 b2 : Bundle)
    (acc : List Bundle) :
    newGroupStep Matches (flipWIP b1) (acc.map flipWIP) (flipWIP b2) =
      (newGroupStep Matches b1 acc b2).map flipWIP := by
  unfold newGroupStep
  rw [bundlesConflict_flipWIP, bundlesConflict_flipWIP, containsBundleByName_flipWIP]
  by_cases h : b1 = b2
  · rw [if_pos h, if_pos (by rw [h])]
  · rw [if_neg h, if_neg (fun h2 => h (flipWIP_injective h2))]
    split
    · rfl
    · split
      · rfl
      · split
        · rfl
        · simp

theorem foldl_newGroupStep_flipWIP (Matches : Dependency → Component → Bool) (b1 : Bundle) :
    ∀ (l acc : List Bundle),
      (l.map flipWIP).foldl (newGroupStep Matches (flipWIP b1)) (acc.map flipWIP) =
        (l.foldl (newGroupStep Matches b1) acc).map flipWIP := by
  intro l
  induction l with
  | nil => intro acc; rfl
  | cons x l ih =>
    intro acc
    rw [List.map_cons, List.foldl_cons, List.foldl_cons, newGroupStep_flipWIP, ih]

theorem insertBy_flipWIP (less : Bundle → Bundle → Bool)
    (hless : ∀ a b, less (flipWIP a) (flipWIP b) = less a b) (a : Bundle) :
    ∀ l : List Bundle,
      insertBy less (flipWIP a) (l.map flipWIP) = (insertBy less a l).map flipWIP := by
  intro l
  induction l with
  | nil => rfl
  | cons b l ih =>
    rw [List.map_cons]
    unfold insertBy
    rw [hless, ih]
    split <;> rfl

theorem sortStable_flipWIP (less : Bundle → Bundle → Bool)
    (hless : ∀ a b, less (flipWIP a) (flipWIP b) = less a b) :
    ∀ l : List Bundle,
      sortStable less (l.map flipWIP) = (sortStable less l).map flipWIP := by
  intro l
  induction l with
  | nil => rfl
  | cons a l ih =>
    rw [List.map_cons]
    unfold sortStable
    rw [ih, insertBy_flipWIP less hless]

theorem newGroupOf_flipWIP (Matches : Dependency → Component → Bool) (bundles : List Bundle)
    (b1 : Bundle) :
    newGroupOf Matches (bundles.map flipWIP) (flipWIP b1) =
      (newGroupOf Matches bundles b1).map flipWIP := by
  unfold newGroupOf sortSort
  have h := foldl_newGroupStep_flipWIP Matches b1 bundles [b1]
  rw [List.map_singleton] at h
  rw [h, sortStable_flipWIP SortBundlesByVersion.Less (fun _ _ => rfl),
    sortStable_flipWIP SortBundlesByName.Less (fun _ _ => rfl)]

theorem distinctCount_flipWIP (bundles : List Bundle) :
    distinctCount (bundles.map flipWIP) = distinctCount bundles := by
  unfold distinctCount
  rw [List.foldl_map]
  rfl

theorem containsGroupedBundle_flipWIP (acc : List (List Bundle)) (g : List Bundle) :
    containsGroupedBundle (acc.map (List.map flipWIP)) (g.map flipWIP) =
      containsGroupedBundle acc g := by
  unfold containsGroupedBundle
  rw [List.any_map]
  congr 1
  funext x
  simp [map_flipWIP_injective.eq_iff]

theorem groupedStep_flipWIP (Matches : Dependency → Component → Bool) (bundles : List Bundle)
    (acc : List (List Bundle)) (b1 : Bundle) :
    groupedStep Matches (bundles.map flipWIP) (acc.map (List.map flipWIP)) (flipWIP b1) =
      (groupedStep Matches bundles acc b1).map (List.map flipWIP) := by
  rw [groupedStep_eq, groupedStep_eq, newGroupOf_flipWIP, containsGroupedBundle_flipWIP,
    distinctCount_flipWIP, List.length_map]
  split
  · rfl
  · split
    · rfl
    · simp

theorem foldl_groupedStep_flipWIP (Matches : Dependency → Component → Bool)
    (bundles : List Bundle) :
    ∀ (l : List Bundle) (acc : List (List Bundle)),
      (l.map flipWIP).foldl (groupedStep Matches (bundles.map flipWIP))
          (acc.map (List.map flipWIP)) =
        (l.foldl (groupedStep Matches bundles) acc).map (List.map flipWIP) := by
  intro l
  induction l with
  | nil => intro acc; rfl
  | cons x l ih =>
    intro acc
    rw [List.map_cons, List.foldl_cons, List.foldl_cons, groupedStep_flipWIP, ih]

theorem groupBundles_flipWIP (Matches : Dependency → Component → Bool)
    (bundles : List Bundle) :
    groupBundles Matches (bundles.map flipWIP) =
      (groupBundles Matches bundles).map (List.map flipWIP) :=
  foldl_groupedStep_flipWIP Matches bundles bundles []

theorem deprecatedCount_flipWIP (g : List Bundle) :
    deprecatedCount (g.map flipWIP) = deprecatedCount g := by
  unfold deprecatedCount
  rw [List.foldl_map]
  rfl

theorem Validate_flipWIP (b : List (List Bundle)) :
    ValidateGroupedBundles.Validate (b.map (List.map flipWIP)) =
      ValidateGroupedBundles.Validate b := by
  unfold ValidateGroupedBundles.Validate
  have h1 : ValidateGroupedBundles.lengthsDiffer (b.map (List.map flipWIP)) =
      ValidateGroupedBundles.lengthsDiffer b := by
    cases b with
    | nil => rfl
    | cons g0 rest =>
      simp only [ValidateGroupedBundles.lengthsDiffer, List.map_cons, List.any_cons,
        List.any_map, List.length_map]
      congr 1
      congr 1
      funext g
      simp
  have h2 : (b.map (List.map flipWIP)).any
      (fun group => decide (deprecatedCount group = (b.map (List.map flipWIP)).length)) =
      b.any (fun group => decide (deprecatedCount group = b.length)) := by
    rw [List.any_map, List.length_map]
    congr 1
    funext g
    simp [deprecatedCount_flipWIP]
  rw [h1, h2]

/-- C19: `Aggregate` does not filter on the WIP flag. Negating the WIP flag of
every input bundle gives the same error, or the same groups at the same
positions with every member differing from the original only by its negated
WIP flag. -/
theorem Aggregate_ignores_WIP (Matches : Dependency → Component → Bool)
    (bundles : List Bundle) :
    Aggregate Matches (bundles.map flipWIP) =
      match Aggregate Matches bundles with
      | Except.ok groups => Except.ok (groups.map (List.map flipWIP))
      | Except.error e => Except.error e := by
  match bundles with
  | [] => rfl
  | [b] => rfl
  | a :: b :: l =>
    rw [Aggregate_of_two_le Matches (a :: b :: l) (by simp),
      Aggregate_of_two_le Matches ((a :: b :: l).map flipWIP) (by simp),
      groupBundles_flipWIP, Validate_flipWIP]
    cases ValidateGroupedBundles.Validate (groupBundles Matches (a :: b :: l)) <;> rfl

/-! ## Restricting the input to the bundles that occur in the groups -/

/-- A candidate group has at most one member per authority name of the input. -/
theorem length_newGroupOf_le (Matches : Dependency → Component → Bool)
    (bundles : List Bundle) (s : Bundle) (hs : s ∈ bundles) :
    (newGroupOf Matches bundles s).length ≤ distinctCount bundles := by
  rw [distinctCount_eq_card, ← List.length_map (newGroupOf Matches bundles s) Bundle.Name,
    ← List.toFinset_card_of_nodup (newGroupOf_nodup_names Matches bundles s)]
  apply Finset.card_le_card
  intro n hn
  rw [List.mem_toFinset, List.mem_map] at hn ⊢
  obtain ⟨b, hb, rfl⟩ := hn
  exact ⟨b, mem_input_of_mem_newGroupOf hs hb, rfl⟩

/-- A candidate group that passes the length test has a member of every
authority name of the input. -/
theorem names_cover_of_full (Matches : Dependency → Component → Bool)
    (bundles : List Bundle) (s : Bundle) (hs : s ∈ bundles)
    (hfull : distinctCount bundles = (newGroupOf Matches bundles s).length) :
    ∀ b ∈ bundles, ∃ c ∈ newGroupOf Matches bundles s, c.Name = b.Name := by
  have hsub : ((newGroupOf Matches bundles s).map Bundle.Name).toFinset ⊆
      (bundles.map Bundle.Name).toFinset := by
    intro n hn
    rw [List.mem_toFinset, List.mem_map] at hn ⊢
    obtain ⟨b, hb, rfl⟩ := hn
    exact ⟨b, mem_input_of_mem_newGroupOf hs hb, rfl⟩
  have hcard : (bundles.map Bundle.Name).toFinset.card ≤
      ((newGroupOf Matches bundles s).map Bundle.Name).toFinset.card := by
    rw [List.toFinset_card_of_nodup (newGroupOf_nodup_names Matches bundles s),
      List.length_map, ← hfull, distinctCount_eq_card]
  have heq := Finset.eq_of_subset_of_card_le hsub hcard
  intro b hb
  have hn : b.Name ∈ (bundles.map Bundle.Name).toFinset := by
    rw [List.mem_toFinset]
    exact List.mem_map_of_mem _ hb
  rw [← heq, List.mem_toFinset, List.mem_map] at hn
  exact hn

theorem find?_exists_of_mem {α : Type} {p : α → Bool} {l : List α} {b : α}
    (hb : b ∈ l) (hp : p b = true) : ∃ c, l.find? p = some c := by
  cases h : l.find? p with
  | some c => exact ⟨c, rfl⟩
  | none =>
    rw [List.find?_eq_none] at h
    exact absurd hp (h b hb)

/-- The first element passing `p` is also the first passing `q` and `p` when
it passes `q`. -/
theorem find?_and_of_find? {α : Type} {p q : α → Bool} {l : List α} {b : α}
    (h : l.find? p = some b) (hq : q b = true) :
    l.find? (fun a => decide (q a = true ∧ p a = true)) = some b := by
  rw [List.find?_eq_some] at h ⊢
  obtain ⟨hp, as, bs, hl, has⟩ := h
  refine ⟨by simp [hp, hq], as, bs, hl, ?_⟩
  intro a ha
  have := has a ha
  simp only [Bool.not_eq_true', decide_eq_false_iff_not, not_and] at this ⊢
  intro _
  simp [this]

/-- Restricting the input to a set of bundles that holds the members of a
candidate group leaves that group as it is. -/
theorem newGroupOf_filter_of_members (Matches : Dependency → Component → Bool)
    (bundles : List Bundle) (q : Bundle → Bool) (s : Bundle)
    (hq : ∀ b ∈ newGroupOf Matches bundles s, q b = true) :
    newGroupOf Matches (bundles.filter q) s = newGroupOf Matches bundles s := by
  refine (newGroupOf_strictAscending _ _ _).eq_of_perm (newGroupOf_strictAscending _ _ _) ?_
  rw [List.perm_ext_iff_of_nodup
    (nodup_of_nodup_names (newGroupOf_nodup_names _ _ _))
    (nodup_of_nodup_names (newGroupOf_nodup_names _ _ _))]
  intro b
  rw [mem_newGroupOf, mem_newGroupOf, List.find?_filter]
  constructor
  · rintro (h | ⟨hname, hf⟩)
    · exact Or.inl h
    · refine Or.inr ⟨hname, ?_⟩
      have hb := List.mem_of_find?_eq_some hf
      have hpb := List.find?_some hf
      simp only [decide_eq_true_eq] at hpb
      obtain ⟨c, hc⟩ := find?_exists_of_mem (p := fits Matches s b.Name) hb hpb.2
      have hcn : c.Name = b.Name := by
        have := List.find?_some hc
        rw [fits_eq] at this
        simp only [Bool.and_eq_true, decide_eq_true_eq] at this
        exact this.1
      have hcmem : c ∈ newGroupOf Matches bundles s :=
        (mem_newGroupOf Matches bundles s c).mpr
          (Or.inr ⟨by rw [hcn]; exact hname, by rw [hcn]; exact hc⟩)
      have := find?_and_of_find? hc (hq c hcmem)
      rw [hf] at this
      rw [hc, ← Option.some.inj this]
  · rintro (h | ⟨hname, hf⟩)
    · exact Or.inl h
    · refine Or.inr ⟨hname, ?_⟩
      have hbmem : b ∈ newGroupOf Matches bundles s :=
        (mem_newGroupOf Matches bundles s b).mpr (Or.inr ⟨hname, hf⟩)
      exact find?_and_of_find? hf (hq b hbmem)

/-- Restricting the input does not make a candidate group longer. -/
theorem length_newGroupOf_filter_le (Matches : Dependency → Component → Bool)
    (bundles : List Bundle) (q : Bundle → Bool) (s : Bundle) :
    (newGroupOf Matches (bundles.filter q) s).length ≤
      (newGroupOf Matches bundles s).length := by
  rw [← List.length_map (newGroupOf Matches (bundles.filter q) s) Bundle.Name,
    ← List.length_map (newGroupOf Matches bundles s) Bundle.Name]
  refine (List.subperm_of_subset (newGroupOf_nodup_names _ _ _) ?_).length_le
  intro n hn
  rw [List.mem_map] at hn ⊢
  obtain ⟨b, hb, rfl⟩ := hn
  rcases (mem_newGroupOf _ _ _ _).mp hb with h | ⟨hname, hf⟩
  · exact ⟨s, seed_mem_newGroupOf _ _ _, by rw [h]⟩
  · have hbF := List.mem_of_find?_eq_some hf
    have hpb := List.find?_some hf
    obtain ⟨c, hc⟩ := find?_exists_of_mem (List.mem_filter.mp hbF).1 hpb
    have hcn : c.Name = b.Name := by
      have := List.find?_some hc
      rw [fits_eq] at this
      simp only [Bool.and_eq_true, decide_eq_true_eq] at this
      exact this.1
    exact ⟨c, (mem_newGroupOf Matches bundles s c).mpr
      (Or.inr ⟨by rw [hcn]; exact hname, by rw [hcn]; exact hc⟩), hcn⟩

theorem filter_map_congr_on {α β : Type} {f g : α → β} {P P2 : β → Bool} :
    ∀ l : List α,
      (∀ x ∈ l, (P (f x) = true ∧ P2 (g x) = true ∧ f x = g x) ∨
        (P (f x) = false ∧ P2 (g x) = false)) →
      (l.map f).filter P = (l.map g).filter P2 := by
  intro l
  induction l with
  | nil => intro _; rfl
  | cons x l ih =>
    intro h
    have ih2 := ih (fun a ha => h a (List.mem_cons_of_mem _ ha))
    rw [List.map_cons, List.map_cons]
    rcases h x (List.mem_cons_self _ _) with ⟨h1, h2, h3⟩ | ⟨h1, h2⟩
    · rw [List.filter_cons_of_pos h1, List.filter_cons_of_pos h2, ih2, h3]
    · rw [List.filter_cons_of_neg (by simp [h1]), List.filter_cons_of_neg (by simp [h2]), ih2]

theorem filter_map_filter {α β : Type} {f : α → β} {P : β → Bool} {Q : α → Bool} :
    ∀ l : List α, (∀ x ∈ l, P (f x) = true → Q x = true) →
      ((l.filter Q).map f).filter P = (l.map f).filter P := by
  intro l
  induction l with
  | nil => intro _; rfl
  | cons x l ih =>
    intro h
    have ih2 := ih (fun a ha => h a (List.mem_cons_of_mem _ ha))
    by_cases hQ : Q x = true
    · rw [List.filter_cons_of_pos hQ, List.map_cons, List.map_cons]
      by_cases hP : P (f x) = true
      · rw [List.filter_cons_of_pos hP, List.filter_cons_of_pos hP, ih2]
      · rw [List.filter_cons_of_neg hP, List.filter_cons_of_neg hP, ih2]
    · have hP : ¬ P (f x) = true := fun hP => hQ (h x (List.mem_cons_self _ _) hP)
      rw [List.filter_cons_of_neg hQ, List.map_cons, List.filter_cons_of_neg hP, ih2]

theorem groupBundles_singleton (Matches : Dependency → Component → Bool) (b : Bundle) :
    groupBundles Matches [b] = [[b]] := by
  unfold groupBundles
  rw [List.foldl_cons, List.foldl_nil, groupedStep_eq, newGroupOf_singleton,
    distinctCount_singleton]
  simp [containsGroupedBundle]

/-- When the groups of the outer loop pass validation, `Aggregate` returns
them, whatever the length of the input. -/
theorem Aggregate_of_Validate_ok (Matches : Dependency → Component → Bool)
    (bundles : List Bundle)
    (hv : ValidateGroupedBundles.Validate (groupBundles Matches bundles) = Except.ok ()) :
    Aggregate Matches bundles = Except.ok (groupBundles Matches bundles) := by
  match bundles, hv with
  | [], _ => rfl
  | [b], _ => rw [groupBundles_singleton, Aggregate_singleton]
  | a :: b :: l, hv =>
    rw [Aggregate_of_two_le Matches (a :: b :: l) (by simp), hv]

/-- The outer loop builds the same groups on the input restricted, in input
order, to a set of bundles that holds the members of every candidate group
which passes the length test, provided there is such a group. -/
theorem groupBundles_filter (Matches : Dependency → Component → Bool)
    (bundles : List Bundle) (q : Bundle → Bool) (s0 : Bundle) (hs0 : s0 ∈ bundles)
    (hfull0 : distinctCount bundles = (newGroupOf Matches bundles s0).length)
    (hqmem : ∀ s ∈ bundles,
      distinctCount bundles = (newGroupOf Matches bundles s).length →
      ∀ b ∈ newGroupOf Matches bundles s, q b = true) :
    groupBundles Matches (bundles.filter q) = groupBundles Matches bundles := by
  have hdc : distinctCount (bundles.filter q) = distinctCount bundles := by
    rw [distinctCount_eq_card, distinctCount_eq_card]
    congr 1
    ext n
    simp only [List.mem_toFinset, List.mem_map]
    constructor
    · rintro ⟨b, hb, rfl⟩
      exact ⟨b, (List.mem_filter.mp hb).1, rfl⟩
    · rintro ⟨b, hb, rfl⟩
      obtain ⟨c, hc, hcn⟩ := names_cover_of_full Matches bundles s0 hs0 hfull0 b hb
      exact ⟨c, List.mem_filter.mpr
        ⟨mem_input_of_mem_newGroupOf hs0 hc, hqmem s0 hs0 hfull0 c hc⟩, hcn⟩
  rw [groupBundles_eq_appendNew, groupBundles_eq_appendNew Matches bundles, hdc]
  congr 1
  rw [← filter_map_filter (Q := q) bundles]
  · apply filter_map_congr_on
    intro s hsF
    have hs := (List.mem_filter.mp hsF).1
    by_cases hfull : distinctCount bundles = (newGroupOf Matches bundles s).length
    · left
      rw [newGroupOf_filter_of_members Matches bundles q s (hqmem s hs hfull)]
      exact ⟨by simpa using hfull, by simpa using hfull, rfl⟩
    · right
      have h1 := length_newGroupOf_filter_le Matches bundles q s
      have h2 := length_newGroupOf_le Matches bundles s hs
      refine ⟨?_, by simpa using hfull⟩
      rw [decide_eq_false_iff_not]
      omega
  · intro s hs hP
    rw [decide_eq_true_eq] at hP
    exact hqmem s hs hP s (seed_mem_newGroupOf _ _ _)

/-- The outer loop on the input restricted to the bundles that occur in its
groups, kept in input order, builds the same groups. -/
theorem groupBundles_filter_flatten (Matches : Dependency → Component → Bool)
    (bundles : List Bundle) :
    groupBundles Matches
        (bundles.filter (fun b => decide (b ∈ (groupBundles Matches bundles).flatten))) =
      groupBundles Matches bundles := by
  by_cases hG : groupBundles Matches bundles = []
  · rw [hG]
    simp [groupBundles]
  · obtain ⟨g0, hg0⟩ := List.exists_mem_of_ne_nil _ hG
    obtain ⟨s0, hs0, rfl, hfull0⟩ := (mem_groupBundles Matches bundles g0).mp hg0
    refine groupBundles_filter Matches bundles _ s0 hs0 hfull0 ?_
    intro s hs hfull b hb
    rw [decide_eq_true_eq]
    exact List.mem_flatten_of_mem
      ((mem_groupBundles Matches bundles _).mpr ⟨s, hs, rfl, hfull⟩) hb

/-! ## A single group as input -/

theorem distinctCount_of_nodup_names {g : List Bundle} (h : (g.map Bundle.Name).Nodup) :
    distinctCount g = g.length :=
  distinctCount_eq_length_of_cover (fun _ hb => hb) h (fun b hb => ⟨b, hb, rfl⟩)

/-- The outer loop on a group in ascending name order that has a member with
which every other member is conflict-free in both directions returns that
group alone. -/
theorem groupBundles_of_group (Matches : Dependency → Component → Bool)
    (g : List Bundle) (s0 : Bundle) (hasc : NameStrictAscending g) (hs0 : s0 ∈ g)
    (hcf : ∀ b ∈ g, b ≠ s0 →
      bundlesConflictWithDependencies Matches s0 b = false ∧
      bundlesConflictWithDependencies Matches b s0 = false) :
    groupBundles Matches g = [g] := by
  have hnames := hasc.nodup_names
  have hdc := distinctCount_of_nodup_names hnames
  have hfullEq : ∀ s ∈ g, distinctCount g = (newGroupOf Matches g s).length →
      newGroupOf Matches g s = g := by
    intro s hs hlen
    refine (newGroupOf_strictAscending _ _ _).eq_of_perm hasc ?_
    refine (List.subperm_of_subset
      (nodup_of_nodup_names (newGroupOf_nodup_names _ _ _)) ?_).perm_of_length_le ?_
    · intro b hb
      exact mem_input_of_mem_newGroupOf hs hb
    · rw [← hlen, hdc]
  have hseed : newGroupOf Matches g s0 = g := by
    apply hfullEq s0 hs0
    apply Nat.le_antisymm
    · rw [hdc]
      refine (List.subperm_of_subset (nodup_of_nodup_names hnames) ?_).length_le
      intro b hb
      rw [mem_newGroupOf]
      by_cases hbs : b = s0
      · exact Or.inl hbs
      · refine Or.inr ⟨fun hn => hbs (List.inj_on_of_nodup_map hnames hb hs0 hn), ?_⟩
        have hfit : fits Matches s0 b.Name b = true := by
          unfold fits
          simp [(hcf b hb hbs).1, (hcf b hb hbs).2]
        obtain ⟨c, hc⟩ := find?_exists_of_mem hb hfit
        have hcn : c.Name = b.Name := by
          have := List.find?_some hc
          rw [fits_eq] at this
          simp only [Bool.and_eq_true, decide_eq_true_eq] at this
          exact this.1
        rw [hc, List.inj_on_of_nodup_map hnames (List.mem_of_find?_eq_some hc) hb hcn]
    · exact length_newGroupOf_le Matches g s0 hs0
  apply List.perm_singleton.mp
  rw [List.perm_ext_iff_of_nodup (nodup_groupBundles Matches g) (List.nodup_singleton g)]
  intro x
  rw [mem_groupBundles, List.mem_singleton]
  constructor
  · rintro ⟨s, hs, rfl, hlen⟩
    exact hfullEq s hs hlen
  · intro hx
    refine ⟨s0, hs0, by rw [hseed, hx], ?_⟩
    rw [hx, hdc]

/-- Counterexample to C18: `Aggregate` returns two groups on the four bundles;
run again on their concatenation, in which no bundle is repeated, it returns a
third group as well. In the concatenation `cloud-config-operator` 0.3.0 comes
before 0.2.0, so it is now the first bundle that fits `kubernetes-operator`
0.2.0. -/
theorem Aggregate_idempotence_counterexample :
    Aggregate Dependency.Matches
        [kubernetesOperatorPinned, cloudConfigOperator020, cloudConfigOperator030,
          kubernetesOperator020] =
      Except.ok [[cloudConfigOperator030, kubernetesOperatorPinned],
        [cloudConfigOperator020, kubernetesOperator020]] ∧
    [[cloudConfigOperator030, kubernetesOperatorPinned],
        [cloudConfigOperator020, kubernetesOperator020]].flatten.Nodup ∧
    Aggregate Dependency.Matches
        [[cloudConfigOperator030, kubernetesOperatorPinned],
          [cloudConfigOperator020, kubernetesOperator020]].flatten =
      Except.ok [[cloudConfigOperator030, kubernetesOperatorPinned],
        [cloudConfigOperator020, kubernetesOperator020],
        [cloudConfigOperator030, kubernetesOperator020]] ∧
    [cloudConfigOperator030, kubernetesOperator020] ∉
      [[cloudConfigOperator030, kubernetesOperatorPinned],
        [cloudConfigOperator020, kubernetesOperator020]] := by
  decide

/-- C18, amended: when `Aggregate` returns groups `R` without error, running it
on the bundles of `R` taken in the order of the original input, that is on the
input without the bundles that occur in no group, returns `R` itself without
error; and when `R` has at most one group, running it on the concatenation of
the groups of `R` returns `R` as well. -/
theorem Aggregate_idempotent_in_input_order (Matches : Dependency → Component → Bool)
    (bundles : List Bundle) (R : List (List Bundle))
    (h : Aggregate Matches bundles = Except.ok R) :
    Aggregate Matches (bundles.filter (fun b => decide (b ∈ R.flatten))) = Except.ok R ∧
    (R.length ≤ 1 → Aggregate Matches R.flatten = Except.ok R) := by
  match bundles, h with
  | [], h =>
    rw [Aggregate_nil] at h
    cases h
    exact ⟨rfl, fun _ => rfl⟩
  | [b], h =>
    rw [Aggregate_singleton] at h
    cases h
    constructor
    · simp [Aggregate_singleton]
    · intro _
      simp [Aggregate_singleton]
  | a :: b :: l, h =>
    rw [Aggregate_of_two_le Matches (a :: b :: l) (by simp)] at h
    cases hv : ValidateGroupedBundles.Validate (groupBundles Matches (a :: b :: l)) with
    | error e =>
      rw [hv] at h
      cases h
    | ok u =>
      rw [hv] at h
      cases h
      constructor
      · have hF := groupBundles_filter_flatten Matches (a :: b :: l)
        have hA := Aggregate_of_Validate_ok Matches
          ((a :: b :: l).filter
            (fun x => decide (x ∈ (groupBundles Matches (a :: b :: l)).flatten)))
          (by rw [hF]; exact hv)
        rw [hA, hF]
      · intro hlen
        cases hR : groupBundles Matches (a :: b :: l) with
        | nil => rfl
        | cons g rest =>
          have hrest : rest = [] := by
            rw [hR] at hlen
            cases rest with
            | nil => rfl
            | cons _ _ => simp at hlen
          subst hrest
          have hg : g ∈ groupBundles Matches (a :: b :: l) := by rw [hR]; simp
          obtain ⟨s0, _, hgs, _⟩ := (mem_groupBundles Matches (a :: b :: l) g).mp hg
          have hgG : groupBundles Matches g = [g] := by
            rw [hgs]
            refine groupBundles_of_group Matches _ s0 (newGroupOf_strictAscending _ _ _)
              (seed_mem_newGroupOf _ _ _) ?_
            intro x hx hxs
            exact ⟨(of_mem_newGroupOf hx hxs).2.2.1, (of_mem_newGroupOf hx hxs).2.2.2⟩
          rw [hR] at hv
          have hfl : [g].flatten = g := by simp
          rw [hfl, Aggregate_of_Validate_ok Matches g (by rw [hgG]; exact hv), hgG]

/-- Witness of the amended C18 on the input of test 6: `cloud-config-operator`
0.2.0 occurs in no group and is left out of the second run. -/
theorem Aggregate_idempotent_in_input_order_witness :
    Aggregate Dependency.Matches
        [cloudConfigOperator020, cloudConfigOperator030, kubernetesOperatorPinned] =
      Except.ok [[cloudConfigOperator030, kubernetesOperatorPinned]] ∧
    [cloudConfigOperator020, cloudConfigOperator030, kubernetesOperatorPinned].filter
        (fun b => decide (b ∈ [[cloudConfigOperator030, kubernetesOperatorPinned]].flatten)) =
      [cloudConfigOperator030, kubernetesOperatorPinned] ∧
    Aggregate Dependency.Matches
        ([cloudConfigOperator020, cloudConfigOperator030, kubernetesOperatorPinned].filter
          (fun b => decide
            (b ∈ [[cloudConfigOperator030, kubernetesOperatorPinned]].flatten))) =
      Except.ok [[cloudConfigOperator030, kubernetesOperatorPinned]] ∧
    ([[cloudConfigOperator030, kubernetesOperatorPinned]].length ≤ 1 →
      Aggregate Dependency.Matches
          [[cloudConfigOperator030, kubernetesOperatorPinned]].flatten =
        Except.ok [[cloudConfigOperator030, kubernetesOperatorPinned]]) :=
  ⟨by decide, by decide, Aggregate_idempotent_in_input_order Dependency.Matches
    [cloudConfigOperator020, cloudConfigOperator030, kubernetesOperatorPinned] _
    (by decide)⟩

/-! ## `Bundle.Validate` -/

theorem firstError_eq_none_iff {α : Type} (validate : α → Except Error Unit) (l : List α) :
    firstError validate l = none ↔ ∀ a ∈ l, validate a = Except.ok () := by
  induction l with
  | nil => simp [firstError]
  | cons a l ih =>
    unfold firstError
    cases h : validate a with
    | error err => simp [h]
    | ok u => simp [ih, h]

theorem firstError_eq_some {α : Type} {validate : α → Except Error Unit} {l : List α}
    {e : Error} (h : firstError validate l = some e) :
    ∃ a ∈ l, validate a = Except.error e := by
  induction l with
  | nil => simp [firstError] at h
  | cons a l ih =>
    unfold firstError at h
    cases hv : validate a with
    | error err =>
      rw [hv] at h
      simp only [Option.some.injEq] at h
      exact ⟨a, List.mem_cons_self _ _, by rw [hv, h]⟩
    | ok u =>
      rw [hv] at h
      obtain ⟨b, hb, hbe⟩ := ih h
      exact ⟨b, List.mem_cons_of_mem _ hb, hbe⟩

/-- An entry that fails makes the loop over the entries fail. -/
theorem firstError_ne_none_of_error {α : Type} {validate : α → Except Error Unit}
    {l : List α} {a : α} {e : Error} (ha : a ∈ l) (h : validate a = Except.error e) :
    ∃ e2, firstError validate l = some e2 := by
  cases hf : firstError validate l with
  | some e2 => exact ⟨e2, rfl⟩
  | none =>
    rw [firstError_eq_none_iff] at hf
    rw [hf a ha] at h
    cases h

/-- The version check passes exactly when the version splits on `.` into three
segments that `isPositiveNumber` accepts. -/
theorem validateVersion_ok_iff (V : Validators) (b : Bundle) :
    Bundle.validateVersion V b = Except.ok () ↔
      (stringsSplit b.Version '.').length = 3 ∧
      ∀ seg ∈ stringsSplit b.Version '.', V.isPositiveNumber seg = true := by
  unfold Bundle.validateVersion
  split
  · rename_i major minor patch hsplit
    rw [hsplit]
    cases h1 : V.isPositiveNumber major <;> cases h2 : V.isPositiveNumber minor <;>
      cases h3 : V.isPositiveNumber patch <;> simp [h1, h2, h3]
  · rename_i hsplit
    constructor
    · intro h
      cases h
    · rintro ⟨hlen, _⟩
      exfalso
      match hs : stringsSplit b.Version '.', hlen with
      | [major, minor, patch], _ => exact hsplit major minor patch hs

theorem validateVersion_error_kind {V : Validators} {b : Bundle} {e : Error}
    (h : Bundle.validateVersion V b = Except.error e) :
    e.kind = ErrorKind.invalidBundleError := by
  unfold Bundle.validateVersion at h
  split at h
  · split at h
    · cases h; rfl
    · split at h
      · cases h; rfl
      · split at h
        · cases h; rfl
        · cases h
  · cases h; rfl

/-- Every error of `Bundle.Validate` is an invalid-bundle error. -/
theorem Bundle_Validate_error_kind {V : Validators} {b : Bundle} {e : Error}
    (h : Bundle.Validate V b = Except.error e) :
    e.kind = ErrorKind.invalidBundleError := by
  unfold Bundle.Validate at h
  split at h
  · cases h; rfl
  · split at h
    · cases h; rfl
    · split at h
      · cases h; rfl
      · split at h
        · cases h; rfl
        · split at h
          · cases h; rfl
          · split at h
            · cases h; rfl
            · split at h
              · cases h; rfl
              · exact validateVersion_error_kind h

/-- `Bundle.Validate` returns no error exactly when every check passes. -/
theorem Bundle_Validate_ok_iff (V : Validators) (b : Bundle) :
    Bundle.Validate V b = Except.ok () ↔
      b.Changelogs.len ≠ 0 ∧
      (∀ c ∈ b.Changelogs.elems, V.changelog c = Except.ok ()) ∧
      b.Components.len ≠ 0 ∧
      (∀ c ∈ b.Components.elems, V.component c = Except.ok ()) ∧
      (∀ d ∈ b.Dependencies.elems, V.dependency d = Except.ok ()) ∧
      b.Time ≠ emptyTime ∧
      b.Name ≠ "" ∧
      (stringsSplit b.Version '.').length = 3 ∧
      (∀ seg ∈ stringsSplit b.Version '.', V.isPositiveNumber seg = true) := by
  unfold Bundle.Validate
  by_cases h1 : b.Changelogs.len = 0
  · simp [h1]
  · rw [if_neg h1]
    cases h2 : firstError V.changelog b.Changelogs.elems with
    | some err =>
      have hex := firstError_eq_some h2
      obtain ⟨c, hc, hce⟩ := hex
      simp only [false_iff, not_and, reduceCtorEq]
      intro _ hall
      rw [hall c hc] at hce
      cases hce
    | none =>
      rw [firstError_eq_none_iff] at h2
      by_cases h3 : b.Components.len = 0
      · simp [h3]
      · simp only [if_neg h3]
        cases h4 : firstError V.component b.Components.elems with
        | some err =>
          obtain ⟨c, hc, hce⟩ := firstError_eq_some h4
          simp only [false_iff, not_and, reduceCtorEq]
          intro _ _ _ hall
          rw [hall c hc] at hce
          cases hce
        | none =>
          rw [firstError_eq_none_iff] at h4
          cases h5 : firstError V.dependency b.Dependencies.elems with
          | some err =>
            obtain ⟨c, hc, hce⟩ := firstError_eq_some h5
            simp only [false_iff, not_and, reduceCtorEq]
            intro _ _ _ _ hall
            rw [hall c hc] at hce
            cases hce
          | none =>
            rw [firstError_eq_none_iff] at h5
            by_cases h6 : b.Time = emptyTime
            · simp [h6]
            · by_cases h7 : b.Name = ""
              · simp [h6, h7]
              · simp only [if_neg h6, if_neg h7, validateVersion_ok_iff]
                constructor
                · rintro ⟨h8, h9⟩
                  exact ⟨h1, h2, h3, h4, h5, h6, h7, h8, h9⟩
                · rintro ⟨_, _, _, _, _, _, _, h8, h9⟩
                  exact ⟨h8, h9⟩

/-- `Bundle.Validate` returns, with no error or with an invalid-bundle error. -/
theorem Bundle_Validate_cases (V : Validators) (b : Bundle) :
    Bundle.Validate V b = Except.ok () ∨
      ∃ e, Bundle.Validate V b = Except.error e ∧ e.kind = ErrorKind.invalidBundleError := by
  cases h : Bundle.Validate V b with
  | ok u => exact Or.inl rfl
  | error e => exact Or.inr ⟨e, rfl, Bundle_Validate_error_kind h⟩

/-! ## `ValidateBundles.Validate` -/

/-- The inner loop of `hasDuplicatedVersions` answers true exactly when the
counter reaches two. -/
theorem seenTwice_iff (v : String) : ∀ (l : List Bundle) (seen : Nat), seen < 2 →
    (ValidateBundles.seenTwice v seen l = true ↔
      2 ≤ seen + l.countP (fun b => decide (v = b.Version))) := by
  intro l
  induction l with
  | nil =>
    intro seen hseen
    simp only [ValidateBundles.seenTwice, List.countP_nil, Nat.add_zero]
    constructor
    · intro h; cases h
    · intro h; omega
  | cons b2 rest ih =>
    intro seen hseen
    unfold ValidateBundles.seenTwice
    rw [List.countP_cons]
    by_cases hv : v = b2.Version
    · rw [if_pos hv]
      simp only [hv, decide_True, if_true]
      by_cases h2 : seen + 1 ≥ 2
      · rw [if_pos h2]
        simp only [true_iff]
        omega
      · rw [if_neg h2]
        have := ih (seen + 1) (by omega)
        rw [hv] at this
        rw [this]
        omega
    · rw [if_neg hv]
      simp only [hv, decide_False, Bool.false_eq_true, if_false, Nat.add_zero]
      exact ih seen hseen

theorem countP_version_eq_count (v : String) (l : List Bundle) :
    l.countP (fun b => decide (v = b.Version)) = (l.map Bundle.Version).count v := by
  rw [List.count_eq_countP, List.countP_map]
  congr 1
  funext b
  by_cases h : v = b.Version
  · simp [h]
  · have h2 : ¬ b.Version = v := fun h2 => h h2.symm
    simp [h, h2]

/-- `hasDuplicatedVersions` is true exactly when the versions of the bundles
are not pairwise different. -/
theorem hasDuplicatedVersions_iff (l : List Bundle) :
    ValidateBundles.hasDuplicatedVersions l = true ↔ ¬ (l.map Bundle.Version).Nodup := by
  unfold ValidateBundles.hasDuplicatedVersions
  rw [List.any_eq_true, List.nodup_iff_count_le_one]
  constructor
  · rintro ⟨b1, _, h⟩ hall
    rw [seenTwice_iff _ _ _ (by omega), countP_version_eq_count] at h
    have := hall b1.Version
    omega
  · intro h
    rw [not_forall] at h
    obtain ⟨v, hv⟩ := h
    have hpos : 0 < (l.map Bundle.Version).count v := by omega
    rw [List.count_pos_iff, List.mem_map] at hpos
    obtain ⟨b1, hb1, rfl⟩ := hpos
    refine ⟨b1, hb1, ?_⟩
    rw [seenTwice_iff _ _ _ (by omega), countP_version_eq_count]
    omega

/-- The versions are not pairwise different exactly when two different
positions carry the same version. -/
theorem not_nodup_versions_iff (l : List Bundle) :
    ¬ (l.map Bundle.Version).Nodup ↔
      ∃ (i j : Nat) (x y : Bundle),
        i ≠ j ∧ l[i]? = some x ∧ l[j]? = some y ∧ x.Version = y.Version := by
  constructor
  · intro h
    rw [List.nodup_iff_getElem?_ne_getElem?] at h
    simp only [not_forall, not_not] at h
    obtain ⟨i, j, hij, hj, heq⟩ := h
    rw [List.length_map] at hj
    have hi : i < l.length := by omega
    refine ⟨i, j, l[i], l[j], by omega, List.getElem?_eq_getElem hi,
      List.getElem?_eq_getElem hj, ?_⟩
    rw [List.getElem?_map, List.getElem?_map, List.getElem?_eq_getElem hi,
      List.getElem?_eq_getElem hj] at heq
    exact Option.some.inj heq
  · rintro ⟨i, j, x, y, hij, hx, hy, hv⟩ hnd
    apply hij
    have hi : i < (l.map Bundle.Version).length := by
      rw [List.length_map]
      exact (List.getElem?_eq_some.mp hx).1
    apply List.getElem?_inj hi hnd
    rw [List.getElem?_map, List.getElem?_map, hx, hy]
    simp [hv]

theorem deprecatedCount_eq_length_iff (l : List Bundle) :
    deprecatedCount l = l.length ↔ ∀ b ∈ l, b.Deprecated = true := by
  rw [deprecatedCount_eq_countP, List.countP_eq_length]

theorem namesDiffer_eq_false_iff (l : List Bundle) :
    ValidateBundles.namesDiffer l = false ↔ ∀ x ∈ l, ∀ y ∈ l, x.Name = y.Name := by
  cases l with
  | nil => simp [ValidateBundles.namesDiffer]
  | cons b0 rest =>
    unfold ValidateBundles.namesDiffer
    rw [List.any_eq_false]
    simp only [decide_eq_true_eq, not_not]
    constructor
    · intro h x hx y hy
      rw [h x hx, h y hy]
    · intro h x hx
      exact h x hx b0 (List.mem_cons_self _ _)

/-- Every error of `ValidateBundles.Validate` is an invalid-bundle error. -/
theorem ValidateBundles_Validate_error_kind {V : Validators} {b : List Bundle} {e : Error}
    (h : ValidateBundles.Validate V b = Except.error e) :
    e.kind = ErrorKind.invalidBundleError := by
  unfold ValidateBundles.Validate at h
  split at h
  · cases h; rfl
  · split at h
    · cases h; rfl
    · split at h
      · cases h; rfl
      · split at h
        · cases h; rfl
        · cases h

/-- `ValidateBundles.Validate` returns no error exactly when each of its four
checks passes. -/
theorem ValidateBundles_Validate_ok_iff (V : Validators) (b : List Bundle) :
    ValidateBundles.Validate V b = Except.ok () ↔
      ValidateBundles.hasDuplicatedVersions b = false ∧
      (∀ x ∈ b, Bundle.Validate V x = Except.ok ()) ∧
      deprecatedCount b ≠ b.length ∧
      ValidateBundles.namesDiffer b = false := by
  unfold ValidateBundles.Validate
  by_cases h1 : ValidateBundles.hasDuplicatedVersions b = true
  · simp [h1]
  · rw [if_neg h1]
    have h1f : ValidateBundles.hasDuplicatedVersions b = false := by simpa using h1
    cases h2 : firstError (Bundle.Validate V) b with
    | some err =>
      obtain ⟨x, hx, hxe⟩ := firstError_eq_some h2
      simp only [false_iff, not_and, reduceCtorEq]
      intro _ hall
      rw [hall x hx] at hxe
      cases hxe
    | none =>
      rw [firstError_eq_none_iff] at h2
      by_cases h3 : deprecatedCount b = b.length
      · simp [h3]
      · by_cases h4 : ValidateBundles.namesDiffer b = true
        · simp [h3, h4]
        · have h4f : ValidateBundles.namesDiffer b = false := by simpa using h4
          simp only [if_neg h3, if_neg h4, true_iff]
          exact ⟨h1f, h2, h3, h4f⟩

/-! ## The claims C21 to C30 -/

/-- C21: for every bundle, `Bundle.Validate` returns an invalid-bundle error if
its Changelogs list is empty, or its Components list is empty, or its Time is
the zero time, or its Name is the empty string, whatever the other fields
hold. -/
theorem Bundle_Validate_rejects_empty_field (V : Validators) (b : Bundle)
    (h : b.Changelogs.len = 0 ∨ b.Components.len = 0 ∨ b.Time = emptyTime ∨ b.Name = "") :
    ∃ e, Bundle.Validate V b = Except.error e ∧ e.kind = ErrorKind.invalidBundleError := by
  rcases Bundle_Validate_cases V b with hok | herr
  · exfalso
    rw [Bundle_Validate_ok_iff] at hok
    obtain ⟨h1, _, h3, _, _, h6, h7, _⟩ := hok
    rcases h with h | h | h | h
    · exact h1 h
    · exact h3 h
    · exact h6 h
    · exact h7 h
  · exact herr

/-- Witness of C21 on the bundle of test 0, the zero value `Bundle{}`. -/
theorem Bundle_Validate_rejects_empty_field_witness :
    emptyBundle.Changelogs.len = 0 ∧
    ∃ e, Bundle.Validate specValidators emptyBundle = Except.error e ∧
      e.kind = ErrorKind.invalidBundleError :=
  ⟨by decide, Bundle_Validate_rejects_empty_field specValidators emptyBundle
    (Or.inl (by decide))⟩

/-- C22: for every bundle whose Version does not split on `.` into exactly three
segments, `Bundle.Validate` returns an invalid-bundle error; it is a total
function, so it neither accepts the bundle nor fails to return. -/
theorem Bundle_Validate_rejects_version_format (V : Validators) (b : Bundle)
    (h : (stringsSplit b.Version '.').length ≠ 3) :
    ∃ e, Bundle.Validate V b = Except.error e ∧ e.kind = ErrorKind.invalidBundleError := by
  rcases Bundle_Validate_cases V b with hok | herr
  · exfalso
    rw [Bundle_Validate_ok_iff] at hok
    exact h hok.2.2.2.2.2.2.2.1
  · exact herr

/-- Witness of C22 on the versions of tests 6, 9 and 10: the empty string and
`foo` split into one segment, `1.2.3.4` into four. -/
theorem Bundle_Validate_rejects_version_format_witness :
    (stringsSplit "" '.').length = 1 ∧
    (stringsSplit "foo" '.').length = 1 ∧
    (stringsSplit "1.2.3.4" '.').length = 4 ∧
    ∃ e, Bundle.Validate specValidators { kubernetesOperator with Version := "1.2.3.4" } =
        Except.error e ∧
      e.kind = ErrorKind.invalidBundleError :=
  ⟨by decide, by decide, by decide,
    Bundle_Validate_rejects_version_format specValidators
      { kubernetesOperator with Version := "1.2.3.4" } (by decide)⟩

/-- C23: for every bundle, if an entry of its Changelogs, Components or
Dependencies fails the validation of that entry, `Bundle.Validate` returns an
invalid-bundle error. -/
theorem Bundle_Validate_rejects_invalid_entry (V : Validators) (b : Bundle)
    (h : (∃ c ∈ b.Changelogs.elems, ∃ e, V.changelog c = Except.error e) ∨
      (∃ c ∈ b.Components.elems, ∃ e, V.component c = Except.error e) ∨
      (∃ d ∈ b.Dependencies.elems, ∃ e, V.dependency d = Except.error e)) :
    ∃ e, Bundle.Validate V b = Except.error e ∧ e.kind = ErrorKind.invalidBundleError := by
  rcases Bundle_Validate_cases V b with hok | herr
  · exfalso
    rw [Bundle_Validate_ok_iff] at hok
    obtain ⟨_, h2, _, h4, h5, _⟩ := hok
    rcases h with ⟨c, hc, e, he⟩ | ⟨c, hc, e, he⟩ | ⟨d, hd, e, he⟩
    · rw [h2 c hc] at he
      cases he
    · rw [h4 c hc] at he
      cases he
    · rw [h5 d hd] at he
      cases he
  · exact herr

/-- Witness of C23 on the bundle of test 8, whose dependency has the version
expression `1.7.x`, without operator. -/
theorem Bundle_Validate_rejects_invalid_entry_witness :
    Dependency.Validate ⟨"kubernetes", "1.7.x"⟩ =
      Except.error ⟨ErrorKind.other "invalidDependencyError",
        "version must have an operator"⟩ ∧
    ∃ e, Bundle.Validate specValidators kubernetesOperatorNoOperator = Except.error e ∧
      e.kind = ErrorKind.invalidBundleError :=
  ⟨by decide, Bundle_Validate_rejects_invalid_entry specValidators
    kubernetesOperatorNoOperator
    (Or.inr (Or.inr ⟨⟨"kubernetes", "1.7.x"⟩, by decide,
      ⟨ErrorKind.other "invalidDependencyError", "version must have an operator"⟩,
      by decide⟩))⟩

/-- C24: the outcome of `Bundle.Validate` does not depend on the Deprecated and
WIP flags: with Deprecated set to `d` and WIP set to `w` the result, success or
the error, is that of the bundle itself. -/
theorem Bundle_Validate_ignores_flags (V : Validators) (b : Bundle) (d w : Bool) :
    Bundle.Validate V { b with Deprecated := d, WIP := w } = Bundle.Validate V b := rfl

/-- C25: `Bundle.Validate` returns no error if and only if Changelogs is
non-empty and every changelog passes its validation, Components is non-empty
and every component passes its validation, every dependency passes its
validation, Time is not the zero time, Name is not empty, and Version splits
on `.` into exactly three segments that `isPositiveNumber` accepts. -/
theorem Bundle_Validate_accepts_iff (V : Validators) (b : Bundle) :
    Bundle.Validate V b = Except.ok () ↔
      (b.Changelogs.len ≠ 0 ∧ ∀ c ∈ b.Changelogs.elems, V.changelog c = Except.ok ()) ∧
      (b.Components.len ≠ 0 ∧ ∀ c ∈ b.Components.elems, V.component c = Except.ok ()) ∧
      (∀ d ∈ b.Dependencies.elems, V.dependency d = Except.ok ()) ∧
      b.Time ≠ emptyTime ∧
      b.Name ≠ "" ∧
      ((stringsSplit b.Version '.').length = 3 ∧
        ∀ seg ∈ stringsSplit b.Version '.', V.isPositiveNumber seg = true) := by
  rw [Bundle_Validate_ok_iff]
  constructor
  · rintro ⟨h1, h2, h3, h4, h5, h6, h7, h8, h9⟩
    exact ⟨⟨h1, h2⟩, ⟨h3, h4⟩, h5, h6, h7, h8, h9⟩
  · rintro ⟨⟨h1, h2⟩, ⟨h3, h4⟩, h5, h6, h7, h8, h9⟩
    exact ⟨h1, h2, h3, h4, h5, h6, h7, h8, h9⟩

/-- Witness of C25 on the valid bundle of test 12 and on the bundle of test 4,
which has no dependencies. -/
theorem Bundle_Validate_accepts_iff_witness :
    Bundle.Validate specValidators kubernetesOperatorWildcard = Except.ok () ∧
    Bundle.Validate specValidators
      { kubernetesOperator with Dependencies := Slice.mk [] } = Except.ok () :=
  ⟨(Bundle_Validate_accepts_iff specValidators kubernetesOperatorWildcard).mpr (by decide),
    by decide⟩

/-- C26: every error returned by `Bundle.Validate`, `ValidateBundles.Validate`
and `ValidateGroupedBundles.Validate` is of the invalid-bundle kind, whatever
kind of error the validation of a changelog, component or dependency
returns. -/
theorem Validate_errors_are_invalid_bundle (V : Validators) :
    (∀ (b : Bundle) (e : Error),
      Bundle.Validate V b = Except.error e → e.kind = ErrorKind.invalidBundleError) ∧
    (∀ (bs : List Bundle) (e : Error),
      ValidateBundles.Validate V bs = Except.error e →
        e.kind = ErrorKind.invalidBundleError) ∧
    (∀ (gs : List (List Bundle)) (e : Error),
      ValidateGroupedBundles.Validate gs = Except.error e →
        e.kind = ErrorKind.invalidBundleError) :=
  ⟨fun _ _ h => Bundle_Validate_error_kind h,
    fun _ _ h => ValidateBundles_Validate_error_kind h,
    fun _ _ h => Validate_error_kind h⟩

/-- Witness of C26: the error of a changelog with an empty component, of
another kind, comes back from `Bundle.Validate` as an invalid-bundle error with
the same reason. -/
theorem Validate_errors_are_invalid_bundle_witness :
    Changelog.Validate ⟨"", "Calico version updated.", "changed"⟩ =
      Except.error ⟨ErrorKind.other "invalidChangelogError",
        "component must not be empty"⟩ ∧
    Bundle.Validate specValidators kubernetesOperatorBadChangelog =
      Except.error ⟨ErrorKind.invalidBundleError, "component must not be empty"⟩ ∧
    (⟨ErrorKind.invalidBundleError, "component must not be empty"⟩ : Error).kind =
      ErrorKind.invalidBundleError :=
  ⟨by decide, by decide,
    (Validate_errors_are_invalid_bundle specValidators).1 kubernetesOperatorBadChangelog _
      (by decide)⟩

/-- C27: `hasDuplicatedVersions` is true exactly for the sequences in which two
different positions carry the same Version string, and for every such sequence
`ValidateBundles.Validate` returns an invalid-bundle error. -/
theorem ValidateBundles_rejects_duplicated_versions (V : Validators) (b : List Bundle) :
    (ValidateBundles.hasDuplicatedVersions b = true ↔
      ∃ (i j : Nat) (x y : Bundle),
        i ≠ j ∧ b[i]? = some x ∧ b[j]? = some y ∧ x.Version = y.Version) ∧
    ((∃ (i j : Nat) (x y : Bundle),
        i ≠ j ∧ b[i]? = some x ∧ b[j]? = some y ∧ x.Version = y.Version) →
      ∃ e, ValidateBundles.Validate V b = Except.error e ∧
        e.kind = ErrorKind.invalidBundleError) := by
  have hiff : ValidateBundles.hasDuplicatedVersions b = true ↔
      ∃ (i j : Nat) (x y : Bundle),
        i ≠ j ∧ b[i]? = some x ∧ b[j]? = some y ∧ x.Version = y.Version := by
    rw [hasDuplicatedVersions_iff, not_nodup_versions_iff]
  refine ⟨hiff, ?_⟩
  intro h
  refine ⟨invalidBundle "", ?_, rfl⟩
  unfold ValidateBundles.Validate
  rw [if_pos (hiff.mpr h)]

/-- Witness of C27: `cloud-config-operator` 0.2.0 twice, once marked
deprecated. -/
theorem ValidateBundles_rejects_duplicated_versions_witness :
    ValidateBundles.hasDuplicatedVersions
      [cloudConfigOperator020, cloudConfigOperatorDeprecated] = true ∧
    ∃ e, ValidateBundles.Validate specValidators
        [cloudConfigOperator020, cloudConfigOperatorDeprecated] = Except.error e ∧
      e.kind = ErrorKind.invalidBundleError :=
  ⟨by decide, (ValidateBundles_rejects_duplicated_versions specValidators
    [cloudConfigOperator020, cloudConfigOperatorDeprecated]).2
    ⟨0, 1, cloudConfigOperator020, cloudConfigOperatorDeprecated,
      by decide, by decide, by decide, by decide⟩⟩

/-- C28: for every sequence of bundles without a non-deprecated bundle, the
empty sequence included, `ValidateBundles.Validate` returns an invalid-bundle
error. -/
theorem ValidateBundles_rejects_all_deprecated (V : Validators) (b : List Bundle)
    (h : ∀ x ∈ b, x.Deprecated = true) :
    ∃ e, ValidateBundles.Validate V b = Except.error e ∧
      e.kind = ErrorKind.invalidBundleError := by
  cases hv : ValidateBundles.Validate V b with
  | error e => exact ⟨e, rfl, ValidateBundles_Validate_error_kind hv⟩
  | ok u =>
    exfalso
    rw [ValidateBundles_Validate_ok_iff] at hv
    exact hv.2.2.1 ((deprecatedCount_eq_length_iff b).mpr h)

/-- Witness of C28 on the two deprecated bundles of `cloud-config-operator`. -/
theorem ValidateBundles_rejects_all_deprecated_witness :
    ValidateBundles.Validate specValidators [] =
      Except.error (invalidBundle "at least one bundle must not be deprecated") ∧
    ∃ e, ValidateBundles.Validate specValidators
        [cloudConfigOperatorDeprecated, cloudConfigOperator030Deprecated] =
          Except.error e ∧
      e.kind = ErrorKind.invalidBundleError :=
  ⟨by decide, ValidateBundles_rejects_all_deprecated specValidators
    [cloudConfigOperatorDeprecated, cloudConfigOperator030Deprecated] (by decide)⟩

/-- C29: `ValidateBundles.Validate` returns no error if and only if no two
positions share a Version string, every bundle passes `Bundle.Validate`, at
least one bundle is not deprecated, and all bundles have the same Name. -/
theorem ValidateBundles_Validate_accepts_iff (V : Validators) (b : List Bundle) :
    ValidateBundles.Validate V b = Except.ok () ↔
      (¬ ∃ (i j : Nat) (x y : Bundle),
        i ≠ j ∧ b[i]? = some x ∧ b[j]? = some y ∧ x.Version = y.Version) ∧
      (∀ x ∈ b, Bundle.Validate V x = Except.ok ()) ∧
      (∃ x ∈ b, x.Deprecated = false) ∧
      (∀ x ∈ b, ∀ y ∈ b, x.Name = y.Name) := by
  rw [ValidateBundles_Validate_ok_iff, ← not_nodup_versions_iff, ← hasDuplicatedVersions_iff,
    namesDiffer_eq_false_iff, Ne, deprecatedCount_eq_length_iff]
  simp only [Bool.not_eq_true, not_forall, exists_prop]

/-- Witness of C29: a deprecated bundle next to a non-deprecated bundle of the
same authority is accepted. -/
theorem ValidateBundles_Validate_accepts_iff_witness :
    cloudConfigOperatorDeprecated.Deprecated = true ∧
    ValidateBundles.Validate specValidators
      [cloudConfigOperatorDeprecated, cloudConfigOperator030] = Except.ok () ∧
    ((¬ ∃ (i j : Nat) (x y : Bundle),
        i ≠ j ∧ [cloudConfigOperatorDeprecated, cloudConfigOperator030][i]? = some x ∧
          [cloudConfigOperatorDeprecated, cloudConfigOperator030][j]? = some y ∧
          x.Version = y.Version) ∧
      (∀ x ∈ [cloudConfigOperatorDeprecated, cloudConfigOperator030],
        Bundle.Validate specValidators x = Except.ok ()) ∧
      (∃ x ∈ [cloudConfigOperatorDeprecated, cloudConfigOperator030],
        x.Deprecated = false) ∧
      (∀ x ∈ [cloudConfigOperatorDeprecated, cloudConfigOperator030],
        ∀ y ∈ [cloudConfigOperatorDeprecated, cloudConfigOperator030], x.Name = y.Name)) :=
  ⟨by decide, by decide,
    (ValidateBundles_Validate_accepts_iff specValidators
      [cloudConfigOperatorDeprecated, cloudConfigOperator030]).mp (by decide)⟩

/-! ## Parsing well-formed versions -/

theorem digitChar_toNat : ∀ k : Nat, k < 10 → (Nat.digitChar k).toNat = 48 + k := by
  intro k hk
  interval_cases k <;> rfl

theorem toDigitsCore_append : ∀ (fuel n : Nat) (ds : List Char),
    Nat.toDigitsCore 10 fuel n ds = Nat.toDigitsCore 10 fuel n [] ++ ds := by
  intro fuel
  induction fuel with
  | zero => intro n ds; rfl
  | succ fuel ih =>
    intro n ds
    unfold Nat.toDigitsCore
    simp only []
    split
    · rfl
    · rw [ih (n / 10) (Nat.digitChar (n % 10) :: ds), ih (n / 10) [Nat.digitChar (n % 10)]]
      simp

/-- The character of a digit below ten is a decimal digit. -/
theorem isDigit_digitChar (k : Nat) (hk : k < 10) :
    48 ≤ (Nat.digitChar k).toNat ∧ (Nat.digitChar k).toNat ≤ 57 := by
  rw [digitChar_toNat k hk]
  omega

theorem parseStep_digitChar (a k : Nat) (hk : k < 10) :
    (match (some a : Option Nat) with
      | none => none
      | some n =>
        if 48 ≤ (Nat.digitChar k).toNat ∧ (Nat.digitChar k).toNat ≤ 57 then
          some (n * 10 + ((Nat.digitChar k).toNat - 48))
        else none) = some (a * 10 + k) := by
  simp only []
  rw [if_pos (isDigit_digitChar k hk), digitChar_toNat k hk]
  congr 2
  omega

/-- The digits of a number are not empty, are decimal digits, and fold back to
the number. -/
theorem toDigitsCore_spec : ∀ (fuel n : Nat), n < fuel →
    Nat.toDigitsCore 10 fuel n [] ≠ [] ∧
    (∀ c ∈ Nat.toDigitsCore 10 fuel n [], 48 ≤ c.toNat ∧ c.toNat ≤ 57) ∧
    (Nat.toDigitsCore 10 fuel n []).foldl (fun acc c =>
      match acc with
      | none => none
      | some m => if 48 ≤ c.toNat ∧ c.toNat ≤ 57 then some (m * 10 + (c.toNat - 48)) else none)
      (some 0) = some n := by
  intro fuel
  induction fuel with
  | zero => intro n h; omega
  | succ fuel ih =>
    intro n hn
    unfold Nat.toDigitsCore
    simp only []
    have hmod : n % 10 < 10 := Nat.mod_lt _ (by omega)
    split
    · rename_i hdiv
      refine ⟨by simp, ?_, ?_⟩
      · intro c hc
        rw [List.mem_singleton] at hc
        rw [hc]
        exact isDigit_digitChar _ hmod
      · rw [List.foldl_cons, List.foldl_nil, parseStep_digitChar 0 _ hmod]
        congr 1
        have := Nat.div_add_mod n 10
        omega
    · rename_i hdiv
      have hlt : n / 10 < fuel := by
        have := Nat.div_add_mod n 10
        omega
      obtain ⟨_, h2, h3⟩ := ih (n / 10) hlt
      rw [toDigitsCore_append]
      refine ⟨by simp, ?_, ?_⟩
      · intro c hc
        rcases List.mem_append.mp hc with h | h
        · exact h2 c h
        · rw [List.mem_singleton] at h
          rw [h]
          exact isDigit_digitChar _ hmod
      · rw [List.foldl_append, h3, List.foldl_cons, List.foldl_nil,
          parseStep_digitChar _ _ hmod]
        congr 1
        have := Nat.div_add_mod n 10
        omega

theorem toDigits_ne_nil (n : Nat) : Nat.toDigits 10 n ≠ [] :=
  (toDigitsCore_spec (n + 1) n (by omega)).1

theorem toDigits_isDigit (n : Nat) :
    ∀ c ∈ Nat.toDigits 10 n, 48 ≤ c.toNat ∧ c.toNat ≤ 57 :=
  (toDigitsCore_spec (n + 1) n (by omega)).2.1

/-- Reading the decimal digits of a number gives the number back. -/
theorem parseNumber_toDigits (n : Nat) : parseNumber (Nat.toDigits 10 n) = some n := by
  unfold parseNumber
  rw [if_neg (toDigits_ne_nil n)]
  exact (toDigitsCore_spec (n + 1) n (by omega)).2.2

theorem parseSegment_render (seg : Segment) : parseSegment seg.render = some seg := by
  cases seg with
  | wildcard => rfl
  | num n =>
    unfold parseSegment Segment.render
    have hne : Nat.toDigits 10 n ≠ ['x'] := by
      intro h
      have := toDigits_isDigit n 'x' (by rw [h]; simp)
      revert this
      decide
    rw [if_neg hne, parseNumber_toDigits]
    rfl

theorem parseAll_map {α β : Type} (f : α → Option β) (g : β → α)
    (h : ∀ b, f (g b) = some b) : ∀ l : List β, parseAll f (l.map g) = some l := by
  intro l
  induction l with
  | nil => rfl
  | cons b l ih =>
    rw [List.map_cons]
    unfold parseAll
    rw [h b, ih]

theorem splitAt_of_not_mem (sep : Char) : ∀ s : List Char, (∀ c ∈ s, c ≠ sep) →
    splitAt sep s = [s] := by
  intro s
  induction s with
  | nil => intro _; rfl
  | cons c s ih =>
    intro h
    unfold splitAt
    rw [if_neg (h c (List.mem_cons_self _ _)),
      ih (fun a ha => h a (List.mem_cons_of_mem _ ha))]

theorem splitAt_append_sep (sep : Char) (r : List Char) : ∀ s : List Char,
    (∀ c ∈ s, c ≠ sep) → splitAt sep (s ++ sep :: r) = s :: splitAt sep r := by
  intro s
  induction s with
  | nil =>
    intro _
    rw [List.nil_append]
    conv => lhs; unfold splitAt
    rw [if_pos rfl]
  | cons c s ih =>
    intro h
    rw [List.cons_append]
    conv => lhs; unfold splitAt
    rw [if_neg (h c (List.mem_cons_self _ _)),
      ih (fun a ha => h a (List.mem_cons_of_mem _ ha))]

/-- Splitting dotted segments gives the segments back. -/
theorem splitAt_renderDotted : ∀ l : List (List Char), l ≠ [] →
    (∀ s ∈ l, ∀ c ∈ s, c ≠ '.') → splitAt '.' (renderDotted l) = l := by
  intro l
  induction l with
  | nil => intro h; exact absurd rfl h
  | cons s l ih =>
    intro _ h
    cases l with
    | nil =>
      unfold renderDotted
      exact splitAt_of_not_mem '.' s (h s (List.mem_cons_self _ _))
    | cons t rest =>
      unfold renderDotted
      rw [splitAt_append_sep '.' _ s (h s (List.mem_cons_self _ _)),
        ih (by simp) (fun a ha => h a (List.mem_cons_of_mem _ ha))]

theorem render_no_dot (seg : Segment) : ∀ c ∈ seg.render, c ≠ '.' := by
  cases seg with
  | wildcard =>
    intro c hc
    rw [Segment.render, List.mem_singleton] at hc
    rw [hc]
    decide
  | num n =>
    intro c hc hdot
    have := toDigits_isDigit n c hc
    rw [hdot] at this
    revert this
    decide

theorem toDigits_no_dot (n : Nat) : ∀ c ∈ Nat.toDigits 10 n, c ≠ '.' :=
  render_no_dot (Segment.num n)

/-- A rendered segment starts with a character that is neither a blank nor part
of an operator. -/
theorem render_head (seg : Segment) :
    ∃ c rest, seg.render = c :: rest ∧ c ≠ ' ' ∧ c ≠ '=' ∧ c ≠ '<' ∧ c ≠ '>' := by
  cases seg with
  | wildcard => exact ⟨'x', [], rfl, by decide, by decide, by decide, by decide⟩
  | num n =>
    cases h : Nat.toDigits 10 n with
    | nil => exact absurd h (toDigits_ne_nil n)
    | cons c rest =>
      have hd := toDigits_isDigit n c (by rw [h]; simp)
      refine ⟨c, rest, h, ?_, ?_, ?_, ?_⟩ <;>
      · intro hc
        rw [hc] at hd
        revert hd
        decide

theorem renderDotted_head (segments : List Segment) (hne : segments ≠ []) :
    ∃ c rest, renderDotted (segments.map Segment.render) = c :: rest ∧
      c ≠ ' ' ∧ c ≠ '=' ∧ c ≠ '<' ∧ c ≠ '>' := by
  cases segments with
  | nil => exact absurd rfl hne
  | cons seg l =>
    obtain ⟨c, rest, hr, hc⟩ := render_head seg
    cases l with
    | nil => exact ⟨c, rest, by simp [renderDotted, hr], hc⟩
    | cons t l2 =>
      exact ⟨c, rest ++ '.' :: renderDotted ((t :: l2).map Segment.render),
        by simp [renderDotted, hr], hc⟩

theorem splitOperator_symbol (o : Operator) (rest : List Char) :
    splitOperator (o.symbol ++ ' ' :: rest) = (o, ' ' :: rest) := by
  cases o <;> simp [Operator.symbol, splitOperator]

theorem splitOperator_plain (c : Char) (rest : List Char)
    (h1 : c ≠ '=') (h2 : c ≠ '<') (h3 : c ≠ '>') :
    splitOperator (c :: rest) = (Operator.eq, c :: rest) := by
  cases rest with
  | nil => simp [splitOperator, h2, h3]
  | cons b r => simp [splitOperator, h1, h2, h3]

/-- On sequences of equal length the comparison of the matcher is the
comparison in the spec's words. -/
theorem compareSegments_eq_specCompare : ∀ (numbers : List Nat) (segments : List Segment),
    segments.length = numbers.length →
    compareSegments numbers segments = specCompare numbers segments := by
  intro numbers
  induction numbers with
  | nil =>
    intro segments h
    cases segments with
    | nil => rfl
    | cons _ _ => simp at h
  | cons c cs ih =>
    intro segments h
    cases segments with
    | nil => simp at h
    | cons seg ds =>
      cases seg with
      | wildcard => rfl
      | num d =>
        have hlen : ds.length = cs.length := by simpa using h
        have ih2 := ih ds hlen
        unfold compareSegments
        unfold specCompare at ih2 ⊢
        simp only [anchorOf, List.length_cons, List.take_succ_cons, lexLess]
        by_cases h1 : c < d
        · simp [h1]
        · by_cases h2 : d < c
          · simp [h1, h2]
          · simp only [h1, h2, if_false]
            exact ih2

/-- The matcher on an expression and a version that parse. -/
theorem Matches_of_parsed (d : Dependency) (c : Component) (o : Operator)
    (rest : List Char) (segments : List Segment) (numbers : List Nat)
    (h1 : splitOperator d.Version.data = (o, rest))
    (h2 : parseAll parseSegment
      (splitAt '.' (rest.dropWhile (fun ch => decide (ch = ' ')))) = some segments)
    (h3 : parseAll parseNumber (splitAt '.' c.Version.data) = some numbers) :
    Dependency.Matches d c = o.holds (compareSegments numbers segments) := by
  unfold Dependency.Matches
  rw [h1]
  simp only []
  rw [h2, h3]

theorem dropWhile_blank_of_head (c : Char) (rest : List Char) (h : c ≠ ' ') :
    (c :: rest).dropWhile (fun ch => decide (ch = ' ')) = c :: rest := by
  rw [List.dropWhile_cons_of_neg]
  simpa using h

/-- The matcher on a well-formed constraint expression and a well-formed
version with as many segments: the operator applied to the comparison in the
spec's words. -/
theorem Matches_render (name1 name2 : String) (op : Option Operator)
    (segments : List Segment) (numbers : List Nat)
    (hne : segments ≠ []) (hlen : segments.length = numbers.length) :
    Dependency.Matches ⟨name1, renderConstraint op segments⟩ ⟨name2, renderVersion numbers⟩ =
      (op.getD Operator.eq).holds (specCompare numbers segments) := by
  obtain ⟨ch, rest, hR, hc1, hc2, hc3, hc4⟩ := renderDotted_head segments hne
  have hsegs : parseAll parseSegment
      (splitAt '.' (renderDotted (segments.map Segment.render))) = some segments := by
    rw [splitAt_renderDotted _ (by simpa using hne)]
    · exact parseAll_map parseSegment Segment.render parseSegment_render segments
    · intro s hs
      obtain ⟨seg, _, rfl⟩ := List.mem_map.mp hs
      exact render_no_dot seg
  have hnumne : numbers ≠ [] := by
    intro h
    rw [h] at hlen
    exact hne (List.length_eq_zero.mp hlen)
  have hnums : parseAll parseNumber
      (splitAt '.' (renderDotted (numbers.map (Nat.toDigits 10)))) = some numbers := by
    rw [splitAt_renderDotted _ (by simpa using hnumne)]
    · exact parseAll_map parseNumber (Nat.toDigits 10) parseNumber_toDigits numbers
    · intro s hs
      obtain ⟨n, _, rfl⟩ := List.mem_map.mp hs
      exact toDigits_no_dot n
  rw [← compareSegments_eq_specCompare numbers segments hlen]
  cases op with
  | some o =>
    refine Matches_of_parsed _ _ o (' ' :: renderDotted (segments.map Segment.render))
      segments numbers (splitOperator_symbol o _) ?_ hnums
    rw [List.dropWhile_cons_of_pos (by simp), hR, dropWhile_blank_of_head ch rest hc1, ← hR]
    exact hsegs
  | none =>
    refine Matches_of_parsed _ _ Operator.eq (renderDotted (segments.map Segment.render))
      segments numbers ?_ ?_ hnums
    · show splitOperator (renderDotted (segments.map Segment.render)) = _
      rw [hR]
      exact splitOperator_plain ch rest hc2 hc3 hc4
    · rw [hR, dropWhile_blank_of_head ch rest hc1, ← hR]
      exact hsegs

/-- C30: for every dependency and component with the same name, a well-formed
constraint expression and a well-formed version with as many segments,
`Dependency.Matches` applies the operator of the constraint (exact match when
there is none) to the numeric comparison, segment by segment from the left, of
the component's version with the constraint's version, in which a wildcard
segment and every segment to its right are ignored. So `<= 1.7.x` matches
1.7.1, `<= 1.7.0` does not match 1.7.1, `<= 1.8.x` matches 1.7.1 and 1.8.1, and
`== 1.8.1` matches 1.8.1 but not 1.7.1. -/
theorem Dependency_Matches_compares (name : String) (op : Option Operator)
    (segments : List Segment) (numbers : List Nat)
    (hne : segments ≠ []) (hlen : segments.length = numbers.length) :
    Dependency.Matches ⟨name, renderConstraint op segments⟩ ⟨name, renderVersion numbers⟩ =
      (op.getD Operator.eq).holds (specCompare numbers segments) ∧
    Dependency.Matches ⟨"kubernetes", "<= 1.7.x"⟩ ⟨"kubernetes", "1.7.1"⟩ = true ∧
    Dependency.Matches ⟨"kubernetes", "<= 1.7.0"⟩ ⟨"kubernetes", "1.7.1"⟩ = false ∧
    Dependency.Matches ⟨"kubernetes", "<= 1.8.x"⟩ ⟨"kubernetes", "1.7.1"⟩ = true ∧
    Dependency.Matches ⟨"kubernetes", "<= 1.8.x"⟩ ⟨"kubernetes", "1.8.1"⟩ = true ∧
    Dependency.Matches ⟨"kubernetes", "== 1.8.1"⟩ ⟨"kubernetes", "1.8.1"⟩ = true ∧
    Dependency.Matches ⟨"kubernetes", "== 1.8.1"⟩ ⟨"kubernetes", "1.7.1"⟩ = false :=
  ⟨Matches_render name name op segments numbers hne hlen,
    by decide, by decide, by decide, by decide, by decide, by decide⟩

/-- Witness of C30 on the constraint `<= 1.7.x` and the version 1.8.0: the
comparison stops at the wildcard with the second segment greater, so the
constraint is not matched. -/
theorem Dependency_Matches_compares_witness :
    renderConstraint (some Operator.le)
      [Segment.num 1, Segment.num 7, Segment.wildcard] = "<= 1.7.x" ∧
    renderVersion [1, 8, 0] = "1.8.0" ∧
    specCompare [1, 8, 0] [Segment.num 1, Segment.num 7, Segment.wildcard] = Ordering.gt ∧
    Dependency.Matches
        ⟨"kubernetes", renderConstraint (some Operator.le)
          [Segment.num 1, Segment.num 7, Segment.wildcard]⟩
        ⟨"kubernetes", renderVersion [1, 8, 0]⟩ =
      ((some Operator.le).getD Operator.eq).holds
        (specCompare [1, 8, 0] [Segment.num 1, Segment.num 7, Segment.wildcard]) :=
  ⟨by decide, by decide, by decide,
    (Dependency_Matches_compares "kubernetes" (some Operator.le)
      [Segment.num 1, Segment.num 7, Segment.wildcard] [1, 8, 0]
      (by decide) (by decide)).1⟩

/-! ## The claims C31 to C40 -/

/-- A candidate group built from a seed of the input has every authority name
of the input exactly when it passes the length test of line 56. -/
theorem full_iff_names_cover (Matches : Dependency → Component → Bool)
    (bundles : List Bundle) (s : Bundle) (hs : s ∈ bundles) :
    distinctCount bundles = (newGroupOf Matches bundles s).length ↔
      ∀ b ∈ bundles, ∃ c ∈ newGroupOf Matches bundles s, c.Name = b.Name :=
  ⟨names_cover_of_full Matches bundles s hs,
    fun hcover => distinctCount_eq_length_of_cover
      (fun _ hb => mem_input_of_mem_newGroupOf hs hb)
      (newGroupOf_nodup_names Matches bundles s) hcover⟩

/-- A candidate group has a member of every authority name of the input exactly
when every other authority has a bundle that fits the seed. -/
theorem names_cover_iff_fits (Matches : Dependency → Component → Bool)
    (bundles : List Bundle) (s : Bundle) :
    (∀ b ∈ bundles, ∃ c ∈ newGroupOf Matches bundles s, c.Name = b.Name) ↔
      ∀ b ∈ bundles, b.Name ≠ s.Name →
        ∃ c, bundles.find? (fits Matches s b.Name) = some c := by
  constructor
  · intro h b hb hne
    obtain ⟨c, hc, hcn⟩ := h b hb
    rcases (mem_newGroupOf Matches bundles s c).mp hc with rfl | ⟨_, hf⟩
    · exact absurd hcn.symm hne
    · rw [hcn] at hf
      exact ⟨c, hf⟩
  · intro h b hb
    by_cases hne : b.Name = s.Name
    · exact ⟨s, seed_mem_newGroupOf Matches bundles s, hne.symm⟩
    · obtain ⟨c, hc⟩ := h b hb hne
      have hfit := List.find?_some hc
      have hcn : c.Name = b.Name := by
        unfold fits at hfit
        simp only [Bool.and_eq_true, decide_eq_true_eq] at hfit
        exact hfit.1.1
      refine ⟨c, (mem_newGroupOf Matches bundles s c).mpr (Or.inr ⟨?_, ?_⟩), hcn⟩
      · rw [hcn]
        exact hne
      · rw [hcn]
        exact hc

/-- C31: group membership is decided against the seed only. Every group
`Aggregate` returns has a member `s`, a bundle of the input, such that every
other member of the group is conflict-free with `s` in both directions; the
members of the group are `s` and, per other authority name, the first bundle of
the input that is conflict-free with `s`, a test that reads no other member. -/
theorem Aggregate_membership_against_seed (Matches : Dependency → Component → Bool)
    (bundles : List Bundle) (groups : List (List Bundle))
    (h : Aggregate Matches bundles = Except.ok groups) :
    ∀ g ∈ groups, ∃ s ∈ g, s ∈ bundles ∧
      (∀ b ∈ g, b ≠ s →
        bundlesConflictWithDependencies Matches s b = false ∧
        bundlesConflictWithDependencies Matches b s = false) ∧
      (∀ b, b ∈ g ↔
        b = s ∨ (b.Name ≠ s.Name ∧ bundles.find? (fits Matches s b.Name) = some b)) := by
  intro g hg
  obtain ⟨s, hs, rfl, _⟩ := (mem_of_Aggregate_ok h g).mp hg
  refine ⟨s, seed_mem_newGroupOf Matches bundles s, hs, ?_, ?_⟩
  · intro b hb hne
    have := of_mem_newGroupOf hb hne
    exact ⟨this.2.2.1, this.2.2.2⟩
  · intro b
    exact mem_newGroupOf Matches bundles s b

/-- Witness of C31 on three bundles of three authorities: the seed of the one
group is `awsOperator010`. -/
theorem Aggregate_membership_against_seed_witness :
    Aggregate Dependency.Matches
        [awsOperator010, kubernetesOperatorPinned, cloudConfigOperator030] =
      Except.ok [[awsOperator010, cloudConfigOperator030, kubernetesOperatorPinned]] ∧
    ∀ g ∈ [[awsOperator010, cloudConfigOperator030, kubernetesOperatorPinned]],
      ∃ s ∈ g, s ∈ [awsOperator010, kubernetesOperatorPinned, cloudConfigOperator030] ∧
        (∀ b ∈ g, b ≠ s →
          bundlesConflictWithDependencies Dependency.Matches s b = false ∧
          bundlesConflictWithDependencies Dependency.Matches b s = false) ∧
        (∀ b, b ∈ g ↔
          b = s ∨ (b.Name ≠ s.Name ∧
            [awsOperator010, kubernetesOperatorPinned, cloudConfigOperator030].find?
              (fits Dependency.Matches s b.Name) = some b)) :=
  ⟨by decide,
    Aggregate_membership_against_seed Dependency.Matches
      [awsOperator010, kubernetesOperatorPinned, cloudConfigOperator030]
      [[awsOperator010, cloudConfigOperator030, kubernetesOperatorPinned]] (by decide)⟩

/-- C32: `bundlesConflictWithDependencies b1 b2` is true if and only if some
dependency `d` of `b1` and some component `c` of `b2` have equal names and
`d.Matches(c)` is false. A dependency whose name equals no component name of
`b2` never causes a conflict: the result is the same with and without it. A
bundle without dependencies conflicts with nothing. -/
theorem bundlesConflictWithDependencies_iff (Matches : Dependency → Component → Bool)
    (b1 b2 : Bundle) :
    (bundlesConflictWithDependencies Matches b1 b2 = true ↔
      ∃ d ∈ b1.Dependencies.elems, ∃ c ∈ b2.Components.elems,
        d.Name = c.Name ∧ Matches d c = false) ∧
    (∀ (d : Dependency) (before after : List Dependency),
      (∀ c ∈ b2.Components.elems, d.Name ≠ c.Name) →
      bundlesConflictWithDependencies Matches
          { b1 with Dependencies := Slice.mk (before ++ d :: after) } b2 =
        bundlesConflictWithDependencies Matches
          { b1 with Dependencies := Slice.mk (before ++ after) } b2) ∧
    ((∀ d ∈ b1.Dependencies.elems, ∀ c ∈ b2.Components.elems, d.Name ≠ c.Name) →
      bundlesConflictWithDependencies Matches b1 b2 = false) ∧
    (b1.Dependencies.len = 0 → bundlesConflictWithDependencies Matches b1 b2 = false) := by
  refine ⟨bundlesConflict_eq_true_iff Matches b1 b2, ?_, ?_, ?_⟩
  · intro d before after hd
    have hdfalse : (b2.Components.elems.any (fun c =>
        if d.Name ≠ c.Name then false else !(Matches d c))) = false := by
      rw [List.any_eq_false]
      intro c hc
      simp [hd c hc]
    show (before ++ d :: after).any (fun d =>
        b2.Components.elems.any (fun c =>
          if d.Name ≠ c.Name then false else !(Matches d c))) =
      (before ++ after).any (fun d =>
        b2.Components.elems.any (fun c =>
          if d.Name ≠ c.Name then false else !(Matches d c)))
    rw [List.any_append, List.any_append, List.any_cons, hdfalse, Bool.false_or]
  · intro hno
    cases hcv : bundlesConflictWithDependencies Matches b1 b2 with
    | false => rfl
    | true =>
      obtain ⟨d, hd, c, hc, hname, _⟩ := (bundlesConflict_eq_true_iff Matches b1 b2).mp hcv
      exact absurd hname (hno d hd c hc)
  · intro hlen
    cases hcv : bundlesConflictWithDependencies Matches b1 b2 with
    | false => rfl
    | true =>
      obtain ⟨d, hd, _⟩ := (bundlesConflict_eq_true_iff Matches b1 b2).mp hcv
      unfold Slice.len at hlen
      rw [List.length_eq_zero.mp hlen] at hd
      cases hd

/-- Witness of C32: `kubernetesOperatorExact` depends on `kubernetes` at
`<= 1.7.0` and `cloudConfigOperator020` exposes `kubernetes` 1.7.1, so the two
conflict; a further dependency on `calico`, which `cloudConfigOperator020` does
not expose, changes nothing; `cloudConfigOperator020` has no dependencies. -/
theorem bundlesConflictWithDependencies_iff_witness :
    bundlesConflictWithDependencies Dependency.Matches
      kubernetesOperatorExact cloudConfigOperator020 = true ∧
    bundlesConflictWithDependencies Dependency.Matches
        { kubernetesOperatorExact with
          Dependencies := Slice.mk ([] ++ ⟨"calico", "== 9.9.9"⟩ ::
            [⟨"kubernetes", "<= 1.7.0"⟩]) } cloudConfigOperator020 =
      bundlesConflictWithDependencies Dependency.Matches
        { kubernetesOperatorExact with
          Dependencies := Slice.mk ([] ++ [⟨"kubernetes", "<= 1.7.0"⟩]) }
        cloudConfigOperator020 ∧
    bundlesConflictWithDependencies Dependency.Matches
      cloudConfigOperator020 kubernetesOperatorExact = false :=
  ⟨(bundlesConflictWithDependencies_iff Dependency.Matches
      kubernetesOperatorExact cloudConfigOperator020).1.mpr
      ⟨⟨"kubernetes", "<= 1.7.0"⟩, by decide, ⟨"kubernetes", "1.7.1"⟩, by decide,
        by decide, by decide⟩,
    (bundlesConflictWithDependencies_iff Dependency.Matches
      kubernetesOperatorExact cloudConfigOperator020).2.1
      ⟨"calico", "== 9.9.9"⟩ [] [⟨"kubernetes", "<= 1.7.0"⟩] (by decide),
    (bundlesConflictWithDependencies_iff Dependency.Matches
      cloudConfigOperator020 kubernetesOperatorExact).2.2.2 (by decide)⟩

/-- C33: first-fit selection. The candidate group built for a seed `b1` of the
input has at most one member per authority name; its members are `b1` and, for
each other authority name, the first bundle in input order carrying that name
that is conflict-free with `b1` in both directions; no other bundle of the
authority of `b1` is added; and the candidate is appended to the result only
if every other authority of the input contributed such a bundle, which is also
enough when the same group is not in the result yet. -/
theorem newGroupOf_first_fit (Matches : Dependency → Component → Bool)
    (bundles : List Bundle) (b1 : Bundle) (hb1 : b1 ∈ bundles) :
    ((newGroupOf Matches bundles b1).map Bundle.Name).Nodup ∧
    (∀ b, b ∈ newGroupOf Matches bundles b1 ↔
      b = b1 ∨ (b.Name ≠ b1.Name ∧ bundles.find? (fits Matches b1 b.Name) = some b)) ∧
    (∀ b ∈ newGroupOf Matches bundles b1, b.Name = b1.Name → b = b1) ∧
    (∀ acc : List (List Bundle), groupedStep Matches bundles acc b1 ≠ acc →
      groupedStep Matches bundles acc b1 = acc ++ [newGroupOf Matches bundles b1] ∧
      ∀ b ∈ bundles, b.Name ≠ b1.Name →
        ∃ c ∈ newGroupOf Matches bundles b1,
          bundles.find? (fits Matches b1 b.Name) = some c) ∧
    (∀ acc : List (List Bundle), newGroupOf Matches bundles b1 ∉ acc →
      (∀ b ∈ bundles, b.Name ≠ b1.Name →
        ∃ c, bundles.find? (fits Matches b1 b.Name) = some c) →
      groupedStep Matches bundles acc b1 = acc ++ [newGroupOf Matches bundles b1]) := by
  refine ⟨newGroupOf_nodup_names Matches bundles b1, mem_newGroupOf Matches bundles b1,
    ?_, ?_, ?_⟩
  · intro b hb hname
    rcases (mem_newGroupOf Matches bundles b1 b).mp hb with h | ⟨hne, _⟩
    · exact h
    · exact absurd hname hne
  · intro acc hne
    rw [groupedStep_eq] at hne ⊢
    by_cases hc : containsGroupedBundle acc (newGroupOf Matches bundles b1) = true
    · rw [if_pos hc] at hne
      exact absurd rfl hne
    · rw [if_neg hc] at hne ⊢
      by_cases hd : distinctCount bundles ≠ (newGroupOf Matches bundles b1).length
      · rw [if_pos hd] at hne
        exact absurd rfl hne
      · rw [if_neg hd]
        refine ⟨rfl, ?_⟩
        have hfull : distinctCount bundles = (newGroupOf Matches bundles b1).length :=
          not_not.mp hd
        have hcover := (full_iff_names_cover Matches bundles b1 hb1).mp hfull
        intro b hb hbn
        obtain ⟨c, hcmem, hcn⟩ := hcover b hb
        refine ⟨c, hcmem, ?_⟩
        rcases (mem_newGroupOf Matches bundles b1 c).mp hcmem with rfl | ⟨_, hf⟩
        · exact absurd hcn.symm hbn
        · rw [hcn] at hf
          exact hf
  · intro acc hnew hall
    rw [groupedStep_eq]
    have hc : ¬ containsGroupedBundle acc (newGroupOf Matches bundles b1) = true := by
      rw [containsGroupedBundle_eq_true]
      exact hnew
    have hfull : distinctCount bundles = (newGroupOf Matches bundles b1).length :=
      (full_iff_names_cover Matches bundles b1 hb1).mpr
        ((names_cover_iff_fits Matches bundles b1).mpr hall)
    rw [if_neg hc, if_neg (not_not.mpr hfull)]

/-- Witness of C33 on the input of test 6 and the seed `kubernetesOperatorPinned`,
which depends on `kubernetes` at `== 1.8.1`: the first bundle of the other
authority, `cloudConfigOperator020`, exposes 1.7.1 and is passed over for the
second one. -/
theorem newGroupOf_first_fit_witness :
    newGroupOf Dependency.Matches
        [cloudConfigOperator020, cloudConfigOperator030, kubernetesOperatorPinned]
        kubernetesOperatorPinned =
      [cloudConfigOperator030, kubernetesOperatorPinned] ∧
    [cloudConfigOperator020, cloudConfigOperator030, kubernetesOperatorPinned].find?
        (fits Dependency.Matches kubernetesOperatorPinned "cloud-config-operator") =
      some cloudConfigOperator030 ∧
    (∀ b, b ∈ newGroupOf Dependency.Matches
        [cloudConfigOperator020, cloudConfigOperator030, kubernetesOperatorPinned]
        kubernetesOperatorPinned ↔
      b = kubernetesOperatorPinned ∨ (b.Name ≠ kubernetesOperatorPinned.Name ∧
        [cloudConfigOperator020, cloudConfigOperator030, kubernetesOperatorPinned].find?
          (fits Dependency.Matches kubernetesOperatorPinned b.Name) = some b)) :=
  ⟨by decide, by decide,
    (newGroupOf_first_fit Dependency.Matches
      [cloudConfigOperator020, cloudConfigOperator030, kubernetesOperatorPinned]
      kubernetesOperatorPinned (by decide)).2.1⟩

/-- The check of the version rejects a split of other than three segments with
the reason of line 93. -/
theorem validateVersion_of_length_ne (V : Validators) (b : Bundle)
    (h : (stringsSplit b.Version '.').length ≠ 3) :
    Bundle.validateVersion V b =
      Except.error (invalidBundle "version format must be '<major>.<minor>.<patch>'") := by
  unfold Bundle.validateVersion
  rcases hs : stringsSplit b.Version '.' with _ | ⟨x, _ | ⟨y, _ | ⟨z, _ | ⟨w, l⟩⟩⟩⟩
  · rfl
  · rfl
  · rfl
  · rw [hs] at h
    exact absurd rfl h
  · rfl

/-- What `Bundle.Validate` does once the checks of the entries have passed. -/
theorem Bundle_Validate_of_entries (V : Validators) (b : Bundle)
    (h1 : b.Changelogs.len ≠ 0)
    (h2 : ∀ c ∈ b.Changelogs.elems, V.changelog c = Except.ok ())
    (h3 : b.Components.len ≠ 0)
    (h4 : ∀ c ∈ b.Components.elems, V.component c = Except.ok ())
    (h5 : ∀ d ∈ b.Dependencies.elems, V.dependency d = Except.ok ()) :
    Bundle.Validate V b =
      if b.Time = emptyTime then Except.error (invalidBundle "time must not be empty")
      else if b.Name = "" then Except.error (invalidBundle "name must not be empty")
      else Bundle.validateVersion V b := by
  unfold Bundle.Validate
  rw [if_neg h1, (firstError_eq_none_iff V.changelog _).mpr h2]
  simp only []
  rw [if_neg h3, (firstError_eq_none_iff V.component _).mpr h4]
  simp only []
  rw [(firstError_eq_none_iff V.dependency _).mpr h5]

/-- The valid bundle of test 12 with the zero time and a version of four
segments is rejected with the reason of the time check, not that of the version
format: counterexample to C34. -/
theorem Bundle_Validate_order_counterexample :
    Bundle.Validate specValidators kubernetesOperatorWildcard = Except.ok () ∧
    kubernetesOperatorNoTimeBadVersion.Changelogs = kubernetesOperatorWildcard.Changelogs ∧
    kubernetesOperatorNoTimeBadVersion.Components = kubernetesOperatorWildcard.Components ∧
    kubernetesOperatorNoTimeBadVersion.Dependencies =
      kubernetesOperatorWildcard.Dependencies ∧
    kubernetesOperatorNoTimeBadVersion.Time = emptyTime ∧
    (stringsSplit kubernetesOperatorNoTimeBadVersion.Version '.').length = 4 ∧
    Bundle.Validate specValidators kubernetesOperatorNoTimeBadVersion =
      Except.error (invalidBundle "time must not be empty") := by
  decide

/-- The loop over the entries returns the error of the first entry that
fails. -/
theorem firstError_of_split {α : Type} (validate : α → Except Error Unit)
    (a : α) (post : List α) (e : Error) (ha : validate a = Except.error e) :
    ∀ pre : List α, (∀ x ∈ pre, validate x = Except.ok ()) →
      firstError validate (pre ++ a :: post) = some e := by
  intro pre
  induction pre with
  | nil =>
    intro _
    show firstError validate (a :: post) = some e
    unfold firstError
    rw [ha]
  | cons x pre ih =>
    intro hpre
    show firstError validate (x :: (pre ++ a :: post)) = some e
    unfold firstError
    rw [hpre x (List.mem_cons_self _ _)]
    exact ih (fun y hy => hpre y (List.mem_cons_of_mem _ hy))

/-- The check of the version on a split of three segments: major, minor and
patch are tested in this order. -/
theorem validateVersion_of_three (V : Validators) (b : Bundle)
    (major minor patch : String)
    (hs : stringsSplit b.Version '.' = [major, minor, patch]) :
    Bundle.validateVersion V b =
      if V.isPositiveNumber major = false then
        Except.error (invalidBundle "major version must be positive number")
      else if V.isPositiveNumber minor = false then
        Except.error (invalidBundle "minor version must be positive number")
      else if V.isPositiveNumber patch = false then
        Except.error (invalidBundle "patch version must be positive number")
      else Except.ok () := by
  unfold Bundle.validateVersion
  rw [hs]
  simp only []
  cases h1 : V.isPositiveNumber major <;> cases h2 : V.isPositiveNumber minor <;>
    cases h3 : V.isPositiveNumber patch <;> simp

/-- C34, amended: `Bundle.Validate` runs its checks in the order changelogs
(not empty, then each entry in turn), components (not empty, then each entry in
turn), dependencies (each entry in turn), time, name, and the version last
(three segments, then major, minor and patch), and reports the first check that
fails, whatever the later ones would find; it accepts when none fails. An empty
list of changelogs is reported whatever the other fields hold; otherwise the
first changelog that fails is reported with its own reason; with valid
changelogs the same holds for the components, and with valid components for
the first dependency that fails. With valid entries a zero time is reported
with the reason of the time check whatever the name and the version are, then
an empty name whatever the version is, and the version is looked at only when
the time is not zero and the name is not empty. -/
theorem Bundle_Validate_check_order (V : Validators) (b : Bundle) :
    (b.Changelogs.len = 0 →
      Bundle.Validate V b = Except.error (invalidBundle "changelogs must not be empty")) ∧
    (∀ (pre : List Changelog) (c : Changelog) (post : List Changelog) (err : Error),
      b.Changelogs.elems = pre ++ c :: post →
      (∀ x ∈ pre, V.changelog x = Except.ok ()) →
      V.changelog c = Except.error err →
      Bundle.Validate V b = Except.error (invalidBundle err.reason)) ∧
    (b.Changelogs.len ≠ 0 →
      (∀ c ∈ b.Changelogs.elems, V.changelog c = Except.ok ()) →
      (b.Components.len = 0 →
        Bundle.Validate V b =
          Except.error (invalidBundle "components must not be empty")) ∧
      (∀ (pre : List Component) (c : Component) (post : List Component) (err : Error),
        b.Components.elems = pre ++ c :: post →
        (∀ x ∈ pre, V.component x = Except.ok ()) →
        V.component c = Except.error err →
        Bundle.Validate V b = Except.error (invalidBundle err.reason)) ∧
      (b.Components.len ≠ 0 →
        (∀ c ∈ b.Components.elems, V.component c = Except.ok ()) →
        (∀ (pre : List Dependency) (d : Dependency) (post : List Dependency) (err : Error),
          b.Dependencies.elems = pre ++ d :: post →
          (∀ x ∈ pre, V.dependency x = Except.ok ()) →
          V.dependency d = Except.error err →
          Bundle.Validate V b = Except.error (invalidBundle err.reason)) ∧
        ((∀ d ∈ b.Dependencies.elems, V.dependency d = Except.ok ()) →
          (b.Time = emptyTime →
            Bundle.Validate V b =
              Except.error (invalidBundle "time must not be empty")) ∧
          (b.Time ≠ emptyTime → b.Name = "" →
            Bundle.Validate V b =
              Except.error (invalidBundle "name must not be empty")) ∧
          (b.Time ≠ emptyTime → b.Name ≠ "" →
            ((stringsSplit b.Version '.').length ≠ 3 →
              Bundle.Validate V b =
                Except.error
                  (invalidBundle "version format must be '<major>.<minor>.<patch>'")) ∧
            (∀ major minor patch : String,
              stringsSplit b.Version '.' = [major, minor, patch] →
              (V.isPositiveNumber major = false →
                Bundle.Validate V b =
                  Except.error (invalidBundle "major version must be positive number")) ∧
              (V.isPositiveNumber major = true → V.isPositiveNumber minor = false →
                Bundle.Validate V b =
                  Except.error (invalidBundle "minor version must be positive number")) ∧
              (V.isPositiveNumber major = true → V.isPositiveNumber minor = true →
                V.isPositiveNumber patch = false →
                Bundle.Validate V b =
                  Except.error (invalidBundle "patch version must be positive number")) ∧
              (V.isPositiveNumber major = true → V.isPositiveNumber minor = true →
                V.isPositiveNumber patch = true →
                Bundle.Validate V b = Except.ok ())))))) := by
  refine ⟨?_, ?_, ?_⟩
  · intro h
    unfold Bundle.Validate
    rw [if_pos h]
  · intro pre c post err hsplit hpre hc
    have hlen : b.Changelogs.len ≠ 0 := by
      unfold Slice.len
      rw [hsplit]
      simp
    unfold Bundle.Validate
    rw [if_neg hlen, hsplit, firstError_of_split V.changelog c post err hc pre hpre]
  · intro h1 h2
    have hcl : firstError V.changelog b.Changelogs.elems = none :=
      (firstError_eq_none_iff V.changelog _).mpr h2
    refine ⟨?_, ?_, ?_⟩
    · intro h3
      unfold Bundle.Validate
      rw [if_neg h1, hcl]
      simp only []
      rw [if_pos h3]
    · intro pre c post err hsplit hpre hc
      have hlen : b.Components.len ≠ 0 := by
        unfold Slice.len
        rw [hsplit]
        simp
      unfold Bundle.Validate
      rw [if_neg h1, hcl]
      simp only []
      rw [if_neg hlen, hsplit, firstError_of_split V.component c post err hc pre hpre]
    · intro h3 h4
      have hco : firstError V.component b.Components.elems = none :=
        (firstError_eq_none_iff V.component _).mpr h4
      refine ⟨?_, ?_⟩
      · intro pre d post err hsplit hpre hd
        unfold Bundle.Validate
        rw [if_neg h1, hcl]
        simp only []
        rw [if_neg h3, hco]
        simp only []
        rw [hsplit, firstError_of_split V.dependency d post err hd pre hpre]
      · intro h5
        rw [Bundle_Validate_of_entries V b h1 h2 h3 h4 h5]
        refine ⟨?_, ?_, ?_⟩
        · intro ht
          rw [if_pos ht]
        · intro ht hn
          rw [if_neg ht, if_pos hn]
        · intro ht hn
          rw [if_neg ht, if_neg hn]
          refine ⟨validateVersion_of_length_ne V b, ?_⟩
          intro major minor patch hs
          rw [validateVersion_of_three V b major minor patch hs]
          refine ⟨?_, ?_, ?_, ?_⟩
          · intro hM
            rw [if_pos hM]
          · intro hM hm
            rw [if_neg (by rw [hM]; decide), if_pos hm]
          · intro hM hm hp
            rw [if_neg (by rw [hM]; decide), if_neg (by rw [hm]; decide), if_pos hp]
          · intro hM hm hp
            rw [if_neg (by rw [hM]; decide), if_neg (by rw [hm]; decide),
              if_neg (by rw [hp]; decide)]

/-- Witness of the amended C34. The valid bundle of test 12 with the zero time
and a version of four segments is rejected with the reason of the time check;
the bundle with a changelog that fails, the zero time and that version is
rejected with the reason of the changelog. -/
theorem Bundle_Validate_check_order_witness :
    kubernetesOperatorNoTimeBadVersion.Time = emptyTime ∧
    (stringsSplit kubernetesOperatorNoTimeBadVersion.Version '.').length ≠ 3 ∧
    Bundle.Validate specValidators kubernetesOperatorNoTimeBadVersion =
      Except.error (invalidBundle "time must not be empty") ∧
    Bundle.Validate specValidators
        { kubernetesOperatorBadChangelog with Time := emptyTime, Version := "1.2.3.4" } =
      Except.error (invalidBundle "component must not be empty") :=
  ⟨by decide, by decide,
    ((((Bundle_Validate_check_order specValidators kubernetesOperatorNoTimeBadVersion).2.2
      (by decide) (by decide)).2.2 (by decide) (by decide)).2 (by decide)).1 (by decide),
    (Bundle_Validate_check_order specValidators
      { kubernetesOperatorBadChangelog with Time := emptyTime, Version := "1.2.3.4" }).2.1
      [] ⟨"", "Calico version updated.", "changed"⟩ []
      ⟨ErrorKind.other "invalidChangelogError", "component must not be empty"⟩
      (by decide) (by decide) (by decide)⟩

/-- The candidate group does not depend on the order in which the sort by name
finds the members. -/
theorem newGroupOfWith_eq (presort : List Bundle → List Bundle)
    (hp : ∀ l, (presort l).Perm l) (Matches : Dependency → Component → Bool)
    (bundles : List Bundle) (b1 : Bundle) :
    newGroupOfWith presort Matches bundles b1 = newGroupOf Matches bundles b1 :=
  newGroupOf_sort_irrelevant Matches bundles b1 _ (hp _)

theorem groupedStepWith_eq (presort : List Bundle → List Bundle)
    (hp : ∀ l, (presort l).Perm l) (Matches : Dependency → Component → Bool)
    (bundles : List Bundle) :
    groupedStepWith presort Matches bundles = groupedStep Matches bundles := by
  funext acc b1
  unfold groupedStepWith groupedStep
  rw [newGroupOfWith_eq presort hp]

theorem AggregateWith_eq (presort : List Bundle → List Bundle)
    (hp : ∀ l, (presort l).Perm l) (Matches : Dependency → Component → Bool)
    (bundles : List Bundle) :
    AggregateWith presort Matches bundles = Aggregate Matches bundles := by
  unfold AggregateWith Aggregate groupBundles
  rw [groupedStepWith_eq presort hp]

/-- C35: in every group returned by `Aggregate` the authority names ascend
strictly from the first member to the last, and the group is the only
arrangement of its members with that property, so the order of the members
depends on the names only; with any rearrangement in place of the sort by
version string, the identity included, `Aggregate` returns the same result. -/
theorem Aggregate_member_order_by_name_only (Matches : Dependency → Component → Bool)
    (bundles : List Bundle) (groups : List (List Bundle))
    (h : Aggregate Matches bundles = Except.ok groups) :
    (∀ g ∈ groups, NameStrictAscending g ∧
      ∀ g2 : List Bundle, g2.Perm g → NameStrictAscending g2 → g2 = g) ∧
    (∀ presort : List Bundle → List Bundle, (∀ l, (presort l).Perm l) →
      AggregateWith presort Matches bundles = Except.ok groups) := by
  refine ⟨?_, ?_⟩
  · intro g hg
    obtain ⟨s, _, rfl, _⟩ := (mem_of_Aggregate_ok h g).mp hg
    have hasc := newGroupOf_strictAscending Matches bundles s
    exact ⟨hasc, fun g2 hperm h2 => NameStrictAscending.eq_of_perm h2 hasc hperm⟩
  · intro presort hp
    rw [AggregateWith_eq presort hp, h]

/-- Witness of C35 on the input of test 3, whose group has the versions 0.2.0
and 0.1.0 in this order: without the sort by version the result is the same. -/
theorem Aggregate_member_order_by_name_only_witness :
    Aggregate Dependency.Matches [cloudConfigOperator020, kubernetesOperatorWildcard] =
      Except.ok [[cloudConfigOperator020, kubernetesOperatorWildcard]] ∧
    AggregateWith id Dependency.Matches
        [cloudConfigOperator020, kubernetesOperatorWildcard] =
      Except.ok [[cloudConfigOperator020, kubernetesOperatorWildcard]] :=
  ⟨by decide,
    (Aggregate_member_order_by_name_only Dependency.Matches
      [cloudConfigOperator020, kubernetesOperatorWildcard]
      [[cloudConfigOperator020, kubernetesOperatorWildcard]] (by decide)).2 id
      (fun l => List.Perm.refl l)⟩

/-- The first loop of `ValidateGroupedBundles.Validate` finds a group whose
length is not that of the first group. -/
theorem lengthsDiffer_eq_true_iff (b : List (List Bundle)) :
    ValidateGroupedBundles.lengthsDiffer b = true ↔
      ∃ g0, b.head? = some g0 ∧ ∃ g ∈ b, g.length ≠ g0.length := by
  cases b with
  | nil => simp [ValidateGroupedBundles.lengthsDiffer]
  | cons g0 rest =>
    unfold ValidateGroupedBundles.lengthsDiffer
    rw [List.any_eq_true]
    constructor
    · rintro ⟨g, hg, hne⟩
      refine ⟨g0, rfl, g, hg, ?_⟩
      intro heq
      exact (of_decide_eq_true hne) heq.symm
    · rintro ⟨g1, h1, g, hg, hne⟩
      have : g0 = g1 := by simpa using h1
      subst this
      exact ⟨g, hg, decide_eq_true (fun heq => hne heq.symm)⟩

/-- The second loop of `ValidateGroupedBundles.Validate` finds a group whose
number of deprecated bundles is the number of groups. -/
theorem deprecatedRule_eq_true_iff (b : List (List Bundle)) :
    b.any (fun group => decide (deprecatedCount group = b.length)) = true ↔
      ∃ g ∈ b, g.countP (fun x => x.Deprecated) = b.length := by
  rw [List.any_eq_true]
  constructor
  · rintro ⟨g, hg, h⟩
    exact ⟨g, hg, by rw [← deprecatedCount_eq_countP]; exact of_decide_eq_true h⟩
  · rintro ⟨g, hg, h⟩
    exact ⟨g, hg, decide_eq_true (by rw [deprecatedCount_eq_countP]; exact h)⟩

/-- C36: `ValidateGroupedBundles.Validate` returns an error exactly when some
group's length differs from the length of the first group, or some group's
number of deprecated bundles equals the number of groups of the list, and no
error otherwise; on the empty list it returns no error. A single group of two
bundles of which one is deprecated is rejected, a single group of two deprecated
bundles is not. -/
theorem ValidateGroupedBundles_Validate_error_iff (b : List (List Bundle)) :
    ((∃ e, ValidateGroupedBundles.Validate b = Except.error e) ↔
      (∃ g0, b.head? = some g0 ∧ ∃ g ∈ b, g.length ≠ g0.length) ∨
      (∃ g ∈ b, g.countP (fun x => x.Deprecated) = b.length)) ∧
    (ValidateGroupedBundles.Validate b = Except.ok () ↔
      ¬ ((∃ g0, b.head? = some g0 ∧ ∃ g ∈ b, g.length ≠ g0.length) ∨
        (∃ g ∈ b, g.countP (fun x => x.Deprecated) = b.length))) ∧
    ValidateGroupedBundles.Validate [] = Except.ok () ∧
    (∃ e, ValidateGroupedBundles.Validate
      [[awsOperator010, cloudConfigOperatorDeprecated]] = Except.error e) ∧
    ValidateGroupedBundles.Validate
      [[awsOperatorDeprecated, cloudConfigOperatorDeprecated]] = Except.ok () := by
  have key : ValidateGroupedBundles.Validate b = Except.ok () ↔
      ¬ ((∃ g0, b.head? = some g0 ∧ ∃ g ∈ b, g.length ≠ g0.length) ∨
        (∃ g ∈ b, g.countP (fun x => x.Deprecated) = b.length)) := by
    rw [← lengthsDiffer_eq_true_iff, ← deprecatedRule_eq_true_iff]
    unfold ValidateGroupedBundles.Validate
    by_cases h1 : ValidateGroupedBundles.lengthsDiffer b = true
    · rw [if_pos h1]
      simp [h1]
    · rw [if_neg h1]
      by_cases h2 : b.any (fun group => decide (deprecatedCount group = b.length)) = true
      · rw [if_pos h2]
        simp [h2]
      · rw [if_neg h2]
        simp only [true_iff, not_or]
        exact ⟨h1, h2⟩
  refine ⟨?_, key, by decide,
    ⟨⟨ErrorKind.invalidBundleError, "at least one bundle must not be deprecated"⟩,
      by decide⟩, by decide⟩
  rw [← not_iff_not, ← key]
  cases hv : ValidateGroupedBundles.Validate b with
  | ok u => simp
  | error e => simp

/-- C37: the equal-length check can never be what makes `Aggregate` fail. The
groups of the candidate list `Aggregate` hands to
`ValidateGroupedBundles.Validate` all have one length, the number of authority
names of the input, so the first loop of the validation finds nothing, and
every error `Aggregate` returns is that of the deprecated-bundle rule, raised
by a group whose number of deprecated bundles is the number of groups. -/
theorem Aggregate_never_fails_on_lengths (Matches : Dependency → Component → Bool)
    (bundles : List Bundle) :
    (∀ g1 ∈ groupBundles Matches bundles, ∀ g2 ∈ groupBundles Matches bundles,
      g1.length = g2.length) ∧
    ValidateGroupedBundles.lengthsDiffer (groupBundles Matches bundles) = false ∧
    (∀ e, Aggregate Matches bundles = Except.error e →
      e = ⟨ErrorKind.invalidBundleError, "at least one bundle must not be deprecated"⟩ ∧
      ∃ g ∈ groupBundles Matches bundles,
        deprecatedCount g = (groupBundles Matches bundles).length) := by
  have hlen : ∀ g ∈ groupBundles Matches bundles, g.length = distinctCount bundles :=
    fun g hg => length_of_mem_groupBundles hg
  refine ⟨fun g1 h1 g2 h2 => (hlen g1 h1).trans (hlen g2 h2).symm, ?_, ?_⟩
  · cases hd : ValidateGroupedBundles.lengthsDiffer (groupBundles Matches bundles) with
    | false => rfl
    | true =>
      obtain ⟨g0, h0, g, hg, hne⟩ := (lengthsDiffer_eq_true_iff _).mp hd
      have hg0 : g0 ∈ groupBundles Matches bundles := List.mem_of_mem_head? h0
      exact absurd ((hlen g hg).trans (hlen g0 hg0).symm) hne
  · intro e he
    have h2 : 2 ≤ bundles.length := by
      by_contra hlt
      have hcases : bundles.length = 0 ∨ bundles.length = 1 := by omega
      unfold Aggregate at he
      rcases hcases with h0 | h1
      · rw [if_pos h0] at he
        cases he
      · rw [if_neg (by omega), if_pos h1] at he
        cases he
    rw [Aggregate_of_two_le Matches bundles h2, Validate_of_uniform hlen] at he
    by_cases hany : (groupBundles Matches bundles).any
        (fun group => decide (deprecatedCount group = (groupBundles Matches bundles).length))
        = true
    · rw [if_pos hany] at he
      simp only [Except.error.injEq] at he
      obtain ⟨g, hg, hgd⟩ := List.any_eq_true.mp hany
      exact ⟨he.symm, g, hg, of_decide_eq_true hgd⟩
    · rw [if_neg hany] at he
      simp at he

/-- Witness of C37 on three deprecated bundles of two authorities: the two
candidate groups have two members each, both deprecated. -/
theorem Aggregate_never_fails_on_lengths_witness :
    groupBundles Dependency.Matches
        [cloudConfigOperatorDeprecated, cloudConfigOperator030Deprecated,
          awsOperatorDeprecated] =
      [[awsOperatorDeprecated, cloudConfigOperatorDeprecated],
        [awsOperatorDeprecated, cloudConfigOperator030Deprecated]] ∧
    ((⟨ErrorKind.invalidBundleError, "at least one bundle must not be deprecated"⟩ : Error) =
        ⟨ErrorKind.invalidBundleError, "at least one bundle must not be deprecated"⟩ ∧
      ∃ g ∈ groupBundles Dependency.Matches
          [cloudConfigOperatorDeprecated, cloudConfigOperator030Deprecated,
            awsOperatorDeprecated],
        deprecatedCount g = (groupBundles Dependency.Matches
          [cloudConfigOperatorDeprecated, cloudConfigOperator030Deprecated,
            awsOperatorDeprecated]).length) :=
  ⟨by decide,
    (Aggregate_never_fails_on_lengths Dependency.Matches
      [cloudConfigOperatorDeprecated, cloudConfigOperator030Deprecated,
        awsOperatorDeprecated]).2.2
      ⟨ErrorKind.invalidBundleError, "at least one bundle must not be deprecated"⟩
      (by decide)⟩

/-- Witness of C36 on one group of two bundles, one of them deprecated: the
number of deprecated bundles, 1, is the number of groups. -/
theorem ValidateGroupedBundles_Validate_error_iff_witness :
    [awsOperator010, cloudConfigOperatorDeprecated].countP (fun x => x.Deprecated) =
      [[awsOperator010, cloudConfigOperatorDeprecated]].length ∧
    ∃ e, ValidateGroupedBundles.Validate
      [[awsOperator010, cloudConfigOperatorDeprecated]] = Except.error e :=
  ⟨by decide,
    (ValidateGroupedBundles_Validate_error_iff
      [[awsOperator010, cloudConfigOperatorDeprecated]]).1.mpr
      (Or.inr ⟨[awsOperator010, cloudConfigOperatorDeprecated], by decide, by decide⟩)⟩

/-- The candidate group of a seed whose authority is the only one of the input
is the seed alone. -/
theorem newGroupOf_of_one_authority (Matches : Dependency → Component → Bool)
    (bundles : List Bundle) (hname : ∀ a ∈ bundles, ∀ b ∈ bundles, a.Name = b.Name)
    (s : Bundle) (hs : s ∈ bundles) :
    newGroupOf Matches bundles s = [s] := by
  apply eq_singleton_of_mem
      (nodup_of_nodup_names (newGroupOf_nodup_names Matches bundles s))
  intro x
  rw [mem_newGroupOf]
  constructor
  · rintro (h | ⟨hne, hf⟩)
    · exact h
    · exact absurd (hname x (List.mem_of_find?_eq_some hf) s hs) hne
  · intro h
    exact Or.inl h

theorem distinctCount_of_one_authority (bundles : List Bundle)
    (hname : ∀ a ∈ bundles, ∀ b ∈ bundles, a.Name = b.Name)
    (s : Bundle) (hs : s ∈ bundles) : distinctCount bundles = 1 := by
  have := @distinctCount_eq_length_of_cover bundles [s]
    (fun b hb => by
      rw [List.mem_singleton] at hb
      rw [hb]
      exact hs)
    (by simp)
    (fun b hb => ⟨s, List.mem_singleton_self s, hname s hs b hb⟩)
  simpa using this

theorem deprecatedCount_singleton_le (b : Bundle) : deprecatedCount [b] ≤ 1 := by
  rw [deprecatedCount_eq_countP]
  exact (List.countP_le_length _).trans (by simp)

/-- C38: for every input of two or more pairwise distinct bundles that all
carry one authority name, `Aggregate` returns without error one group per
bundle of the input, the bundle alone, in input order, whatever the
dependencies, components and Deprecated flags are. -/
theorem Aggregate_one_authority (Matches : Dependency → Component → Bool)
    (bundles : List Bundle) (hlen : 2 ≤ bundles.length) (hnd : bundles.Nodup)
    (hname : ∀ a ∈ bundles, ∀ b ∈ bundles, a.Name = b.Name) :
    Aggregate Matches bundles = Except.ok (bundles.map (fun b => [b])) := by
  have hgroups : groupBundles Matches bundles = bundles.map (fun b => [b]) := by
    rw [groupBundles_eq_appendNew]
    have hmap : (bundles.map (newGroupOf Matches bundles)).filter
        (fun g => decide (distinctCount bundles = g.length)) =
        bundles.map (fun b => [b]) := by
      have h1 : bundles.map (newGroupOf Matches bundles) = bundles.map (fun b => [b]) :=
        List.map_congr_left (fun s hs => newGroupOf_of_one_authority Matches bundles hname s hs)
      rw [h1, List.filter_eq_self]
      intro g hg
      obtain ⟨s, hs, rfl⟩ := List.mem_map.mp hg
      rw [distinctCount_of_one_authority bundles hname s hs]
      rfl
    rw [hmap, appendNew_of_new _ _ ?_ (fun _ _ h => by cases h)]
    · rfl
    · exact hnd.map (fun a b hab => by simpa using hab)
  have hval : ValidateGroupedBundles.Validate (groupBundles Matches bundles) =
      Except.ok () := by
    have huni : ∀ g ∈ groupBundles Matches bundles, g.length = 1 := by
      intro g hg
      rw [hgroups] at hg
      obtain ⟨s, _, rfl⟩ := List.mem_map.mp hg
      rfl
    rw [Validate_of_uniform huni, if_neg]
    rw [Bool.not_eq_true, List.any_eq_false]
    intro g hg
    rw [hgroups] at hg
    obtain ⟨s, _, rfl⟩ := List.mem_map.mp hg
    have h1 := deprecatedCount_singleton_le s
    have h2 : (groupBundles Matches bundles).length = bundles.length := by
      rw [hgroups, List.length_map]
    simp only [decide_eq_true_eq]
    omega
  rw [Aggregate_of_Validate_ok Matches bundles hval, hgroups]

/-- Witness of C38 on the two deprecated bundles of `cloud-config-operator`. -/
theorem Aggregate_one_authority_witness :
    cloudConfigOperatorDeprecated.Deprecated = true ∧
    cloudConfigOperator030Deprecated.Deprecated = true ∧
    Aggregate Dependency.Matches
        [cloudConfigOperatorDeprecated, cloudConfigOperator030Deprecated] =
      Except.ok ([cloudConfigOperatorDeprecated, cloudConfigOperator030Deprecated].map
        (fun b => [b])) :=
  ⟨by decide, by decide,
    Aggregate_one_authority Dependency.Matches
      [cloudConfigOperatorDeprecated, cloudConfigOperator030Deprecated]
      (by decide) (by decide) (by decide)⟩

/-- C39: for every input whose bundles carry at most two distinct authority
names, every group returned by `Aggregate` is pairwise conflict-free: two
distinct members conflict in neither direction. -/
theorem Aggregate_two_authorities_conflict_free (Matches : Dependency → Component → Bool)
    (bundles : List Bundle) (groups : List (List Bundle))
    (hnames : (bundles.map Bundle.Name).toFinset.card ≤ 2)
    (h : Aggregate Matches bundles = Except.ok groups) :
    ∀ g ∈ groups, ∀ b1 ∈ g, ∀ b2 ∈ g, b1 ≠ b2 →
      bundlesConflictWithDependencies Matches b1 b2 = false ∧
      bundlesConflictWithDependencies Matches b2 b1 = false := by
  intro g hg b1 hb1 b2 hb2 hne
  obtain ⟨s, _, rfl, hfull⟩ := (mem_of_Aggregate_ok h g).mp hg
  have hlen : (newGroupOf Matches bundles s).length ≤ 2 := by
    rw [← hfull, distinctCount_eq_card]
    exact hnames
  have hseed : ∀ b ∈ newGroupOf Matches bundles s, b ≠ s →
      bundlesConflictWithDependencies Matches s b = false ∧
      bundlesConflictWithDependencies Matches b s = false := by
    intro b hb hbs
    have := of_mem_newGroupOf hb hbs
    exact ⟨this.2.2.1, this.2.2.2⟩
  by_cases h1 : b1 = s
  · subst h1
    exact hseed b2 hb2 (fun h2 => hne h2.symm)
  · by_cases h2 : b2 = s
    · subst h2
      exact ⟨(hseed b1 hb1 h1).2, (hseed b1 hb1 h1).1⟩
    · exfalso
      have hnd : [s, b1, b2].Nodup := by
        simp only [List.nodup_cons, List.mem_cons, List.mem_singleton, List.not_mem_nil,
          not_or, not_false_eq_true, List.nodup_nil, and_true, or_false]
        exact ⟨⟨fun h3 => h1 h3.symm, fun h3 => h2 h3.symm⟩, hne⟩
      have hsub : [s, b1, b2] ⊆ newGroupOf Matches bundles s := by
        intro x hx
        simp only [List.mem_cons, List.mem_singleton, List.not_mem_nil, or_false] at hx
        rcases hx with rfl | rfl | rfl
        · exact seed_mem_newGroupOf Matches bundles _
        · exact hb1
        · exact hb2
      have := (List.subperm_of_subset hnd hsub).length_le
      simp at this
      omega

/-- Witness of C39 on the input of test 6, which has two authority names. -/
theorem Aggregate_two_authorities_conflict_free_witness :
    ([cloudConfigOperator020, cloudConfigOperator030, kubernetesOperatorPinned].map
      Bundle.Name).toFinset.card = 2 ∧
    Aggregate Dependency.Matches
        [cloudConfigOperator020, cloudConfigOperator030, kubernetesOperatorPinned] =
      Except.ok [[cloudConfigOperator030, kubernetesOperatorPinned]] ∧
    ∀ g ∈ [[cloudConfigOperator030, kubernetesOperatorPinned]], ∀ b1 ∈ g, ∀ b2 ∈ g,
      b1 ≠ b2 →
      bundlesConflictWithDependencies Dependency.Matches b1 b2 = false ∧
      bundlesConflictWithDependencies Dependency.Matches b2 b1 = false :=
  ⟨by decide, by decide,
    Aggregate_two_authorities_conflict_free Dependency.Matches
      [cloudConfigOperator020, cloudConfigOperator030, kubernetesOperatorPinned]
      [[cloudConfigOperator030, kubernetesOperatorPinned]] (by decide) (by decide)⟩

/-- C40: coverage. When `Aggregate` returns no error, every bundle `b` of the
input for which each other authority of the input has at least one bundle that
is conflict-free with `b` in both directions is a member of at least one
returned group, the group of which `b` is the seed. -/
theorem Aggregate_covers_compatible_bundles (Matches : Dependency → Component → Bool)
    (bundles : List Bundle) (groups : List (List Bundle))
    (h : Aggregate Matches bundles = Except.ok groups)
    (b : Bundle) (hb : b ∈ bundles)
    (hothers : ∀ x ∈ bundles, x.Name ≠ b.Name →
      ∃ c ∈ bundles, c.Name = x.Name ∧
        bundlesConflictWithDependencies Matches b c = false ∧
        bundlesConflictWithDependencies Matches c b = false) :
    ∃ g ∈ groups, b ∈ g := by
  refine ⟨newGroupOf Matches bundles b, ?_, seed_mem_newGroupOf Matches bundles b⟩
  rw [mem_of_Aggregate_ok h]
  refine ⟨b, hb, rfl, ?_⟩
  rw [full_iff_names_cover Matches bundles b hb, names_cover_iff_fits]
  intro x hx hne
  obtain ⟨c, hc, hcn, hc1, hc2⟩ := hothers x hx hne
  apply find?_exists_of_mem hc
  unfold fits
  simp [hcn, hc1, hc2]

/-- Witness of C40 on the input of test 6 and the bundle
`kubernetesOperatorPinned`, with which `cloudConfigOperator030` is
conflict-free. -/
theorem Aggregate_covers_compatible_bundles_witness :
    Aggregate Dependency.Matches
        [cloudConfigOperator020, cloudConfigOperator030, kubernetesOperatorPinned] =
      Except.ok [[cloudConfigOperator030, kubernetesOperatorPinned]] ∧
    ∃ g ∈ [[cloudConfigOperator030, kubernetesOperatorPinned]],
      kubernetesOperatorPinned ∈ g :=
  ⟨by decide,
    Aggregate_covers_compatible_bundles Dependency.Matches
      [cloudConfigOperator020, cloudConfigOperator030, kubernetesOperatorPinned]
      [[cloudConfigOperator030, kubernetesOperatorPinned]] (by decide)
      kubernetesOperatorPinned (by decide)
      (by
        intro x hx hne
        refine ⟨cloudConfigOperator030, by decide, ?_, by decide, by decide⟩
        simp only [List.mem_cons, List.mem_singleton, List.not_mem_nil, or_false] at hx
        rcases hx with rfl | rfl | rfl
        · rfl
        · rfl
        · exact absurd rfl hne)⟩

end Versionbundle
